import Mathlib

/-!
Shallow embedding of the graphql-go recursive-descent parser
(package `parser`, file `parser.go`) together with the AST package
(`language/ast/ast.go`).  The lexer, the `source`, `kinds`, `od` and `fd`
packages and the error constructors are external collaborators of the parser
that are not part of the given sources; they are modelled from the
specification (each such definition is marked `Modelled from the spec:`).

Conventions of the embedding:
* Go `(value, error)` returns become `Res α` / plain triples; a Go runtime
  panic (out-of-bounds slice index assignment) becomes the `Res.panicked`
  outcome; recursion is made total with an explicit fuel argument whose
  exhaustion is the `Res.outOfFuel` outcome.
* Byte offsets are `Nat`; Go nil pointers/interfaces become `Option` or a
  dedicated nil constructor; Go zero values are spelled out explicitly.
-/

set_option maxHeartbeats 1000000

namespace GQL

/-- Modelled from the spec: the raw source-text wrapper (text plus an
optional name) used purely for attaching locations to errors. -/
structure Source where
  Body : String
  Name : String
deriving Repr, DecidableEq

/-- Modelled from the spec: `source.NewSource`. -/
def NewSource (body : String) (name : String) : Source :=
  { Body := body, Name := name }

/-- Modelled from the spec: the token kinds required by this grammar
(end-of-input, name, scalar literal kinds reserved for future use, the
punctuators, and the fragment-spread marker).  `ILLEGAL` stands for a
character at which the tokenizer cannot form a token. -/
inductive TKind where
  | EOF | BANG | DOLLAR | PAREN_L | PAREN_R | SPREAD | COLON | EQUALS
  | AT | BRACKET_L | BRACKET_R | BRACE_L | BRACE_R | NAME | INT | FLOAT
  | STRING | ILLEGAL
deriving Repr, DecidableEq

/-- Modelled from the spec: a lexed token (kind tag, text value, start
offset, end offset). -/
structure Token where
  Kind : TKind
  Value : String
  Start : Nat
  End : Nat
deriving Repr, DecidableEq

instance : Inhabited Token := ⟨{ Kind := .EOF, Value := "", Start := 0, End := 0 }⟩

/-- Modelled from the spec: human-readable description of a token kind
(used in "Expected X, found Y" messages). -/
def GetTokenKindDesc : TKind → String
  | .EOF => "EOF"
  | .BANG => "!"
  | .DOLLAR => "$"
  | .PAREN_L => "("
  | .PAREN_R => ")"
  | .SPREAD => "..."
  | .COLON => ":"
  | .EQUALS => "="
  | .AT => "@"
  | .BRACKET_L => "["
  | .BRACKET_R => "]"
  | .BRACE_L => "\x7b"
  | .BRACE_R => "\x7d"
  | .NAME => "Name"
  | .INT => "Int"
  | .FLOAT => "Float"
  | .STRING => "String"
  | .ILLEGAL => "Illegal"

/-- Modelled from the spec: human-readable description of a token
(kind description, plus the token text when it has one). -/
def GetTokenDesc (t : Token) : String :=
  if t.Value = "" then GetTokenKindDesc t.Kind
  else GetTokenKindDesc t.Kind ++ " \"" ++ t.Value ++ "\""

/-- Modelled from the spec: characters the tokenizer skips between tokens. -/
def isIgnored (c : Char) : Bool :=
  c = ' ' || c = '\t' || c = '\n' || c = '\r' || c = ','

def isNameStart (c : Char) : Bool := c.isAlpha || c = '_'

def isNameCont (c : Char) : Bool := c.isAlpha || c.isDigit || c = '_'

/-- Modelled from the spec: skip ignored characters, keeping track of the
current byte offset. -/
def skipIgnored : List Char → Nat → List Char × Nat
  | [], i => ([], i)
  | c :: cs, i =>
    if isIgnored c then skipIgnored cs (i + 1) else (c :: cs, i)

/-- Modelled from the spec: classification of the single token that starts
at the given character sequence: its kind, its text value, and the number
of characters it occupies. -/
def lexOne : List Char → TKind × String × Nat
  | [] => (.EOF, "", 0)
  | c :: cs =>
    if c = '!' then (.BANG, "", 1)
    else if c = '$' then (.DOLLAR, "", 1)
    else if c = '(' then (.PAREN_L, "", 1)
    else if c = ')' then (.PAREN_R, "", 1)
    else if c = ':' then (.COLON, "", 1)
    else if c = '=' then (.EQUALS, "", 1)
    else if c = '@' then (.AT, "", 1)
    else if c = '[' then (.BRACKET_L, "", 1)
    else if c = ']' then (.BRACKET_R, "", 1)
    else if c = '\x7b' then (.BRACE_L, "", 1)
    else if c = '\x7d' then (.BRACE_R, "", 1)
    else if c = '.' then
      match cs with
      | '.' :: '.' :: _ => (.SPREAD, "", 3)
      | _ => (.ILLEGAL, String.mk [c], 1)
    else if c = '"' then
      let s := cs.takeWhile (fun d => d ≠ '"')
      if s.length < cs.length then (.STRING, String.mk s, s.length + 2)
      else (.ILLEGAL, String.mk [c], 1)
    else if isNameStart c then
      let s := (c :: cs).takeWhile isNameCont
      (.NAME, String.mk s, s.length)
    else if c.isDigit then
      let s := (c :: cs).takeWhile Char.isDigit
      (.INT, String.mk s, s.length)
    else (.ILLEGAL, String.mk [c], 1)

/-- Modelled from the spec: the tokenizer as a pure function of the source
body and a byte offset: it returns the next token beginning at or after
that offset (an `EOF` token at end of input; an `ILLEGAL` token where the
real tokenizer would signal a lexical error). -/
def lexAt (body : String) (pos : Nat) : Token :=
  let (rest, i) := skipIgnored (body.data.drop pos) pos
  let (k, v, len) := lexOne rest
  { Kind := k, Value := v, Start := i, End := i + len }

/- Modelled from the spec: the string constants of the `kinds` package. -/
namespace kinds

def Document : String := "Document"
def OperationDefinition : String := "OperationDefinition"
def FragmentDefinition : String := "FragmentDefinition"
def SelectionSet : String := "SelectionSet"
def Field : String := "Field"
def Argument : String := "Argument"
def FragmentSpread : String := "FragmentSpread"
def InlineFragment : String := "InlineFragment"
def Name : String := "Name"
def NamedType : String := "NamedType"
def ListType : String := "ListType"
def NonNullType : String := "NonNullType"
def Variable : String := "Variable"
def VariableDefinition : String := "VariableDefinition"
def Directive : String := "Directive"
def Array : String := "Array"

end kinds

/-- ast.Location: a source span.  The Go `Source` field is a pointer that is
nil in the zero value and under the NoSource option. -/
structure Location where
  Start : Nat
  End : Nat
  Source : Option Source
deriving Repr, DecidableEq

/-- The Go zero value of ast.Location. -/
def zeroLocation : Location := { Start := 0, End := 0, Source := none }

instance : Inhabited Location := ⟨zeroLocation⟩

/-- ast.Name. -/
structure Name where
  Kind : String
  Loc : Location
  Value : String
deriving Repr, DecidableEq

/-- The Go zero value of ast.Name. -/
def zeroName : Name := { Kind := "", Loc := zeroLocation, Value := "" }

/-- ast.Variable. -/
structure Variable where
  Kind : String
  Loc : Location
  Name : Name
deriving Repr, DecidableEq

/-- The Go zero value of ast.Variable. -/
def zeroVariable : Variable := { Kind := "", Loc := zeroLocation, Name := zeroName }

mutual

/-- ast.Value: an interface in Go.  The parser only ever stores a nil
interface value or an ast.ArrayValue in it. -/
inductive Value where
  | nilValue : Value
  | array : ArrayValue → Value
deriving Repr

/-- ast.ArrayValue (fields Kind, Loc, Values). -/
inductive ArrayValue where
  | mk : String → Location → List Value → ArrayValue
deriving Repr

end

/-- The Go zero value of ast.ArrayValue. -/
def zeroArrayValue : ArrayValue := .mk "" zeroLocation []

def ArrayValue.Kind : ArrayValue → String
  | .mk k _ _ => k

def ArrayValue.Loc : ArrayValue → Location
  | .mk _ l _ => l

def ArrayValue.Values : ArrayValue → List Value
  | .mk _ _ vs => vs

/-- ast.Argument. -/
structure Argument where
  Kind : String
  Loc : Location
  Name : Name
  Value : Value
deriving Repr

/-- The Go zero value of ast.Argument. -/
def zeroArgument : Argument :=
  { Kind := "", Loc := zeroLocation, Name := zeroName, Value := .nilValue }

/-- ast.Directive (value is optional: a nil interface when absent). -/
structure Directive where
  Kind : String
  Loc : Location
  Name : Name
  Value : Value
deriving Repr

mutual

/-- ast.Type: an interface in Go over NamedType, ListType, NonNullType;
`nilType` is the nil interface value. -/
inductive TypeNode where
  | nilType : TypeNode
  | named : NamedType → TypeNode
  | listT : String → Location → TypeNode → TypeNode
  | nonNull : String → Location → TypeNode → TypeNode
deriving Repr

/-- ast.NamedType (fields Kind, Loc, Name, Type; the parser leaves the
Type field at its nil zero value). -/
inductive NamedType where
  | mk : String → Location → Name → TypeNode → NamedType
deriving Repr

end

/-- The Go zero value of ast.NamedType. -/
def zeroNamedType : NamedType := .mk "" zeroLocation zeroName .nilType

def NamedType.Kind : NamedType → String
  | .mk k _ _ _ => k

def NamedType.Loc : NamedType → Location
  | .mk _ l _ _ => l

def NamedType.Name : NamedType → Name
  | .mk _ _ n _ => n

/-- ast.VariableDefinition (the Type field is the ast.Type interface). -/
structure VariableDefinition where
  Kind : String
  Loc : Location
  Variable : Variable
  Type' : TypeNode
  DefaultValue : Value
deriving Repr

/-- The Go zero value of ast.VariableDefinition. -/
def zeroVariableDefinition : VariableDefinition :=
  { Kind := "", Loc := zeroLocation, Variable := zeroVariable,
    Type' := .nilType, DefaultValue := .nilValue }

/-- ast.FragmentSpread. -/
structure FragmentSpread where
  Kind : String
  Loc : Location
  Name : Name
  Directives : List Directive
deriving Repr

/-- The Go zero value of ast.FragmentSpread. -/
def zeroFragmentSpread : FragmentSpread :=
  { Kind := "", Loc := zeroLocation, Name := zeroName, Directives := [] }

mutual

/-- The Go empty interface as handed around by `parseFn` and stored in
`SelectionSet.Selections`: any of the node values the grammar functions
actually return through `interface\x7b\x7d`, or a nil interface. -/
inductive NodeV where
  | nilNode : NodeV
  | field : Field → NodeV
  | spread : FragmentSpread → NodeV
  | inline : InlineFragment → NodeV
  | arg : Argument → NodeV
  | vDef : VariableDefinition → NodeV
  | value : Value → NodeV
deriving Repr

/-- ast.SelectionSet (Selections is a Go `[]interface\x7b\x7d`). -/
inductive SelectionSet where
  | mk : String → Location → List NodeV → SelectionSet
deriving Repr

/-- ast.Field (fields Kind, Loc, Alias, Name, Arguments, Directives,
SelectionSet). -/
inductive Field where
  | mk : String → Location → Name → Name → List Argument → List Directive →
      SelectionSet → Field
deriving Repr

/-- ast.InlineFragment (fields Kind, Loc, TypeCondition, Directives,
SelectionSet). -/
inductive InlineFragment where
  | mk : String → Location → NamedType → List Directive → SelectionSet →
      InlineFragment
deriving Repr

end

/-- The Go zero value of ast.SelectionSet. -/
def zeroSelectionSet : SelectionSet := .mk "" zeroLocation []

/-- The Go zero value of ast.Field. -/
def zeroField : Field := .mk "" zeroLocation zeroName zeroName [] [] zeroSelectionSet

/-- The Go zero value of ast.InlineFragment. -/
def zeroInlineFragment : InlineFragment :=
  .mk "" zeroLocation zeroNamedType [] zeroSelectionSet

def SelectionSet.Kind : SelectionSet → String
  | .mk k _ _ => k

def SelectionSet.Loc : SelectionSet → Location
  | .mk _ l _ => l

def SelectionSet.Selections : SelectionSet → List NodeV
  | .mk _ _ s => s

def Field.Loc : Field → Location
  | .mk _ l _ _ _ _ _ => l

def Field.Alias : Field → Name
  | .mk _ _ a _ _ _ _ => a

def Field.Name : Field → Name
  | .mk _ _ _ n _ _ _ => n

def Field.Arguments : Field → List Argument
  | .mk _ _ _ _ a _ _ => a

def Field.Directives : Field → List Directive
  | .mk _ _ _ _ _ d _ => d

def Field.SelectionSet : Field → SelectionSet
  | .mk _ _ _ _ _ _ s => s

/-- Modelled from the spec: od.OperationDefinition (operation kind, optional
name, variable definitions, directives, one selection set). -/
structure OperationDefinition where
  Kind : String
  Loc : Location
  Operation : String
  Name : Name
  VariableDefinitions : List VariableDefinition
  Directives : List Directive
  SelectionSet : SelectionSet
deriving Repr

/-- Modelled from the spec: od.NewOperationDefinition gives a fresh
zero-valued operation definition carrying its kind tag. -/
def NewOperationDefinition : OperationDefinition :=
  { Kind := kinds.OperationDefinition, Loc := zeroLocation, Operation := "",
    Name := zeroName, VariableDefinitions := [], Directives := [],
    SelectionSet := zeroSelectionSet }

/-- Modelled from the spec: fd.FragmentDefinition (name, required named-type
condition, directives, one selection set). -/
structure FragmentDefinition where
  Kind : String
  Loc : Location
  Name : Name
  TypeCondition : NamedType
  Directives : List Directive
  SelectionSet : SelectionSet
deriving Repr

/-- Modelled from the spec: fd.NewFragmentDefinition gives a fresh
zero-valued fragment definition carrying its kind tag. -/
def NewFragmentDefinition : FragmentDefinition :=
  { Kind := kinds.FragmentDefinition, Loc := zeroLocation, Name := zeroName,
    TypeCondition := zeroNamedType, Directives := [],
    SelectionSet := zeroSelectionSet }

/-- ast.Definition: the interface over the two definition variants. -/
inductive Definition where
  | op : OperationDefinition → Definition
  | frag : FragmentDefinition → Definition
deriving Repr

/-- ast.Document. -/
structure Document where
  Kind : String
  Loc : Location
  Definitions : List Definition
deriving Repr

/-- The Go zero value of ast.Document. -/
def zeroDocument : Document := { Kind := "", Loc := zeroLocation, Definitions := [] }

/-- Modelled from the spec: a positioned syntax error (source text, offset,
message), as produced by graphqlerrors.NewSyntaxError. -/
structure Err where
  Source : Source
  Position : Nat
  Description : String
deriving Repr, DecidableEq

/-- Modelled from the spec: graphqlerrors.NewSyntaxError. -/
def NewSyntaxError (s : Source) (position : Nat) (description : String) : Err :=
  { Source := s, Position := position, Description := description }

/-- parser.ParseOptions. -/
structure ParseOptions where
  NoLocation : Bool
  NoSource : Bool
deriving Repr, DecidableEq

/-- The Go zero value of ParseOptions (both options off). -/
def defaultOptions : ParseOptions := { NoLocation := false, NoSource := false }

/-- The `Source interface\x7b\x7d` field of ParseParams: either a raw string
or a pre-built source value. -/
inductive SourceInput where
  | str : String → SourceInput
  | src : Source → SourceInput

/-- parser.ParseParams. -/
structure ParseParams where
  Source : SourceInput
  Options : ParseOptions

/-- parser.Parser: the token cursor.  The Go `LexToken lexer.Lexer` closure
over the source is represented by the `Body` it captured, with `lexAt` as
the tokenizer function. -/
structure Parser where
  Body : String
  Source : Source
  Options : ParseOptions
  PrevEnd : Nat
  Token : Token
deriving Repr, DecidableEq

/-- The outcome of a Go grammar function returning `(value, error)`:
`ret v e p` is the Go `return v, e` with parser state `p` (so `e = none` is
success); `panicked` is a Go runtime panic (out-of-range slice index
assignment); `outOfFuel` marks exhaustion of the recursion fuel of the
embedding. -/
inductive Res (α : Type) where
  | ret : α → Option Err → Parser → Res α
  | panicked : Res α
  | outOfFuel : Res α
deriving Repr, DecidableEq

/-- parser.makeParser (the lexer is total in this model, so the error
return of the Go function cannot occur). -/
def makeParser (s : Source) (opts : ParseOptions) : Parser :=
  { Body := s.Body, Source := s, Options := opts, PrevEnd := 0,
    Token := lexAt s.Body 0 }

/-- parser.advance: moves the cursor to the next lexed token (the Go error
return comes from the lexer, which is total in this model). -/
def advance (p : Parser) : Parser :=
  let prevEnd := p.Token.End
  { p with PrevEnd := prevEnd, Token := lexAt p.Body prevEnd }

/-- parser.skip. -/
def skip (p : Parser) (Kind : TKind) : Bool × Parser :=
  if p.Token.Kind = Kind then (true, advance p) else (false, p)

/-- parser.peek. -/
def peek (p : Parser) (Kind : TKind) : Bool :=
  p.Token.Kind = Kind

/-- parser.unexpected (both branches of the Go if use parser.Token, which
the embedding reproduces). -/
def unexpected (p : Parser) (atToken : Token) : Err :=
  let token := if atToken = (default : Token) then p.Token else p.Token
  NewSyntaxError p.Source token.Start ("Unexpected " ++ GetTokenDesc token)

/-- parser.expect. -/
def expect (p : Parser) (kind : TKind) : Token × Option Err × Parser :=
  let token := p.Token
  if token.Kind = kind then (token, none, advance p)
  else (token, some (NewSyntaxError p.Source token.Start
    ("Expected " ++ GetTokenKindDesc kind ++ ", found " ++ GetTokenDesc token)), p)

/-- parser.expectKeyWord. -/
def expectKeyWord (p : Parser) (value : String) : Token × Option Err × Parser :=
  let token := p.Token
  if token.Kind = .NAME ∧ token.Value = value then (token, none, advance p)
  else (token, some (NewSyntaxError p.Source token.Start
    ("Expected \"" ++ value ++ "\", found " ++ GetTokenDesc token)), p)

/-- parser.loc. -/
def loc (p : Parser) (start : Nat) : Location :=
  if p.Options.NoLocation then zeroLocation
  else if p.Options.NoSource then { Start := start, End := p.PrevEnd, Source := none }
  else { Start := start, End := p.PrevEnd, Source := some p.Source }

/-- parser.parseName. -/
def parseName (p : Parser) : Name × Option Err × Parser :=
  let (token, e, p1) := expect p .NAME
  match e with
  | some err => (zeroName, some err, p1)
  | none =>
    ({ Kind := kinds.Name, Loc := loc p1 token.Start, Value := token.Value },
     none, p1)

/-- parser.parseNamedType. -/
def parseNamedType (p : Parser) : NamedType × Option Err × Parser :=
  let start := p.Token.Start
  let (name, e, p1) := parseName p
  match e with
  | some err => (zeroNamedType, some err, p1)
  | none => (.mk kinds.NamedType (loc p1 start) name .nilType, none, p1)

/-- parser.parseFragmentName. -/
def parseFragmentName (p : Parser) : Name × Option Err × Parser :=
  if p.Token.Value = "on" then
    (zeroName, some (unexpected p (default : Token)), p)
  else parseName p

/-- parser.parseVariable. -/
def parseVariable (p : Parser) : Variable × Option Err × Parser :=
  let start := p.Token.Start
  let (_, e, p1) := expect p .DOLLAR
  match e with
  | some err => (zeroVariable, some err, p1)
  | none =>
    let (name, e2, p2) := parseName p1
    match e2 with
    | some err => (zeroVariable, some err, p2)
    | none => ({ Kind := kinds.Variable, Loc := loc p2 start, Name := name }, none, p2)

/-- The Go zero value of ast.Directive. -/
def zeroDirective : Directive :=
  { Kind := "", Loc := zeroLocation, Name := zeroName, Value := .nilValue }

/-- The `parseFn` function type (Go `func(parser *Parser) (interface\x7b\x7d, error)`),
with the fuel of the embedding already applied. -/
def ParseFn : Type := Parser → Res NodeV

/-- The loop of parser.many: repeatedly either consume the close token
(terminating) or parse another item. -/
def manyLoop (fuel : Nat) (parseFn : ParseFn) (closeKind : TKind) (p : Parser)
    (nodes : List NodeV) : Res (List NodeV) :=
  match fuel with
  | 0 => .outOfFuel
  | fuel + 1 =>
    match skip p closeKind with
    | (true, p0) => .ret nodes none p0
    | (false, p0) =>
      match parseFn p0 with
      | .ret node (some e) p1 => .ret nodes (some e) p1
      | .ret node none p1 => manyLoop fuel parseFn closeKind p1 (nodes ++ [node])
      | .panicked => .panicked
      | .outOfFuel => .outOfFuel

/-- parser.many: expects the open token, requires at least one item, then
loops until the close token. -/
def many (fuel : Nat) (p : Parser) (openKind : TKind) (parseFn : ParseFn)
    (closeKind : TKind) : Res (List NodeV) :=
  match fuel with
  | 0 => .outOfFuel
  | fuel + 1 =>
    let (_, e, p0) := expect p openKind
    match e with
    | some err => .ret [] (some err) p0
    | none =>
      match parseFn p0 with
      | .ret node (some e2) p1 => .ret [] (some e2) p1
      | .ret node none p1 => manyLoop fuel parseFn closeKind p1 [node]
      | .panicked => .panicked
      | .outOfFuel => .outOfFuel

/-- The loop of parser.any. -/
def anyLoop (fuel : Nat) (parseFn : ParseFn) (closeKind : TKind) (p : Parser)
    (nodes : List NodeV) : Res (List NodeV) :=
  match fuel with
  | 0 => .outOfFuel
  | fuel + 1 =>
    match skip p closeKind with
    | (true, p0) => .ret nodes none p0
    | (false, p0) =>
      match parseFn p0 with
      | .ret n (some e) p1 => .ret nodes (some e) p1
      | .ret n none p1 => anyLoop fuel parseFn closeKind p1 (nodes ++ [n])
      | .panicked => .panicked
      | .outOfFuel => .outOfFuel

/-- parser.any: like many but the sequence may be empty; note the Go code
returns `nodes, nil` - dropping the error - when the open token is
missing. -/
def any (fuel : Nat) (p : Parser) (openKind : TKind) (parseFn : ParseFn)
    (closeKind : TKind) : Res (List NodeV) :=
  match fuel with
  | 0 => .outOfFuel
  | fuel + 1 =>
    let (_, e, p0) := expect p openKind
    match e with
    | some _ => .ret [] none p0
    | none => anyLoop fuel parseFn closeKind p0 []

/-- Go slice index assignment `xs[i] = a`: out of range is a runtime
panic, rendered as `none`. -/
def setAt {α : Type} (xs : List α) (i : Nat) (a : α) : Option (List α) :=
  if i < xs.length then some (xs.set i a) else none

/-- Go type assertion `x.(ast.Argument)`: panics (none) on any other
dynamic type. -/
def NodeV.asArgument : NodeV → Option Argument
  | .arg a => some a
  | _ => none

/-- Go type assertion `x.(ast.VariableDefinition)`. -/
def NodeV.asVariableDefinition : NodeV → Option VariableDefinition
  | .vDef v => some v
  | _ => none

/-- Go type assertion `x.(ast.Value)`: every node the parser builds except
a nil interface satisfies the ast.Value interface (it is empty), so only
nil fails. -/
def NodeV.asValue : NodeV → Option Value
  | .value v => some v
  | .nilNode => none
  | .field f => some .nilValue
  | .spread s => some .nilValue
  | .inline i => some .nilValue
  | .arg a => some .nilValue
  | .vDef v => some .nilValue

/-- The Go pattern `for i, x := range items \x7b dst[i] = coerce(x) \x7d`
over a destination slice `dst`: `none` is a panic (index out of range or
failed type assertion). -/
def rangeAssign {α : Type} (coerce : NodeV → Option α) :
    List NodeV → Nat → List α → Option (List α)
  | [], _, dst => some dst
  | x :: xs, i, dst =>
    match coerce x with
    | none => none
    | some a =>
      match setAt dst i a with
      | none => none
      | some dst2 => rangeAssign coerce xs (i + 1) dst2

mutual

/-- parser.parseValue: dispatches purely on the current token kind; the
only recognized kind is BRACE_L, every other token is "Unexpected". -/
def parseValue (fuel : Nat) (p : Parser) (isConst : Bool) : Res Value :=
  match fuel with
  | 0 => .outOfFuel
  | fuel + 1 =>
    let token := p.Token
    match token.Kind with
    | .BRACE_L =>
      match parseArray fuel p isConst with
      | .ret value (some e) p1 => .ret (.array value) (some e) p1
      | .ret value none p1 => .ret (.array value) none p1
      | .panicked => .panicked
      | .outOfFuel => .outOfFuel
    | _ => .ret .nilValue (some (unexpected p (default : Token))) p

/-- parser.parseArray: an `any` list of values; the Go code then writes the
items into an empty destination slice by index, which panics as soon as the
list is non-empty. -/
def parseArray (fuel : Nat) (p : Parser) (isConst : Bool) : Res ArrayValue :=
  match fuel with
  | 0 => .outOfFuel
  | fuel + 1 =>
    let start := p.Token.Start
    let item : ParseFn :=
      if isConst then fun q => parseConstValue fuel q
      else fun q => parseVariableValue fuel q
    match any fuel p .BRACE_L item .BRACKET_R with
    | .ret _ (some e) p1 => .ret zeroArrayValue (some e) p1
    | .ret iValues none p1 =>
      match rangeAssign NodeV.asValue iValues 0 [] with
      | none => .panicked
      | some values => .ret (.mk kinds.Array (loc p1 start) values) none p1
    | .panicked => .panicked
    | .outOfFuel => .outOfFuel

/-- parser.parseConstValue. -/
def parseConstValue (fuel : Nat) (p : Parser) : Res NodeV :=
  match fuel with
  | 0 => .outOfFuel
  | fuel + 1 =>
    match parseValue fuel p true with
    | .ret value (some e) p1 => .ret (.value value) (some e) p1
    | .ret value none p1 => .ret (.value value) none p1
    | .panicked => .panicked
    | .outOfFuel => .outOfFuel

/-- parser.parseVariableValue. -/
def parseVariableValue (fuel : Nat) (p : Parser) : Res NodeV :=
  match fuel with
  | 0 => .outOfFuel
  | fuel + 1 =>
    match parseValue fuel p false with
    | .ret value (some e) p1 => .ret (.value value) (some e) p1
    | .ret value none p1 => .ret (.value value) none p1
    | .panicked => .panicked
    | .outOfFuel => .outOfFuel

end

/-- The trailing-bang step shared by both branches of parser.parseType:
if a `!` token follows, wrap the result just built in a NonNullType. -/
def parseTypeBang (p : Parser) (start : Nat) (ttype : TypeNode) : Res TypeNode :=
  match skip p .BANG with
  | (true, p1) => .ret (.nonNull kinds.NonNullType (loc p1 start) ttype) none p1
  | (false, p1) => .ret ttype none p1

/-- parser.parseType: note that the Go code tests the BRACE_L kind for the
list opener while expecting BRACKET_R as the matching close. -/
def parseType (fuel : Nat) (p : Parser) : Res TypeNode :=
  match fuel with
  | 0 => .outOfFuel
  | fuel + 1 =>
    let start := p.Token.Start
    match skip p .BRACE_L with
    | (true, p1) =>
      match parseType fuel p1 with
      | .ret t (some e) p2 => .ret t (some e) p2
      | .ret t none p2 =>
        let (_, e2, p3) := expect p2 .BRACKET_R
        match e2 with
        | some err => .ret t (some err) p3
        | none => parseTypeBang p3 start (.listT kinds.ListType (loc p3 start) t)
      | .panicked => .panicked
      | .outOfFuel => .outOfFuel
    | (false, p1) =>
      let (name, e, p2) := parseNamedType p1
      match e with
      | some err => .ret .nilType (some err) p2
      | none => parseTypeBang p2 start (.named name)

/-- parser.parseArgument. -/
def parseArgument (fuel : Nat) (p : Parser) : Res NodeV :=
  match fuel with
  | 0 => .outOfFuel
  | fuel + 1 =>
    let start := p.Token.Start
    let (name, e, p1) := parseName p
    match e with
    | some err => .ret (.arg zeroArgument) (some err) p1
    | none =>
      let (_, e2, p2) := expect p1 .COLON
      match e2 with
      | some err => .ret (.arg zeroArgument) (some err) p2
      | none =>
        match parseValue fuel p2 false with
        | .ret _ (some e3) p3 => .ret (.arg zeroArgument) (some e3) p3
        | .ret value none p3 =>
          .ret (.arg { Kind := kinds.Argument, Loc := loc p3 start,
                       Name := name, Value := value }) none p3
        | .panicked => .panicked
        | .outOfFuel => .outOfFuel

/-- parser.parseArguments: on a successful non-empty `many` list the Go
code writes the items into an empty slice by index, which panics. -/
def parseArguments (fuel : Nat) (p : Parser) : Res (List Argument) :=
  match fuel with
  | 0 => .outOfFuel
  | fuel + 1 =>
    if peek p .PAREN_L then
      match many fuel p .PAREN_L (fun q => parseArgument fuel q) .PAREN_R with
      | .ret _ (some e) p1 => .ret [] (some e) p1
      | .ret iArguments none p1 =>
        match rangeAssign NodeV.asArgument iArguments 0 [] with
        | none => .panicked
        | some arguments => .ret arguments none p1
      | .panicked => .panicked
      | .outOfFuel => .outOfFuel
    else .ret [] none p

/-- parser.parseVariableDefinition: note the Go code looks for the optional
default value first and only then requires the `:` token. -/
def parseVariableDefinition (fuel : Nat) (p : Parser) : Res NodeV :=
  match fuel with
  | 0 => .outOfFuel
  | fuel + 1 =>
    let start := p.Token.Start
    let step : Value → Parser → Res NodeV := fun defaultValue p1 =>
      let (_, e, p2) := expect p1 .COLON
      match e with
      | some err => .ret (.vDef zeroVariableDefinition) (some err) p2
      | none =>
        let (variable', e2, p3) := parseVariable p2
        match e2 with
        | some err => .ret (.vDef zeroVariableDefinition) (some err) p3
        | none =>
          match parseType fuel p3 with
          | .ret _ (some e3) p4 => .ret (.vDef zeroVariableDefinition) (some e3) p4
          | .ret ttype none p4 =>
            .ret (.vDef { Kind := kinds.VariableDefinition, Loc := loc p4 start,
                          Variable := variable', Type' := ttype,
                          DefaultValue := defaultValue }) none p4
          | .panicked => .panicked
          | .outOfFuel => .outOfFuel
    match skip p .EQUALS with
    | (true, p1) =>
      match parseValue fuel p1 true with
      | .ret dv (some e) p2 => .ret (.value dv) (some e) p2
      | .ret dv none p2 => step dv p2
      | .panicked => .panicked
      | .outOfFuel => .outOfFuel
    | (false, p1) => step .nilValue p1

/-- parser.parseVariableDefinitions: the Go code runs the index-assignment
loop over the `many` result before checking its error, so any non-empty
item list - even one accompanying an error - panics. -/
def parseVariableDefinitions (fuel : Nat) (p : Parser) : Res (List VariableDefinition) :=
  match fuel with
  | 0 => .outOfFuel
  | fuel + 1 =>
    if peek p .PAREN_L then
      match many fuel p .PAREN_L (fun q => parseVariableDefinition fuel q) .PAREN_R with
      | .ret vdefs e p1 =>
        match rangeAssign NodeV.asVariableDefinition vdefs 0 [] with
        | none => .panicked
        | some variableDefinitions => .ret variableDefinitions e p1
      | .panicked => .panicked
      | .outOfFuel => .outOfFuel
    else .ret [] none p

/-- parser.parseDirective. -/
def parseDirective (fuel : Nat) (p : Parser) : Res Directive :=
  match fuel with
  | 0 => .outOfFuel
  | fuel + 1 =>
    let start := p.Token.Start
    let (_, e, p1) := expect p .AT
    match e with
    | some err => .ret zeroDirective (some err) p1
    | none =>
      let (name, e2, p2) := parseName p1
      match e2 with
      | some err => .ret zeroDirective (some err) p2
      | none =>
        let finish : Value → Parser → Res Directive := fun value p3 =>
          .ret { Kind := kinds.Directive, Loc := loc p3 start,
                 Name := name, Value := value } none p3
        match skip p2 .COLON with
        | (true, p3) =>
          match parseValue fuel p3 false with
          | .ret _ (some e3) p4 => .ret zeroDirective (some e3) p4
          | .ret v none p4 => finish v p4
          | .panicked => .panicked
          | .outOfFuel => .outOfFuel
        | (false, p3) => finish .nilValue p3

/-- The loop of parser.parseDirectives. -/
def parseDirectivesLoop (fuel : Nat) (p : Parser) (directives : List Directive) :
    Res (List Directive) :=
  match fuel with
  | 0 => .outOfFuel
  | fuel + 1 =>
    if peek p .AT then
      match parseDirective fuel p with
      | .ret _ (some e) p1 => .ret directives (some e) p1
      | .ret directive none p1 =>
        parseDirectivesLoop fuel p1 (directives ++ [directive])
      | .panicked => .panicked
      | .outOfFuel => .outOfFuel
    else .ret directives none p

/-- parser.parseDirectives. -/
def parseDirectives (fuel : Nat) (p : Parser) : Res (List Directive) :=
  parseDirectivesLoop fuel p []

mutual

/-- parser.parseSelectionSet: a `many` list of selections, so at least one
selection is required. -/
def parseSelectionSet (fuel : Nat) (p : Parser) : Res SelectionSet :=
  match fuel with
  | 0 => .outOfFuel
  | fuel + 1 =>
    let start := p.Token.Start
    match many fuel p .BRACE_L (fun q => parseSelection fuel q) .BRACE_R with
    | .ret _ (some e) p1 => .ret zeroSelectionSet (some e) p1
    | .ret selections none p1 =>
      .ret (.mk kinds.SelectionSet (loc p1 start) selections) none p1
    | .panicked => .panicked
    | .outOfFuel => .outOfFuel

/-- parser.parseSelection: a spread token routes to fragment parsing,
anything else to field parsing. -/
def parseSelection (fuel : Nat) (p : Parser) : Res NodeV :=
  match fuel with
  | 0 => .outOfFuel
  | fuel + 1 =>
    if peek p .SPREAD then parseFragment fuel p
    else
      match parseField fuel p with
      | .ret f e p1 => .ret (.field f) e p1
      | .panicked => .panicked
      | .outOfFuel => .outOfFuel

/-- parser.parseFragment: after the spread, the keyword `on` introduces an
inline fragment, anything else a fragment spread. -/
def parseFragment (fuel : Nat) (p : Parser) : Res NodeV :=
  match fuel with
  | 0 => .outOfFuel
  | fuel + 1 =>
    let start := p.Token.Start
    let (_, e, p1) := expect p .SPREAD
    match e with
    | some err => .ret .nilNode (some err) p1
    | none =>
      if p1.Token.Value = "on" then
        let p2 := advance p1
        let (name, e2, p3) := parseNamedType p2
        match e2 with
        | some err => .ret (.inline zeroInlineFragment) (some err) p3
        | none =>
          match parseDirectives fuel p3 with
          | .ret _ (some e3) p4 => .ret (.inline zeroInlineFragment) (some e3) p4
          | .ret directives none p4 =>
            match parseSelectionSet fuel p4 with
            | .ret _ (some e4) p5 => .ret (.inline zeroInlineFragment) (some e4) p5
            | .ret selectionSet none p5 =>
              .ret (.inline (.mk kinds.InlineFragment (loc p5 start) name
                directives selectionSet)) none p5
            | .panicked => .panicked
            | .outOfFuel => .outOfFuel
          | .panicked => .panicked
          | .outOfFuel => .outOfFuel
      else
        let (name, e2, p2) := parseFragmentName p1
        match e2 with
        | some err => .ret (.spread zeroFragmentSpread) (some err) p2
        | none =>
          match parseDirectives fuel p2 with
          | .ret _ (some e3) p3 => .ret (.spread zeroFragmentSpread) (some e3) p3
          | .ret directives none p3 =>
            .ret (.spread { Kind := kinds.FragmentSpread, Loc := loc p3 start,
                            Name := name, Directives := directives }) none p3
          | .panicked => .panicked
          | .outOfFuel => .outOfFuel

/-- parser.parseField: name (or alias + name), then - in this order - an
optional nested selection set, the optional argument list and the
directives. -/
def parseField (fuel : Nat) (p : Parser) : Res Field :=
  match fuel with
  | 0 => .outOfFuel
  | fuel + 1 =>
    let start := p.Token.Start
    let (nameOrAlias, e, p1) := parseName p
    match e with
    | some err => .ret zeroField (some err) p1
    | none =>
      let afterName : Name → Name → Parser → Res Field := fun alias' name p2 =>
        let afterSel : SelectionSet → Parser → Res Field := fun selectionSet p3 =>
          match parseArguments fuel p3 with
          | .ret _ (some e3) p4 => .ret zeroField (some e3) p4
          | .ret arguments none p4 =>
            match parseDirectives fuel p4 with
            | .ret _ (some e4) p5 => .ret zeroField (some e4) p5
            | .ret directives none p5 =>
              .ret (.mk kinds.Field (loc p5 start) alias' name arguments
                directives selectionSet) none p5
            | .panicked => .panicked
            | .outOfFuel => .outOfFuel
          | .panicked => .panicked
          | .outOfFuel => .outOfFuel
        if peek p2 .BRACE_L then
          match parseSelectionSet fuel p2 with
          | .ret _ (some e2) p3 => .ret zeroField (some e2) p3
          | .ret sSet none p3 => afterSel sSet p3
          | .panicked => .panicked
          | .outOfFuel => .outOfFuel
        else afterSel zeroSelectionSet p2
      match skip p1 .COLON with
      | (true, p2) =>
        let (n, e2, p3) := parseName p2
        match e2 with
        | some err => .ret zeroField (some err) p3
        | none => afterName nameOrAlias n p3
      | (false, p2) => afterName zeroName nameOrAlias p2

end

/-- parser.parseOperationDefinition. -/
def parseOperationDefinition (fuel : Nat) (p : Parser) : Res OperationDefinition :=
  match fuel with
  | 0 => .outOfFuel
  | fuel + 1 =>
    let start := p.Token.Start
    if peek p .BRACE_L then
      match parseSelectionSet fuel p with
      | .ret _ (some e) p1 => .ret NewOperationDefinition (some e) p1
      | .ret selectionSet none p1 =>
        .ret { NewOperationDefinition with
               Operation := "query"
               Directives := []
               SelectionSet := selectionSet
               Loc := loc p1 start } none p1
      | .panicked => .panicked
      | .outOfFuel => .outOfFuel
    else
      let (operationToken, e, p1) := expect p .NAME
      match e with
      | some err => .ret NewOperationDefinition (some err) p1
      | none =>
        let operation := operationToken.Value
        let (name, e2, p2) := parseName p1
        match e2 with
        | some err => .ret NewOperationDefinition (some err) p2
        | none =>
          match parseVariableDefinitions fuel p2 with
          | .ret _ (some e3) p3 => .ret NewOperationDefinition (some e3) p3
          | .ret variableDefinitions none p3 =>
            match parseDirectives fuel p3 with
            | .ret _ (some e4) p4 => .ret NewOperationDefinition (some e4) p4
            | .ret directives none p4 =>
              match parseSelectionSet fuel p4 with
              | .ret _ (some e5) p5 => .ret NewOperationDefinition (some e5) p5
              | .ret selectionSet none p5 =>
                .ret { NewOperationDefinition with
                       Operation := operation
                       Name := name
                       VariableDefinitions := variableDefinitions
                       Directives := directives
                       SelectionSet := selectionSet
                       Loc := loc p5 start } none p5
              | .panicked => .panicked
              | .outOfFuel => .outOfFuel
            | .panicked => .panicked
            | .outOfFuel => .outOfFuel
          | .panicked => .panicked
          | .outOfFuel => .outOfFuel

/-- parser.parseFragmentDefinition: keyword fragment, fragment name,
keyword on, type condition, then the selection set before the directives. -/
def parseFragmentDefinition (fuel : Nat) (p : Parser) : Res FragmentDefinition :=
  match fuel with
  | 0 => .outOfFuel
  | fuel + 1 =>
    let start := p.Token.Start
    let (_, e, p1) := expectKeyWord p "fragment"
    match e with
    | some err => .ret NewFragmentDefinition (some err) p1
    | none =>
      let (name, e2, p2) := parseFragmentName p1
      match e2 with
      | some err => .ret NewFragmentDefinition (some err) p2
      | none =>
        let (_, e3, p3) := expectKeyWord p2 "on"
        match e3 with
        | some err => .ret NewFragmentDefinition (some err) p3
        | none =>
          let (typeCondition, e4, p4) := parseNamedType p3
          match e4 with
          | some err => .ret NewFragmentDefinition (some err) p4
          | none =>
            match parseSelectionSet fuel p4 with
            | .ret _ (some e5) p5 => .ret NewFragmentDefinition (some e5) p5
            | .ret selectionSet none p5 =>
              match parseDirectives fuel p5 with
              | .ret _ (some e6) p6 => .ret NewFragmentDefinition (some e6) p6
              | .ret directives none p6 =>
                .ret { NewFragmentDefinition with
                       Name := name
                       TypeCondition := typeCondition
                       Directives := directives
                       SelectionSet := selectionSet
                       Loc := loc p6 start } none p6
              | .panicked => .panicked
              | .outOfFuel => .outOfFuel
            | .panicked => .panicked
            | .outOfFuel => .outOfFuel

/-- The definition-accumulating loop of parser.parseDocument. -/
def parseDocumentLoop (fuel : Nat) (p : Parser) (definitions : List Definition) :
    Res (List Definition) :=
  match fuel with
  | 0 => .outOfFuel
  | fuel + 1 =>
    match skip p .EOF with
    | (true, p0) => .ret definitions none p0
    | (false, p0) =>
      if peek p0 .BRACE_L then
        match parseOperationDefinition fuel p0 with
        | .ret _ (some e) p1 => .ret definitions (some e) p1
        | .ret oDef none p1 =>
          parseDocumentLoop fuel p1 (definitions ++ [Definition.op oDef])
        | .panicked => .panicked
        | .outOfFuel => .outOfFuel
      else if peek p0 .NAME then
        if p0.Token.Value = "query" ∨ p0.Token.Value = "mutation" then
          match parseOperationDefinition fuel p0 with
          | .ret _ (some e) p1 => .ret definitions (some e) p1
          | .ret oDef none p1 =>
            parseDocumentLoop fuel p1 (definitions ++ [Definition.op oDef])
          | .panicked => .panicked
          | .outOfFuel => .outOfFuel
        else if p0.Token.Value = "fragment" then
          match parseFragmentDefinition fuel p0 with
          | .ret _ (some e) p1 => .ret definitions (some e) p1
          | .ret fDef none p1 =>
            parseDocumentLoop fuel p1 (definitions ++ [Definition.frag fDef])
          | .panicked => .panicked
          | .outOfFuel => .outOfFuel
        else .ret definitions (some (unexpected p0 (default : Token))) p0
      else .ret definitions (some (unexpected p0 (default : Token))) p0

/-- parser.parseDocument. -/
def parseDocument (fuel : Nat) (p : Parser) : Res Document :=
  match fuel with
  | 0 => .outOfFuel
  | fuel + 1 =>
    let start := p.Token.Start
    match parseDocumentLoop fuel p [] with
    | .ret _ (some e) p1 => .ret zeroDocument (some e) p1
    | .ret definitions none p1 =>
      .ret { Kind := kinds.Document, Loc := loc p1 start,
             Definitions := definitions } none p1
    | .panicked => .panicked
    | .outOfFuel => .outOfFuel

/-- The outcome of parser.Parse (the final cursor state is not returned by
the Go function). -/
inductive ParseResult where
  | ret : Document → Option Err → ParseResult
  | panicked : ParseResult
  | outOfFuel : ParseResult
deriving Repr

/-- The fuel Parse hands to parseDocument: generously larger than any
possible recursion depth or loop count for the given source text. -/
def parseFuel (body : String) : Nat := 32 * (body.length + 8)

/-- parser.Parse. -/
def Parse (p : ParseParams) : ParseResult :=
  let sourceObj : Source :=
    match p.Source with
    | .src s => s
    | .str s => NewSource s ""
  let parser := makeParser sourceObj p.Options
  match parseDocument (parseFuel sourceObj.Body) parser with
  | .ret doc e _ => .ret doc e
  | .panicked => .panicked
  | .outOfFuel => .outOfFuel

/-! ### Helper lemmas -/

/-- The loop of `many` only grows its accumulator, so from a non-empty
accumulator it can only return a non-empty list. -/
theorem manyLoop_ne (fuel : Nat) (parseFn : ParseFn) (closeKind : TKind) :
    ∀ p nodes0 nodes p', nodes0 ≠ [] →
      manyLoop fuel parseFn closeKind p nodes0 = .ret nodes none p' →
      nodes ≠ [] := by
  induction fuel with
  | zero =>
    intro p n0 n p' h0 h
    exact absurd h (by simp [manyLoop])
  | succ fuel ih =>
    intro p n0 n p' h0 h
    rw [manyLoop] at h
    split at h
    · cases h
      exact h0
    · split at h
      · exact absurd h (by simp)
      · exact ih _ _ _ _ (by simp) h
      · exact absurd h (by simp)
      · exact absurd h (by simp)

/-- parser.many guarantees a non-empty result sequence on success. -/
theorem many_ne (fuel : Nat) (p : Parser) (openKind : TKind) (parseFn : ParseFn)
    (closeKind : TKind) (nodes : List NodeV) (p' : Parser)
    (h : many fuel p openKind parseFn closeKind = .ret nodes none p') :
    nodes ≠ [] := by
  cases fuel with
  | zero => exact absurd h (by simp [many])
  | succ fuel =>
    rw [many] at h
    split at h
    split at h
    · exact absurd h (by simp)
    · split at h
      · exact absurd h (by simp)
      · exact manyLoop_ne fuel parseFn closeKind _ _ nodes p' (by simp) h
      · exact absurd h (by simp)
      · exact absurd h (by simp)

/-- Writing a non-empty item list into an empty destination slice by index
panics at the first element. -/
theorem rangeAssign_cons_empty {α : Type} (coerce : NodeV → Option α)
    (x : NodeV) (xs : List NodeV) : rangeAssign coerce (x :: xs) 0 [] = none := by
  cases hc : coerce x <;> simp [rangeAssign, setAt, hc]

/-! ### Location-option erasure (for the NoLocation/NoSource relation) -/

/-- The same cursor with the parse options replaced. -/
def withOpts (o : ParseOptions) (p : Parser) : Parser := { p with Options := o }

/-- How a location computed under the default options appears under options
`o`: NoLocation zeroes it, NoSource drops the source reference. -/
def mapLocO (o : ParseOptions) (l : Location) : Location :=
  if o.NoLocation then zeroLocation
  else if o.NoSource then { l with Source := none }
  else l

def eName (o : ParseOptions) (n : Name) : Name := { n with Loc := mapLocO o n.Loc }

def eVariable (o : ParseOptions) (v : Variable) : Variable :=
  { v with
    Loc := mapLocO o v.Loc
    Name := eName o v.Name }

mutual

def eValue (o : ParseOptions) : Value → Value
  | .nilValue => .nilValue
  | .array a => .array (eArrayValue o a)

def eArrayValue (o : ParseOptions) : ArrayValue → ArrayValue
  | .mk k l vs => .mk k (mapLocO o l) (eValueList o vs)

def eValueList (o : ParseOptions) : List Value → List Value
  | [] => []
  | v :: vs => eValue o v :: eValueList o vs

end

def eArgument (o : ParseOptions) (a : Argument) : Argument :=
  { a with
    Loc := mapLocO o a.Loc
    Name := eName o a.Name
    Value := eValue o a.Value }

def eDirective (o : ParseOptions) (d : Directive) : Directive :=
  { d with
    Loc := mapLocO o d.Loc
    Name := eName o d.Name
    Value := eValue o d.Value }

mutual

def eTypeNode (o : ParseOptions) : TypeNode → TypeNode
  | .nilType => .nilType
  | .named n => .named (eNamedType o n)
  | .listT k l t => .listT k (mapLocO o l) (eTypeNode o t)
  | .nonNull k l t => .nonNull k (mapLocO o l) (eTypeNode o t)

def eNamedType (o : ParseOptions) : NamedType → NamedType
  | .mk k l n t => .mk k (mapLocO o l) (eName o n) (eTypeNode o t)

end

def eVariableDefinition (o : ParseOptions) (v : VariableDefinition) : VariableDefinition :=
  { v with
    Loc := mapLocO o v.Loc
    Variable := eVariable o v.Variable
    Type' := eTypeNode o v.Type'
    DefaultValue := eValue o v.DefaultValue }

def eFragmentSpread (o : ParseOptions) (f : FragmentSpread) : FragmentSpread :=
  { f with
    Loc := mapLocO o f.Loc
    Name := eName o f.Name
    Directives := f.Directives.map (eDirective o) }

mutual

def eNodeV (o : ParseOptions) : NodeV → NodeV
  | .nilNode => .nilNode
  | .field f => .field (eField o f)
  | .spread s => .spread (eFragmentSpread o s)
  | .inline i => .inline (eInlineFragment o i)
  | .arg a => .arg (eArgument o a)
  | .vDef v => .vDef (eVariableDefinition o v)
  | .value v => .value (eValue o v)

def eSelectionSet (o : ParseOptions) : SelectionSet → SelectionSet
  | .mk k l sels => .mk k (mapLocO o l) (eNodeVList o sels)

def eNodeVList (o : ParseOptions) : List NodeV → List NodeV
  | [] => []
  | x :: xs => eNodeV o x :: eNodeVList o xs

def eField (o : ParseOptions) : Field → Field
  | .mk k l a n args dirs ss =>
    .mk k (mapLocO o l) (eName o a) (eName o n) (args.map (eArgument o))
      (dirs.map (eDirective o)) (eSelectionSet o ss)

def eInlineFragment (o : ParseOptions) : InlineFragment → InlineFragment
  | .mk k l tc dirs ss =>
    .mk k (mapLocO o l) (eNamedType o tc) (dirs.map (eDirective o))
      (eSelectionSet o ss)

end

def eOperationDefinition (o : ParseOptions) (d : OperationDefinition) : OperationDefinition :=
  { d with
    Loc := mapLocO o d.Loc
    Name := eName o d.Name
    VariableDefinitions := d.VariableDefinitions.map (eVariableDefinition o)
    Directives := d.Directives.map (eDirective o)
    SelectionSet := eSelectionSet o d.SelectionSet }

def eFragmentDefinition (o : ParseOptions) (d : FragmentDefinition) : FragmentDefinition :=
  { d with
    Loc := mapLocO o d.Loc
    Name := eName o d.Name
    TypeCondition := eNamedType o d.TypeCondition
    Directives := d.Directives.map (eDirective o)
    SelectionSet := eSelectionSet o d.SelectionSet }

def eDefinition (o : ParseOptions) : Definition → Definition
  | .op d => .op (eOperationDefinition o d)
  | .frag d => .frag (eFragmentDefinition o d)

def eDocument (o : ParseOptions) (d : Document) : Document :=
  { d with
    Loc := mapLocO o d.Loc
    Definitions := d.Definitions.map (eDefinition o) }

/-- The image of a default-options run outcome in an options-`o` run. -/
def mapRes {α : Type} (g : α → α) (o : ParseOptions) : Res α → Res α
  | .ret v e p => .ret (g v) e (withOpts o p)
  | .panicked => .panicked
  | .outOfFuel => .outOfFuel

/-- Mapping over a parse result (the erasure relation at the Parse level). -/
def mapParseResult (g : Document → Document) : ParseResult → ParseResult
  | .ret d e => .ret (g d) e
  | .panicked => .panicked
  | .outOfFuel => .outOfFuel

theorem mapLocO_zero (o : ParseOptions) : mapLocO o zeroLocation = zeroLocation := by
  simp [mapLocO, zeroLocation]

theorem eName_zero (o : ParseOptions) : eName o zeroName = zeroName := by
  simp [eName, zeroName, mapLocO_zero]

theorem eVariable_zero (o : ParseOptions) : eVariable o zeroVariable = zeroVariable := by
  simp [eVariable, zeroVariable, eName_zero, mapLocO_zero]

theorem eNamedType_zero (o : ParseOptions) : eNamedType o zeroNamedType = zeroNamedType := by
  simp [eNamedType, zeroNamedType, eName_zero, mapLocO_zero, eTypeNode]

theorem eArgument_zero (o : ParseOptions) : eArgument o zeroArgument = zeroArgument := by
  simp [eArgument, zeroArgument, eName_zero, mapLocO_zero, eValue]

theorem eDirective_zero (o : ParseOptions) : eDirective o zeroDirective = zeroDirective := by
  simp [eDirective, zeroDirective, eName_zero, mapLocO_zero, eValue]

theorem eVariableDefinition_zero (o : ParseOptions) :
    eVariableDefinition o zeroVariableDefinition = zeroVariableDefinition := by
  simp [eVariableDefinition, zeroVariableDefinition, eVariable_zero, mapLocO_zero,
    eTypeNode, eValue]

theorem eArrayValue_zero (o : ParseOptions) :
    eArrayValue o zeroArrayValue = zeroArrayValue := by
  simp [eArrayValue, zeroArrayValue, mapLocO_zero, eValueList]

theorem eSelectionSet_zero (o : ParseOptions) :
    eSelectionSet o zeroSelectionSet = zeroSelectionSet := by
  simp [eSelectionSet, zeroSelectionSet, mapLocO_zero, eNodeVList]

theorem eField_zero (o : ParseOptions) : eField o zeroField = zeroField := by
  simp [eField, zeroField, eName_zero, mapLocO_zero, eSelectionSet_zero]

theorem eInlineFragment_zero (o : ParseOptions) :
    eInlineFragment o zeroInlineFragment = zeroInlineFragment := by
  simp [eInlineFragment, zeroInlineFragment, eNamedType_zero, mapLocO_zero,
    eSelectionSet_zero]

theorem eFragmentSpread_zero (o : ParseOptions) :
    eFragmentSpread o zeroFragmentSpread = zeroFragmentSpread := by
  simp [eFragmentSpread, zeroFragmentSpread, eName_zero, mapLocO_zero]

theorem eOperationDefinition_new (o : ParseOptions) :
    eOperationDefinition o NewOperationDefinition = NewOperationDefinition := by
  simp [eOperationDefinition, NewOperationDefinition, eName_zero, mapLocO_zero,
    eSelectionSet_zero]

theorem eFragmentDefinition_new (o : ParseOptions) :
    eFragmentDefinition o NewFragmentDefinition = NewFragmentDefinition := by
  simp [eFragmentDefinition, NewFragmentDefinition, eName_zero, eNamedType_zero,
    mapLocO_zero, eSelectionSet_zero]

theorem eDocument_zero (o : ParseOptions) : eDocument o zeroDocument = zeroDocument := by
  simp [eDocument, zeroDocument, mapLocO_zero]

theorem eNodeVList_eq_map (o : ParseOptions) (l : List NodeV) :
    eNodeVList o l = l.map (eNodeV o) := by
  induction l with
  | nil => rfl
  | cons x xs ih => simp [eNodeVList, ih]

theorem eValueList_eq_map (o : ParseOptions) (l : List Value) :
    eValueList o l = l.map (eValue o) := by
  induction l with
  | nil => rfl
  | cons x xs ih => simp [eValueList, ih]

/-! Primitive cursor operations commute with `withOpts`. -/

theorem advance_withOpts (o : ParseOptions) (p : Parser) :
    advance (withOpts o p) = withOpts o (advance p) := rfl

theorem peek_withOpts (o : ParseOptions) (p : Parser) (k : TKind) :
    peek (withOpts o p) k = peek p k := rfl

theorem unexpected_withOpts (o : ParseOptions) (p : Parser) (t : Token) :
    unexpected (withOpts o p) t = unexpected p t := rfl

theorem skip_withOpts (o : ParseOptions) (p : Parser) (k : TKind) :
    skip (withOpts o p) k = ((skip p k).1, withOpts o (skip p k).2) := by
  by_cases hk : p.Token.Kind = k <;> simp [skip, withOpts, advance, hk]

theorem expect_withOpts (o : ParseOptions) (p : Parser) (k : TKind) :
    expect (withOpts o p) k =
      ((expect p k).1, (expect p k).2.1, withOpts o (expect p k).2.2) := by
  by_cases hk : p.Token.Kind = k <;> simp [expect, withOpts, advance, hk]

theorem expectKeyWord_withOpts (o : ParseOptions) (p : Parser) (v : String) :
    expectKeyWord (withOpts o p) v =
      ((expectKeyWord p v).1, (expectKeyWord p v).2.1,
       withOpts o (expectKeyWord p v).2.2) := by
  by_cases hk : p.Token.Kind = TKind.NAME ∧ p.Token.Value = v <;>
    simp [expectKeyWord, withOpts, advance, hk]

theorem skip_options (p : Parser) (k : TKind) : (skip p k).2.Options = p.Options := by
  by_cases hk : p.Token.Kind = k <;> simp [skip, advance, hk]

theorem expect_options (p : Parser) (k : TKind) :
    (expect p k).2.2.Options = p.Options := by
  by_cases hk : p.Token.Kind = k <;> simp [expect, advance, hk]

theorem expectKeyWord_options (p : Parser) (v : String) :
    (expectKeyWord p v).2.2.Options = p.Options := by
  by_cases hk : p.Token.Kind = TKind.NAME ∧ p.Token.Value = v <;>
    simp [expectKeyWord, advance, hk]

theorem loc_withOpts (o : ParseOptions) (p : Parser) (h : p.Options = defaultOptions)
    (start : Nat) : loc (withOpts o p) start = mapLocO o (loc p start) := by
  simp [loc, withOpts, mapLocO, h, defaultOptions]

theorem withOpts_Token (o : ParseOptions) (p : Parser) :
    (withOpts o p).Token = p.Token := rfl

theorem withOpts_Source (o : ParseOptions) (p : Parser) :
    (withOpts o p).Source = p.Source := rfl

theorem withOpts_Body (o : ParseOptions) (p : Parser) :
    (withOpts o p).Body = p.Body := rfl

theorem withOpts_PrevEnd (o : ParseOptions) (p : Parser) :
    (withOpts o p).PrevEnd = p.PrevEnd := rfl

theorem parseName_options (p : Parser) : (parseName p).2.2.Options = p.Options := by
  rw [parseName]
  rcases hx : expect p .NAME with ⟨tok, e, p1⟩
  have h1 := expect_options p .NAME
  rw [hx] at h1
  cases e <;> simpa using h1

theorem parseName_withOpts (o : ParseOptions) (p : Parser)
    (h : p.Options = defaultOptions) :
    parseName (withOpts o p) =
      (eName o (parseName p).1, (parseName p).2.1, withOpts o (parseName p).2.2) := by
  rw [parseName, parseName, expect_withOpts]
  rcases hx : expect p .NAME with ⟨tok, e, p1⟩
  have hop : p1.Options = defaultOptions := by
    have h1 := expect_options p .NAME
    rw [hx] at h1
    simpa [h] using h1
  cases e with
  | some err => simp [eName_zero]
  | none => simp [eName, loc_withOpts o p1 hop]

theorem parseNamedType_options (p : Parser) :
    (parseNamedType p).2.2.Options = p.Options := by
  rw [parseNamedType]
  rcases hx : parseName p with ⟨n, e, p1⟩
  have h1 := parseName_options p
  rw [hx] at h1
  cases e <;> simpa using h1

theorem parseNamedType_withOpts (o : ParseOptions) (p : Parser)
    (h : p.Options = defaultOptions) :
    parseNamedType (withOpts o p) =
      (eNamedType o (parseNamedType p).1, (parseNamedType p).2.1,
       withOpts o (parseNamedType p).2.2) := by
  rw [parseNamedType, parseNamedType, parseName_withOpts o p h]
  rcases hx : parseName p with ⟨n, e, p1⟩
  have hop : p1.Options = defaultOptions := by
    have h1 := parseName_options p
    rw [hx] at h1
    simpa [h] using h1
  cases e with
  | some err => simp [eNamedType_zero]
  | none => simp [withOpts_Token, eNamedType, eTypeNode, loc_withOpts o p1 hop]

theorem parseFragmentName_options (p : Parser) :
    (parseFragmentName p).2.2.Options = p.Options := by
  rw [parseFragmentName]
  by_cases hv : p.Token.Value = "on"
  · simp [hv]
  · simp [hv, parseName_options]

theorem parseFragmentName_withOpts (o : ParseOptions) (p : Parser)
    (h : p.Options = defaultOptions) :
    parseFragmentName (withOpts o p) =
      (eName o (parseFragmentName p).1, (parseFragmentName p).2.1,
       withOpts o (parseFragmentName p).2.2) := by
  rw [parseFragmentName, parseFragmentName]
  by_cases hv : p.Token.Value = "on"
  · simp [withOpts_Token, hv, eName_zero, unexpected_withOpts]
  · simp [withOpts_Token, hv, parseName_withOpts o p h]

theorem parseVariable_options (p : Parser) :
    (parseVariable p).2.2.Options = p.Options := by
  rw [parseVariable]
  rcases hx : expect p .DOLLAR with ⟨tok, e, p1⟩
  have h1 := expect_options p .DOLLAR
  rw [hx] at h1
  simp only at h1
  cases e with
  | some err => simpa using h1
  | none =>
    dsimp only
    rcases hn : parseName p1 with ⟨n, e2, p2⟩
    have h2 := parseName_options p1
    rw [hn] at h2
    cases e2 <;> simpa [h1] using h2

theorem parseVariable_withOpts (o : ParseOptions) (p : Parser)
    (h : p.Options = defaultOptions) :
    parseVariable (withOpts o p) =
      (eVariable o (parseVariable p).1, (parseVariable p).2.1,
       withOpts o (parseVariable p).2.2) := by
  rw [parseVariable, parseVariable, expect_withOpts]
  rcases hx : expect p .DOLLAR with ⟨tok, e, p1⟩
  have hop1 : p1.Options = defaultOptions := by
    have h1 := expect_options p .DOLLAR
    rw [hx] at h1
    simpa [h] using h1
  cases e with
  | some err => simp [eVariable_zero]
  | none =>
    simp only []
    rw [parseName_withOpts o p1 hop1]
    rcases hn : parseName p1 with ⟨n, e2, p2⟩
    have hop2 : p2.Options = defaultOptions := by
      have h2 := parseName_options p1
      rw [hn] at h2
      simpa [hop1] using h2
    cases e2 with
    | some err => simp [eVariable_zero]
    | none => simp [withOpts_Token, eVariable, eName, loc_withOpts o p2 hop2]

theorem parseTypeBang_options (p : Parser) (start : Nat) (t : TypeNode) :
    ∀ v e q, parseTypeBang p start t = .ret v e q → q.Options = p.Options := by
  intro v e q hq
  rw [parseTypeBang] at hq
  have h1 := skip_options p .BANG
  rcases hs : skip p .BANG with ⟨b, p1⟩
  rw [hs] at hq h1
  simp only at h1
  cases b <;> cases hq <;> simpa using h1

theorem parseTypeBang_withOpts (o : ParseOptions) (p : Parser)
    (h : p.Options = defaultOptions) (start : Nat) (t : TypeNode) :
    parseTypeBang (withOpts o p) start (eTypeNode o t) =
      mapRes (eTypeNode o) o (parseTypeBang p start t) := by
  rw [parseTypeBang, parseTypeBang, skip_withOpts]
  rcases hs : skip p .BANG with ⟨b, p1⟩
  have hop : p1.Options = defaultOptions := by
    have h1 := skip_options p .BANG
    rw [hs] at h1
    simpa [h] using h1
  cases b with
  | false => simp [mapRes]
  | true => simp [mapRes, eTypeNode, loc_withOpts o p1 hop]

theorem withOpts_self (p : Parser) (o : ParseOptions) (h : p.Options = o) :
    withOpts o p = p := by
  cases p
  simp [withOpts] at h ⊢
  exact h.symm

/-- A function that commutes with withOpts for every option value keeps the
default options invariant along its successful runs. -/
theorem commute_pres {α : Type} (g : ParseOptions → α → α) (f : Parser → Res α)
    (hcomm : ∀ (o : ParseOptions) (q : Parser), q.Options = defaultOptions →
      f (withOpts o q) = mapRes (g o) o (f q)) :
    ∀ (q : Parser) (v : α) (e : Option Err) (q' : Parser),
      q.Options = defaultOptions → f q = .ret v e q' →
      q'.Options = defaultOptions := by
  intro q v e q' hq hf
  have h0 := hcomm defaultOptions q hq
  rw [withOpts_self q defaultOptions hq, hf] at h0
  simp only [mapRes] at h0
  injection h0 with hv he hp
  rw [hp]
  rfl

theorem eNodeVList_append (o : ParseOptions) (a b : List NodeV) :
    eNodeVList o (a ++ b) = eNodeVList o a ++ eNodeVList o b := by
  simp [eNodeVList_eq_map]

theorem eValueList_append (o : ParseOptions) (a b : List Value) :
    eValueList o (a ++ b) = eValueList o a ++ eValueList o b := by
  simp [eValueList_eq_map]

theorem asValue_eNodeV (o : ParseOptions) (x : NodeV) :
    NodeV.asValue (eNodeV o x) = Option.map (eValue o) (NodeV.asValue x) := by
  cases x <;> rfl

theorem asArgument_eNodeV (o : ParseOptions) (x : NodeV) :
    NodeV.asArgument (eNodeV o x) = Option.map (eArgument o) (NodeV.asArgument x) := by
  cases x <;> rfl

theorem asVariableDefinition_eNodeV (o : ParseOptions) (x : NodeV) :
    NodeV.asVariableDefinition (eNodeV o x) =
      Option.map (eVariableDefinition o) (NodeV.asVariableDefinition x) := by
  cases x <;> rfl

theorem setAt_map {α β : Type} (g : α → β) (xs : List α) (i : Nat) (a : α) :
    setAt (xs.map g) i (g a) = Option.map (List.map g) (setAt xs i a) := by
  by_cases h : i < xs.length <;> simp [setAt, h, List.map_set]

/-- rangeAssign commutes with an erasure of the item and destination
lists, given that the coercion commutes elementwise. -/
theorem rangeAssign_erase {α : Type} (o : ParseOptions) (eα : α → α)
    (c : NodeV → Option α)
    (hc : ∀ x, c (eNodeV o x) = Option.map eα (c x)) :
    ∀ (xs : List NodeV) (i : Nat) (dst : List α),
      rangeAssign c (eNodeVList o xs) i (dst.map eα) =
        Option.map (List.map eα) (rangeAssign c xs i dst) := by
  intro xs
  induction xs with
  | nil => intro i dst; rfl
  | cons x xs ih =>
    intro i dst
    rw [eNodeVList]
    rw [rangeAssign, rangeAssign, hc]
    cases hcx : c x with
    | none => rfl
    | some a =>
      dsimp only [Option.map]
      rw [setAt_map]
      cases hs : setAt dst i a with
      | none => rfl
      | some dst2 =>
        dsimp only [Option.map]
        exact ih (i + 1) dst2

theorem manyLoop_withOpts (parseFn : ParseFn)
    (hcomm : ∀ (o : ParseOptions) (q : Parser), q.Options = defaultOptions →
      parseFn (withOpts o q) = mapRes (eNodeV o) o (parseFn q)) :
    ∀ (fuel : Nat) (o : ParseOptions) (closeKind : TKind) (p : Parser)
      (acc : List NodeV), p.Options = defaultOptions →
      manyLoop fuel parseFn closeKind (withOpts o p) (eNodeVList o acc) =
        mapRes (eNodeVList o) o (manyLoop fuel parseFn closeKind p acc) := by
  intro fuel
  induction fuel with
  | zero => intro o ck p acc h; rfl
  | succ fuel ih =>
    intro o ck p acc h
    rw [manyLoop, manyLoop, skip_withOpts]
    rcases hs : skip p ck with ⟨b, p0⟩
    have hop0 : p0.Options = defaultOptions := by
      have h1 := skip_options p ck
      rw [hs] at h1
      simpa [h] using h1
    cases b with
    | true => simp [mapRes]
    | false =>
      dsimp only
      rw [hcomm o p0 hop0]
      cases hf : parseFn p0 with
      | ret node e p1 =>
        have hop1 : p1.Options = defaultOptions :=
          commute_pres eNodeV parseFn hcomm p0 node e p1 hop0 hf
        cases e with
        | some err => simp [mapRes]
        | none =>
          dsimp only [mapRes]
          rw [show eNodeVList o acc ++ [eNodeV o node] =
            eNodeVList o (acc ++ [node]) by rw [eNodeVList_append]; rfl]
          exact ih o ck p1 (acc ++ [node]) hop1
      | panicked => simp [mapRes]
      | outOfFuel => simp [mapRes]

theorem many_withOpts (parseFn : ParseFn)
    (hcomm : ∀ (o : ParseOptions) (q : Parser), q.Options = defaultOptions →
      parseFn (withOpts o q) = mapRes (eNodeV o) o (parseFn q)) :
    ∀ (fuel : Nat) (o : ParseOptions) (openKind closeKind : TKind) (p : Parser),
      p.Options = defaultOptions →
      many fuel (withOpts o p) openKind parseFn closeKind =
        mapRes (eNodeVList o) o (many fuel p openKind parseFn closeKind) := by
  intro fuel o ok ck p h
  cases fuel with
  | zero => rfl
  | succ fuel =>
    rw [many, many, expect_withOpts]
    rcases he : expect p ok with ⟨tok, e, p0⟩
    have hop0 : p0.Options = defaultOptions := by
      have h1 := expect_options p ok
      rw [he] at h1
      simpa [h] using h1
    cases e with
    | some err => simp [mapRes, eNodeVList]
    | none =>
      dsimp only
      rw [hcomm o p0 hop0]
      cases hf : parseFn p0 with
      | ret node e2 p1 =>
        have hop1 : p1.Options = defaultOptions :=
          commute_pres eNodeV parseFn hcomm p0 node e2 p1 hop0 hf
        cases e2 with
        | some err => simp [mapRes, eNodeVList]
        | none =>
          dsimp only [mapRes]
          rw [show [eNodeV o node] = eNodeVList o [node] from rfl]
          exact manyLoop_withOpts parseFn hcomm fuel o ck p1 [node] hop1
      | panicked => simp [mapRes]
      | outOfFuel => simp [mapRes]

theorem anyLoop_withOpts (parseFn : ParseFn)
    (hcomm : ∀ (o : ParseOptions) (q : Parser), q.Options = defaultOptions →
      parseFn (withOpts o q) = mapRes (eNodeV o) o (parseFn q)) :
    ∀ (fuel : Nat) (o : ParseOptions) (closeKind : TKind) (p : Parser)
      (acc : List NodeV), p.Options = defaultOptions →
      anyLoop fuel parseFn closeKind (withOpts o p) (eNodeVList o acc) =
        mapRes (eNodeVList o) o (anyLoop fuel parseFn closeKind p acc) := by
  intro fuel
  induction fuel with
  | zero => intro o ck p acc h; rfl
  | succ fuel ih =>
    intro o ck p acc h
    rw [anyLoop, anyLoop, skip_withOpts]
    rcases hs : skip p ck with ⟨b, p0⟩
    have hop0 : p0.Options = defaultOptions := by
      have h1 := skip_options p ck
      rw [hs] at h1
      simpa [h] using h1
    cases b with
    | true => simp [mapRes]
    | false =>
      dsimp only
      rw [hcomm o p0 hop0]
      cases hf : parseFn p0 with
      | ret node e p1 =>
        have hop1 : p1.Options = defaultOptions :=
          commute_pres eNodeV parseFn hcomm p0 node e p1 hop0 hf
        cases e with
        | some err => simp [mapRes]
        | none =>
          dsimp only [mapRes]
          rw [show eNodeVList o acc ++ [eNodeV o node] =
            eNodeVList o (acc ++ [node]) by rw [eNodeVList_append]; rfl]
          exact ih o ck p1 (acc ++ [node]) hop1
      | panicked => simp [mapRes]
      | outOfFuel => simp [mapRes]

theorem any_withOpts (parseFn : ParseFn)
    (hcomm : ∀ (o : ParseOptions) (q : Parser), q.Options = defaultOptions →
      parseFn (withOpts o q) = mapRes (eNodeV o) o (parseFn q)) :
    ∀ (fuel : Nat) (o : ParseOptions) (openKind closeKind : TKind) (p : Parser),
      p.Options = defaultOptions →
      any fuel (withOpts o p) openKind parseFn closeKind =
        mapRes (eNodeVList o) o (any fuel p openKind parseFn closeKind) := by
  intro fuel o ok ck p h
  cases fuel with
  | zero => rfl
  | succ fuel =>
    rw [any, any, expect_withOpts]
    rcases he : expect p ok with ⟨tok, e, p0⟩
    have hop0 : p0.Options = defaultOptions := by
      have h1 := expect_options p ok
      rw [he] at h1
      simpa [h] using h1
    cases e with
    | some err => simp [mapRes, eNodeVList]
    | none =>
      dsimp only
      rw [show ([] : List NodeV) = eNodeVList o [] from rfl]
      exact anyLoop_withOpts parseFn hcomm fuel o ck p0 [] hop0

/-- The value grammar commutes with the parse options: running it with
options `o` equals running it with default options and erasing the
locations accordingly. -/
theorem valueCommute : ∀ fuel : Nat,
    (∀ (o : ParseOptions) (p : Parser) (isConst : Bool), p.Options = defaultOptions →
      parseValue fuel (withOpts o p) isConst =
        mapRes (eValue o) o (parseValue fuel p isConst)) ∧
    (∀ (o : ParseOptions) (p : Parser) (isConst : Bool), p.Options = defaultOptions →
      parseArray fuel (withOpts o p) isConst =
        mapRes (eArrayValue o) o (parseArray fuel p isConst)) ∧
    (∀ (o : ParseOptions) (p : Parser), p.Options = defaultOptions →
      parseConstValue fuel (withOpts o p) =
        mapRes (eNodeV o) o (parseConstValue fuel p)) ∧
    (∀ (o : ParseOptions) (p : Parser), p.Options = defaultOptions →
      parseVariableValue fuel (withOpts o p) =
        mapRes (eNodeV o) o (parseVariableValue fuel p)) := by
  intro fuel
  induction fuel with
  | zero =>
    exact ⟨fun o p c hp => rfl, fun o p c hp => rfl,
      fun o p hp => rfl, fun o p hp => rfl⟩
  | succ fuel ih =>
    obtain ⟨ihV, ihA, ihC, ihW⟩ := ih
    refine ⟨?_, ?_, ?_, ?_⟩
    · intro o p isConst h
      rw [parseValue, parseValue]
      simp only [withOpts_Token]
      cases hk : p.Token.Kind
      case BRACE_L =>
        dsimp only
        rw [ihA o p isConst h]
        cases ha : parseArray fuel p isConst with
        | ret v e p1 => cases e <;> simp [mapRes, eValue]
        | panicked => rfl
        | outOfFuel => rfl
      all_goals simp [mapRes, eValue, unexpected_withOpts]
    · intro o p isConst h
      rw [parseArray, parseArray]
      simp only [withOpts_Token]
      cases isConst with
      | true =>
        simp only [reduceIte]
        have hcomm : ∀ (o' : ParseOptions) (q : Parser), q.Options = defaultOptions →
            parseConstValue fuel (withOpts o' q) =
              mapRes (eNodeV o') o' (parseConstValue fuel q) :=
          fun o' q hq => ihC o' q hq
        rw [any_withOpts (fun q => parseConstValue fuel q) hcomm fuel o
          .BRACE_L .BRACKET_R p h]
        cases hany : any fuel p .BRACE_L (fun q => parseConstValue fuel q)
            .BRACKET_R with
        | ret iValues e p1 =>
          have hop1 : p1.Options = defaultOptions :=
            commute_pres eNodeVList
              (fun q => any fuel q .BRACE_L (fun q => parseConstValue fuel q) .BRACKET_R)
              (fun o' q hq => any_withOpts (fun q => parseConstValue fuel q)
                hcomm fuel o' .BRACE_L .BRACKET_R q hq)
              p iValues e p1 h hany
          cases e with
          | some err => simp [mapRes, eArrayValue_zero]
          | none =>
            dsimp only [mapRes]
            rw [show rangeAssign NodeV.asValue (eNodeVList o iValues) 0 [] =
                Option.map (List.map (eValue o))
                  (rangeAssign NodeV.asValue iValues 0 []) from
              rangeAssign_erase o (eValue o) NodeV.asValue (asValue_eNodeV o)
                iValues 0 []]
            cases hra : rangeAssign NodeV.asValue iValues 0 [] with
            | none => rfl
            | some values =>
              dsimp only [Option.map]
              simp [eArrayValue, loc_withOpts o p1 hop1, eValueList_eq_map]
        | panicked => rfl
        | outOfFuel => rfl
      | false =>
        simp only [Bool.false_eq_true, if_false]
        have hcomm : ∀ (o' : ParseOptions) (q : Parser), q.Options = defaultOptions →
            parseVariableValue fuel (withOpts o' q) =
              mapRes (eNodeV o') o' (parseVariableValue fuel q) :=
          fun o' q hq => ihW o' q hq
        rw [any_withOpts (fun q => parseVariableValue fuel q) hcomm fuel o
          .BRACE_L .BRACKET_R p h]
        cases hany : any fuel p .BRACE_L (fun q => parseVariableValue fuel q)
            .BRACKET_R with
        | ret iValues e p1 =>
          have hop1 : p1.Options = defaultOptions :=
            commute_pres eNodeVList
              (fun q => any fuel q .BRACE_L (fun q => parseVariableValue fuel q) .BRACKET_R)
              (fun o' q hq => any_withOpts (fun q => parseVariableValue fuel q)
                hcomm fuel o' .BRACE_L .BRACKET_R q hq)
              p iValues e p1 h hany
          cases e with
          | some err => simp [mapRes, eArrayValue_zero]
          | none =>
            dsimp only [mapRes]
            rw [show rangeAssign NodeV.asValue (eNodeVList o iValues) 0 [] =
                Option.map (List.map (eValue o))
                  (rangeAssign NodeV.asValue iValues 0 []) from
              rangeAssign_erase o (eValue o) NodeV.asValue (asValue_eNodeV o)
                iValues 0 []]
            cases hra : rangeAssign NodeV.asValue iValues 0 [] with
            | none => rfl
            | some values =>
              dsimp only [Option.map]
              simp [eArrayValue, loc_withOpts o p1 hop1, eValueList_eq_map]
        | panicked => rfl
        | outOfFuel => rfl
    · intro o p h
      rw [parseConstValue, parseConstValue]
      rw [ihV o p true h]
      cases hv : parseValue fuel p true with
      | ret v e p1 => cases e <;> simp [mapRes, eNodeV]
      | panicked => rfl
      | outOfFuel => rfl
    · intro o p h
      rw [parseVariableValue, parseVariableValue]
      rw [ihV o p false h]
      cases hv : parseValue fuel p false with
      | ret v e p1 => cases e <;> simp [mapRes, eNodeV]
      | panicked => rfl
      | outOfFuel => rfl

theorem parseValue_withOpts (fuel : Nat) (o : ParseOptions) (p : Parser)
    (isConst : Bool) (h : p.Options = defaultOptions) :
    parseValue fuel (withOpts o p) isConst =
      mapRes (eValue o) o (parseValue fuel p isConst) :=
  (valueCommute fuel).1 o p isConst h

theorem parseArray_withOpts (fuel : Nat) (o : ParseOptions) (p : Parser)
    (isConst : Bool) (h : p.Options = defaultOptions) :
    parseArray fuel (withOpts o p) isConst =
      mapRes (eArrayValue o) o (parseArray fuel p isConst) :=
  (valueCommute fuel).2.1 o p isConst h

theorem parseType_withOpts : ∀ (fuel : Nat) (o : ParseOptions) (p : Parser),
    p.Options = defaultOptions →
    parseType fuel (withOpts o p) = mapRes (eTypeNode o) o (parseType fuel p) := by
  intro fuel
  induction fuel with
  | zero => intro o p h; rfl
  | succ fuel ih =>
    intro o p h
    rw [parseType, parseType]
    simp only [withOpts_Token]
    rw [skip_withOpts]
    rcases hs : skip p .BRACE_L with ⟨b, p1⟩
    have hop1 : p1.Options = defaultOptions := by
      have h1 := skip_options p .BRACE_L
      rw [hs] at h1
      simpa [h] using h1
    cases b with
    | true =>
      dsimp only
      rw [ih o p1 hop1]
      cases ht : parseType fuel p1 with
      | ret t e p2 =>
        have hop2 : p2.Options = defaultOptions :=
          commute_pres eTypeNode (parseType fuel)
            (fun o' q hq => ih o' q hq) p1 t e p2 hop1 ht
        cases e with
        | some err => simp [mapRes]
        | none =>
          dsimp only [mapRes]
          rw [expect_withOpts]
          rcases he : expect p2 .BRACKET_R with ⟨tok2, e2, p3⟩
          have hop3 : p3.Options = defaultOptions := by
            have h1 := expect_options p2 .BRACKET_R
            rw [he] at h1
            simpa [hop2] using h1
          cases e2 with
          | some err => simp [mapRes]
          | none =>
            dsimp only
            rw [show TypeNode.listT kinds.ListType (loc (withOpts o p3) p.Token.Start)
                  (eTypeNode o t) =
                eTypeNode o (.listT kinds.ListType (loc p3 p.Token.Start) t) by
              simp [eTypeNode, loc_withOpts o p3 hop3]]
            exact parseTypeBang_withOpts o p3 hop3 p.Token.Start
              (.listT kinds.ListType (loc p3 p.Token.Start) t)
      | panicked => rfl
      | outOfFuel => rfl
    | false =>
      dsimp only
      rw [parseNamedType_withOpts o p1 hop1]
      rcases hn : parseNamedType p1 with ⟨name, e, p2⟩
      have hop2 : p2.Options = defaultOptions := by
        have h1 := parseNamedType_options p1
        rw [hn] at h1
        simpa [hop1] using h1
      cases e with
      | some err => simp [mapRes, eTypeNode]
      | none =>
        dsimp only
        rw [show TypeNode.named (eNamedType o name) =
            eTypeNode o (.named name) from rfl]
        exact parseTypeBang_withOpts o p2 hop2 p.Token.Start (.named name)

theorem parseArgument_withOpts : ∀ (fuel : Nat) (o : ParseOptions) (p : Parser),
    p.Options = defaultOptions →
    parseArgument fuel (withOpts o p) = mapRes (eNodeV o) o (parseArgument fuel p) := by
  intro fuel o p h
  cases fuel with
  | zero => rfl
  | succ fuel =>
    rw [parseArgument, parseArgument]
    simp only [withOpts_Token]
    rw [parseName_withOpts o p h]
    rcases hn : parseName p with ⟨name, e, p1⟩
    have hop1 : p1.Options = defaultOptions := by
      have h1 := parseName_options p
      rw [hn] at h1
      simpa [h] using h1
    cases e with
    | some err => simp [mapRes, eNodeV, eArgument_zero]
    | none =>
      dsimp only
      rw [expect_withOpts]
      rcases he : expect p1 .COLON with ⟨tok, e2, p2⟩
      have hop2 : p2.Options = defaultOptions := by
        have h1 := expect_options p1 .COLON
        rw [he] at h1
        simpa [hop1] using h1
      cases e2 with
      | some err => simp [mapRes, eNodeV, eArgument_zero]
      | none =>
        dsimp only
        rw [parseValue_withOpts fuel o p2 false hop2]
        cases hv : parseValue fuel p2 false with
        | ret v e3 p3 =>
          have hop3 : p3.Options = defaultOptions :=
            commute_pres eValue (fun q => parseValue fuel q false)
              (fun o' q hq => parseValue_withOpts fuel o' q false hq)
              p2 v e3 p3 hop2 hv
          cases e3 with
          | some err => simp [mapRes, eNodeV, eArgument_zero]
          | none => simp [mapRes, eNodeV, eArgument, loc_withOpts o p3 hop3]
        | panicked => rfl
        | outOfFuel => rfl

theorem parseArguments_withOpts : ∀ (fuel : Nat) (o : ParseOptions) (p : Parser),
    p.Options = defaultOptions →
    parseArguments fuel (withOpts o p) =
      mapRes (List.map (eArgument o)) o (parseArguments fuel p) := by
  intro fuel o p h
  cases fuel with
  | zero => rfl
  | succ fuel =>
    rw [parseArguments, parseArguments]
    simp only [peek_withOpts]
    by_cases hpk : peek p .PAREN_L = true
    · simp only [hpk, if_true]
      have hcomm : ∀ (o' : ParseOptions) (q : Parser), q.Options = defaultOptions →
          parseArgument fuel (withOpts o' q) =
            mapRes (eNodeV o') o' (parseArgument fuel q) :=
        fun o' q hq => parseArgument_withOpts fuel o' q hq
      rw [many_withOpts (fun q => parseArgument fuel q) hcomm fuel o
        .PAREN_L .PAREN_R p h]
      cases hm : many fuel p .PAREN_L (fun q => parseArgument fuel q) .PAREN_R with
      | ret nodes e p1 =>
        cases e with
        | some err => simp [mapRes]
        | none =>
          dsimp only [mapRes]
          rw [show rangeAssign NodeV.asArgument (eNodeVList o nodes) 0 [] =
              Option.map (List.map (eArgument o))
                (rangeAssign NodeV.asArgument nodes 0 []) from
            rangeAssign_erase o (eArgument o) NodeV.asArgument
              (asArgument_eNodeV o) nodes 0 []]
          cases hra : rangeAssign NodeV.asArgument nodes 0 [] with
          | none => rfl
          | some arguments => rfl
      | panicked => rfl
      | outOfFuel => rfl
    · simp [hpk, mapRes]

theorem parseVariableDefinition_withOpts :
    ∀ (fuel : Nat) (o : ParseOptions) (p : Parser),
    p.Options = defaultOptions →
    parseVariableDefinition fuel (withOpts o p) =
      mapRes (eNodeV o) o (parseVariableDefinition fuel p) := by
  intro fuel o p h
  cases fuel with
  | zero => rfl
  | succ fuel =>
    rw [parseVariableDefinition, parseVariableDefinition]
    simp only [withOpts_Token]
    rw [skip_withOpts]
    rcases hs : skip p .EQUALS with ⟨b, p1⟩
    have hop1 : p1.Options = defaultOptions := by
      have h1 := skip_options p .EQUALS
      rw [hs] at h1
      simpa [h] using h1
    cases b with
    | true =>
      dsimp only
      rw [parseValue_withOpts fuel o p1 true hop1]
      cases hv : parseValue fuel p1 true with
      | ret dv e2 p2 =>
        have hop2 : p2.Options = defaultOptions :=
          commute_pres eValue (fun q => parseValue fuel q true)
            (fun oz qz hz => parseValue_withOpts fuel oz qz true hz)
            p1 dv e2 p2 hop1 hv
        cases e2 with
        | some err => simp [mapRes, eNodeV]
        | none =>
          dsimp only [mapRes]
          rw [expect_withOpts]
          dsimp only
          have hoq2 : (expect p2 .COLON).2.2.Options = defaultOptions := by
            simpa [hop2] using expect_options p2 .COLON
          cases he : (expect p2 .COLON).2.1 with
          | some err => simp [mapRes, eNodeV, eVariableDefinition_zero]
          | none =>
            dsimp only
            rw [parseVariable_withOpts o (expect p2 .COLON).2.2 hoq2]
            dsimp only
            have hoq3 : (parseVariable (expect p2 .COLON).2.2).2.2.Options = defaultOptions := by
              simpa [hoq2] using parseVariable_options (expect p2 .COLON).2.2
            cases hvv : (parseVariable (expect p2 .COLON).2.2).2.1 with
            | some err => simp [mapRes, eNodeV, eVariableDefinition_zero]
            | none =>
              dsimp only
              rw [parseType_withOpts fuel o (parseVariable (expect p2 .COLON).2.2).2.2 hoq3]
              cases ht : parseType fuel (parseVariable (expect p2 .COLON).2.2).2.2 with
              | ret ttype e7 q4 =>
                have hoq4 : q4.Options = defaultOptions :=
                  commute_pres eTypeNode (parseType fuel)
                    (fun oz qz hz => parseType_withOpts fuel oz qz hz)
                    (parseVariable (expect p2 .COLON).2.2).2.2 ttype e7 q4 hoq3 ht
                cases e7 with
                | some err => simp [mapRes, eNodeV, eVariableDefinition_zero]
                | none => simp [mapRes, eNodeV, eVariableDefinition, eValue, loc_withOpts o q4 hoq4]
              | panicked => rfl
              | outOfFuel => rfl
      | panicked => rfl
      | outOfFuel => rfl
    | false =>
      dsimp only
      rw [expect_withOpts]
      dsimp only
      have hoq2 : (expect p1 .COLON).2.2.Options = defaultOptions := by
        simpa [hop1] using expect_options p1 .COLON
      cases he : (expect p1 .COLON).2.1 with
      | some err => simp [mapRes, eNodeV, eVariableDefinition_zero]
      | none =>
        dsimp only
        rw [parseVariable_withOpts o (expect p1 .COLON).2.2 hoq2]
        dsimp only
        have hoq3 : (parseVariable (expect p1 .COLON).2.2).2.2.Options = defaultOptions := by
          simpa [hoq2] using parseVariable_options (expect p1 .COLON).2.2
        cases hvv : (parseVariable (expect p1 .COLON).2.2).2.1 with
        | some err => simp [mapRes, eNodeV, eVariableDefinition_zero]
        | none =>
          dsimp only
          rw [parseType_withOpts fuel o (parseVariable (expect p1 .COLON).2.2).2.2 hoq3]
          cases ht : parseType fuel (parseVariable (expect p1 .COLON).2.2).2.2 with
          | ret ttype e7 q4 =>
            have hoq4 : q4.Options = defaultOptions :=
              commute_pres eTypeNode (parseType fuel)
                (fun oz qz hz => parseType_withOpts fuel oz qz hz)
                (parseVariable (expect p1 .COLON).2.2).2.2 ttype e7 q4 hoq3 ht
            cases e7 with
            | some err => simp [mapRes, eNodeV, eVariableDefinition_zero]
            | none => simp [mapRes, eNodeV, eVariableDefinition, eValue, loc_withOpts o q4 hoq4]
          | panicked => rfl
          | outOfFuel => rfl

theorem parseVariableDefinitions_withOpts :
    ∀ (fuel : Nat) (o : ParseOptions) (p : Parser),
    p.Options = defaultOptions →
    parseVariableDefinitions fuel (withOpts o p) =
      mapRes (List.map (eVariableDefinition o)) o
        (parseVariableDefinitions fuel p) := by
  intro fuel o p h
  cases fuel with
  | zero => rfl
  | succ fuel =>
    rw [parseVariableDefinitions, parseVariableDefinitions]
    simp only [peek_withOpts]
    by_cases hpk : peek p .PAREN_L = true
    · simp only [hpk, if_true]
      have hcomm : ∀ (o' : ParseOptions) (q : Parser), q.Options = defaultOptions →
          parseVariableDefinition fuel (withOpts o' q) =
            mapRes (eNodeV o') o' (parseVariableDefinition fuel q) :=
        fun o' q hq => parseVariableDefinition_withOpts fuel o' q hq
      rw [many_withOpts (fun q => parseVariableDefinition fuel q) hcomm fuel o
        .PAREN_L .PAREN_R p h]
      cases hm : many fuel p .PAREN_L (fun q => parseVariableDefinition fuel q)
          .PAREN_R with
      | ret vdefs e p1 =>
        dsimp only [mapRes]
        rw [show rangeAssign NodeV.asVariableDefinition (eNodeVList o vdefs) 0 [] =
            Option.map (List.map (eVariableDefinition o))
              (rangeAssign NodeV.asVariableDefinition vdefs 0 []) from
          rangeAssign_erase o (eVariableDefinition o) NodeV.asVariableDefinition
            (asVariableDefinition_eNodeV o) vdefs 0 []]
        cases hra : rangeAssign NodeV.asVariableDefinition vdefs 0 [] with
        | none => rfl
        | some vds => cases e <;> rfl
      | panicked => rfl
      | outOfFuel => rfl
    · simp [hpk, mapRes]

theorem parseDirective_withOpts : ∀ (fuel : Nat) (o : ParseOptions) (p : Parser),
    p.Options = defaultOptions →
    parseDirective fuel (withOpts o p) =
      mapRes (eDirective o) o (parseDirective fuel p) := by
  intro fuel o p h
  cases fuel with
  | zero => rfl
  | succ fuel =>
    rw [parseDirective, parseDirective]
    simp only [withOpts_Token]
    rw [expect_withOpts]
    rcases he : expect p .AT with ⟨tok, e, p1⟩
    have hop1 : p1.Options = defaultOptions := by
      have h1 := expect_options p .AT
      rw [he] at h1
      simpa [h] using h1
    cases e with
    | some err => simp [mapRes, eDirective_zero]
    | none =>
      dsimp only
      rw [parseName_withOpts o p1 hop1]
      rcases hn : parseName p1 with ⟨name, e2, p2⟩
      have hop2 : p2.Options = defaultOptions := by
        have h1 := parseName_options p1
        rw [hn] at h1
        simpa [hop1] using h1
      cases e2 with
      | some err => simp [mapRes, eDirective_zero]
      | none =>
        dsimp only
        rw [skip_withOpts]
        rcases hs : skip p2 .COLON with ⟨b, p3⟩
        have hop3 : p3.Options = defaultOptions := by
          have h1 := skip_options p2 .COLON
          rw [hs] at h1
          simpa [hop2] using h1
        cases b with
        | true =>
          dsimp only
          rw [parseValue_withOpts fuel o p3 false hop3]
          cases hv : parseValue fuel p3 false with
          | ret v e3 p4 =>
            have hop4 : p4.Options = defaultOptions :=
              commute_pres eValue (fun q => parseValue fuel q false)
                (fun o' q hq => parseValue_withOpts fuel o' q false hq)
                p3 v e3 p4 hop3 hv
            cases e3 with
            | some err => simp [mapRes, eDirective_zero]
            | none => simp [mapRes, eDirective, loc_withOpts o p4 hop4]
          | panicked => rfl
          | outOfFuel => rfl
        | false =>
          dsimp only
          simp [mapRes, eDirective, eValue, loc_withOpts o p3 hop3]

theorem parseDirectivesLoop_withOpts :
    ∀ (fuel : Nat) (o : ParseOptions) (p : Parser) (acc : List Directive),
    p.Options = defaultOptions →
    parseDirectivesLoop fuel (withOpts o p) (acc.map (eDirective o)) =
      mapRes (List.map (eDirective o)) o (parseDirectivesLoop fuel p acc) := by
  intro fuel
  induction fuel with
  | zero => intro o p acc h; rfl
  | succ fuel ih =>
    intro o p acc h
    rw [parseDirectivesLoop, parseDirectivesLoop]
    simp only [peek_withOpts]
    by_cases hpk : peek p .AT = true
    · simp only [hpk, if_true]
      rw [parseDirective_withOpts fuel o p h]
      cases hd : parseDirective fuel p with
      | ret d e p1 =>
        have hop1 : p1.Options = defaultOptions :=
          commute_pres eDirective (parseDirective fuel)
            (fun o' q hq => parseDirective_withOpts fuel o' q hq)
            p d e p1 h hd
        cases e with
        | some err => simp [mapRes]
        | none =>
          dsimp only [mapRes]
          rw [show acc.map (eDirective o) ++ [eDirective o d] =
            (acc ++ [d]).map (eDirective o) by simp]
          exact ih o p1 (acc ++ [d]) hop1
      | panicked => rfl
      | outOfFuel => rfl
    · simp [hpk, mapRes]

theorem parseDirectives_withOpts : ∀ (fuel : Nat) (o : ParseOptions) (p : Parser),
    p.Options = defaultOptions →
    parseDirectives fuel (withOpts o p) =
      mapRes (List.map (eDirective o)) o (parseDirectives fuel p) := by
  intro fuel o p h
  rw [parseDirectives, parseDirectives]
  exact parseDirectivesLoop_withOpts fuel o p [] h

/-- The mutually recursive selection grammar commutes with the parse
options. -/
theorem selCommute : ∀ fuel : Nat,
    (∀ (o : ParseOptions) (p : Parser), p.Options = defaultOptions →
      parseSelectionSet fuel (withOpts o p) =
        mapRes (eSelectionSet o) o (parseSelectionSet fuel p)) ∧
    (∀ (o : ParseOptions) (p : Parser), p.Options = defaultOptions →
      parseSelection fuel (withOpts o p) =
        mapRes (eNodeV o) o (parseSelection fuel p)) ∧
    (∀ (o : ParseOptions) (p : Parser), p.Options = defaultOptions →
      parseFragment fuel (withOpts o p) =
        mapRes (eNodeV o) o (parseFragment fuel p)) ∧
    (∀ (o : ParseOptions) (p : Parser), p.Options = defaultOptions →
      parseField fuel (withOpts o p) =
        mapRes (eField o) o (parseField fuel p)) := by
  intro fuel
  induction fuel with
  | zero =>
    exact ⟨fun o p hp => rfl, fun o p hp => rfl,
      fun o p hp => rfl, fun o p hp => rfl⟩
  | succ fuel ih =>
    obtain ⟨ihSS, ihSel, ihFrag, ihField⟩ := ih
    refine ⟨?_, ?_, ?_, ?_⟩
    · intro o p h
      rw [parseSelectionSet, parseSelectionSet]
      simp only [withOpts_Token]
      have hcomm : ∀ (o' : ParseOptions) (q : Parser), q.Options = defaultOptions →
          parseSelection fuel (withOpts o' q) =
            mapRes (eNodeV o') o' (parseSelection fuel q) :=
        fun o' q hq => ihSel o' q hq
      rw [many_withOpts (fun q => parseSelection fuel q) hcomm fuel o
        .BRACE_L .BRACE_R p h]
      cases hm : many fuel p .BRACE_L (fun q => parseSelection fuel q) .BRACE_R with
      | ret sels e p1 =>
        have hop1 : p1.Options = defaultOptions :=
          commute_pres eNodeVList
            (fun q => many fuel q .BRACE_L (fun q' => parseSelection fuel q') .BRACE_R)
            (fun o' q hq => many_withOpts (fun q' => parseSelection fuel q')
              hcomm fuel o' .BRACE_L .BRACE_R q hq)
            p sels e p1 h hm
        cases e with
        | some err => simp [mapRes, eSelectionSet_zero]
        | none => simp [mapRes, eSelectionSet, loc_withOpts o p1 hop1]
      | panicked => rfl
      | outOfFuel => rfl
    · intro o p h
      rw [parseSelection, parseSelection]
      simp only [peek_withOpts]
      by_cases hpk : peek p .SPREAD = true
      · simp only [hpk, if_true]
        exact ihFrag o p h
      · simp only [hpk, if_false, Bool.false_eq_true]
        rw [ihField o p h]
        cases hf : parseField fuel p with
        | ret f e p1 => cases e <;> simp [mapRes, eNodeV]
        | panicked => rfl
        | outOfFuel => rfl
    · intro o p h
      rw [parseFragment, parseFragment]
      simp only [withOpts_Token]
      rw [expect_withOpts]
      dsimp only
      have hop1 : (expect p .SPREAD).2.2.Options = defaultOptions := by
        simpa [h] using expect_options p .SPREAD
      cases he : (expect p .SPREAD).2.1 with
      | some err => simp [mapRes, eNodeV]
      | none =>
        dsimp only
        by_cases hon : (expect p .SPREAD).2.2.Token.Value = "on"
        · simp only [withOpts_Token, hon, if_true]
          rw [advance_withOpts]
          have hop2 : (advance (expect p .SPREAD).2.2).Options = defaultOptions :=
            hop1
          rw [parseNamedType_withOpts o (advance (expect p .SPREAD).2.2) hop2]
          dsimp only
          have hop3 : (parseNamedType (advance (expect p .SPREAD).2.2)).2.2.Options =
              defaultOptions := by
            simpa [hop2] using parseNamedType_options (advance (expect p .SPREAD).2.2)
          cases hnt : (parseNamedType (advance (expect p .SPREAD).2.2)).2.1 with
          | some err => simp [mapRes, eNodeV, eInlineFragment_zero]
          | none =>
            dsimp only
            rw [parseDirectives_withOpts fuel o
              (parseNamedType (advance (expect p .SPREAD).2.2)).2.2 hop3]
            cases hd : parseDirectives fuel
                (parseNamedType (advance (expect p .SPREAD).2.2)).2.2 with
            | ret dirs e3 p4 =>
              have hop4 : p4.Options = defaultOptions :=
                commute_pres (fun o' => List.map (eDirective o'))
                  (parseDirectives fuel)
                  (fun o' q hq => parseDirectives_withOpts fuel o' q hq)
                  (parseNamedType (advance (expect p .SPREAD).2.2)).2.2
                  dirs e3 p4 hop3 hd
              cases e3 with
              | some err => simp [mapRes, eNodeV, eInlineFragment_zero]
              | none =>
                dsimp only [mapRes]
                rw [ihSS o p4 hop4]
                cases hss : parseSelectionSet fuel p4 with
                | ret ss e4 p5 =>
                  have hop5 : p5.Options = defaultOptions :=
                    commute_pres eSelectionSet (parseSelectionSet fuel)
                      (fun o' q hq => ihSS o' q hq) p4 ss e4 p5 hop4 hss
                  cases e4 with
                  | some err => simp [mapRes, eNodeV, eInlineFragment_zero]
                  | none =>
                    simp [mapRes, eNodeV, eInlineFragment,
                      loc_withOpts o p5 hop5]
                | panicked => rfl
                | outOfFuel => rfl
            | panicked => rfl
            | outOfFuel => rfl
        · simp only [withOpts_Token, hon, if_false]
          rw [parseFragmentName_withOpts o (expect p .SPREAD).2.2 hop1]
          dsimp only
          have hop2 : (parseFragmentName (expect p .SPREAD).2.2).2.2.Options =
              defaultOptions := by
            simpa [hop1] using parseFragmentName_options (expect p .SPREAD).2.2
          cases hfn : (parseFragmentName (expect p .SPREAD).2.2).2.1 with
          | some err => simp [mapRes, eNodeV, eFragmentSpread_zero]
          | none =>
            dsimp only
            rw [parseDirectives_withOpts fuel o
              (parseFragmentName (expect p .SPREAD).2.2).2.2 hop2]
            cases hd : parseDirectives fuel
                (parseFragmentName (expect p .SPREAD).2.2).2.2 with
            | ret dirs e3 p3 =>
              have hop3 : p3.Options = defaultOptions :=
                commute_pres (fun o' => List.map (eDirective o'))
                  (parseDirectives fuel)
                  (fun o' q hq => parseDirectives_withOpts fuel o' q hq)
                  (parseFragmentName (expect p .SPREAD).2.2).2.2
                  dirs e3 p3 hop2 hd
              cases e3 with
              | some err => simp [mapRes, eNodeV, eFragmentSpread_zero]
              | none =>
                simp [mapRes, eNodeV, eFragmentSpread, loc_withOpts o p3 hop3]
            | panicked => rfl
            | outOfFuel => rfl
    · intro o p h
      rw [parseField, parseField]
      simp only [withOpts_Token]
      rw [parseName_withOpts o p h]
      dsimp only
      have hop1 : (parseName p).2.2.Options = defaultOptions := by
        simpa [h] using parseName_options p
      cases hn : (parseName p).2.1 with
      | some err => simp [mapRes, eField_zero]
      | none =>
        rw [skip_withOpts]
        rcases hsk : skip (parseName p).2.2 .COLON with ⟨b, psk⟩
        have hop2 : psk.Options = defaultOptions := by
          have h1 := skip_options (parseName p).2.2 .COLON
          rw [hsk] at h1
          simpa [hop1] using h1
        cases b with
        | true =>
          dsimp only
          rw [parseName_withOpts o psk hop2]
          dsimp only
          have hop3 : (parseName psk).2.2.Options = defaultOptions := by
            simpa [hop2] using parseName_options psk
          cases hn2 : (parseName psk).2.1 with
          | some err => simp [mapRes, eField_zero]
          | none =>
            dsimp only
            simp only [peek_withOpts]
            by_cases hpk : peek (parseName psk).2.2 .BRACE_L = true
            · simp only [hpk, if_true]
              rw [ihSS o (parseName psk).2.2 hop3]
              cases hss : parseSelectionSet fuel (parseName psk).2.2 with
              | ret ss e4 p4 =>
                have hop4 : p4.Options = defaultOptions :=
                  commute_pres eSelectionSet (parseSelectionSet fuel)
                    (fun oz qz hz => ihSS oz qz hz)
                    (parseName psk).2.2 ss e4 p4 hop3 hss
                cases e4 with
                | some err => simp [mapRes, eField_zero]
                | none =>
                  dsimp only [mapRes]
                  rw [parseArguments_withOpts fuel o p4 hop4]
                  cases har : parseArguments fuel p4 with
                  | ret args e5 p5 =>
                    have hop5 : p5.Options = defaultOptions :=
                      commute_pres (fun oz => List.map (eArgument oz))
                        (parseArguments fuel)
                        (fun oz qz hz => parseArguments_withOpts fuel oz qz hz)
                        p4 args e5 p5 hop4 har
                    cases e5 with
                    | some err => simp [mapRes, eField_zero]
                    | none =>
                      dsimp only [mapRes]
                      rw [parseDirectives_withOpts fuel o p5 hop5]
                      cases hdr : parseDirectives fuel p5 with
                      | ret dirs e6 p6 =>
                        have hop6 : p6.Options = defaultOptions :=
                          commute_pres (fun oz => List.map (eDirective oz))
                            (parseDirectives fuel)
                            (fun oz qz hz => parseDirectives_withOpts fuel oz qz hz)
                            p5 dirs e6 p6 hop5 hdr
                        cases e6 with
                        | some err => simp [mapRes, eField_zero]
                        | none =>
                          simp [mapRes, eField, loc_withOpts o p6 hop6]
                      | panicked => rfl
                      | outOfFuel => rfl
                  | panicked => rfl
                  | outOfFuel => rfl
              | panicked => rfl
              | outOfFuel => rfl
            · simp only [hpk, if_false, Bool.false_eq_true]
              rw [parseArguments_withOpts fuel o (parseName psk).2.2 hop3]
              cases har : parseArguments fuel (parseName psk).2.2 with
              | ret args e5 p5 =>
                have hop5 : p5.Options = defaultOptions :=
                  commute_pres (fun oz => List.map (eArgument oz))
                    (parseArguments fuel)
                    (fun oz qz hz => parseArguments_withOpts fuel oz qz hz)
                    (parseName psk).2.2 args e5 p5 hop3 har
                cases e5 with
                | some err => simp [mapRes, eField_zero]
                | none =>
                  dsimp only [mapRes]
                  rw [parseDirectives_withOpts fuel o p5 hop5]
                  cases hdr : parseDirectives fuel p5 with
                  | ret dirs e6 p6 =>
                    have hop6 : p6.Options = defaultOptions :=
                      commute_pres (fun oz => List.map (eDirective oz))
                        (parseDirectives fuel)
                        (fun oz qz hz => parseDirectives_withOpts fuel oz qz hz)
                        p5 dirs e6 p6 hop5 hdr
                    cases e6 with
                    | some err => simp [mapRes, eField_zero]
                    | none =>
                      simp [mapRes, eField, eSelectionSet_zero, loc_withOpts o p6 hop6]
                  | panicked => rfl
                  | outOfFuel => rfl
              | panicked => rfl
              | outOfFuel => rfl
        | false =>
          dsimp only
          simp only [peek_withOpts]
          by_cases hpk : peek psk .BRACE_L = true
          · simp only [hpk, if_true]
            rw [ihSS o psk hop2]
            cases hss : parseSelectionSet fuel psk with
            | ret ss e4 p4 =>
              have hop4 : p4.Options = defaultOptions :=
                commute_pres eSelectionSet (parseSelectionSet fuel)
                  (fun oz qz hz => ihSS oz qz hz)
                  psk ss e4 p4 hop2 hss
              cases e4 with
              | some err => simp [mapRes, eField_zero]
              | none =>
                dsimp only [mapRes]
                rw [parseArguments_withOpts fuel o p4 hop4]
                cases har : parseArguments fuel p4 with
                | ret args e5 p5 =>
                  have hop5 : p5.Options = defaultOptions :=
                    commute_pres (fun oz => List.map (eArgument oz))
                      (parseArguments fuel)
                      (fun oz qz hz => parseArguments_withOpts fuel oz qz hz)
                      p4 args e5 p5 hop4 har
                  cases e5 with
                  | some err => simp [mapRes, eField_zero]
                  | none =>
                    dsimp only [mapRes]
                    rw [parseDirectives_withOpts fuel o p5 hop5]
                    cases hdr : parseDirectives fuel p5 with
                    | ret dirs e6 p6 =>
                      have hop6 : p6.Options = defaultOptions :=
                        commute_pres (fun oz => List.map (eDirective oz))
                          (parseDirectives fuel)
                          (fun oz qz hz => parseDirectives_withOpts fuel oz qz hz)
                          p5 dirs e6 p6 hop5 hdr
                      cases e6 with
                      | some err => simp [mapRes, eField_zero]
                      | none =>
                        simp [mapRes, eField, eName_zero, loc_withOpts o p6 hop6]
                    | panicked => rfl
                    | outOfFuel => rfl
                | panicked => rfl
                | outOfFuel => rfl
            | panicked => rfl
            | outOfFuel => rfl
          · simp only [hpk, if_false, Bool.false_eq_true]
            rw [parseArguments_withOpts fuel o psk hop2]
            cases har : parseArguments fuel psk with
            | ret args e5 p5 =>
              have hop5 : p5.Options = defaultOptions :=
                commute_pres (fun oz => List.map (eArgument oz))
                  (parseArguments fuel)
                  (fun oz qz hz => parseArguments_withOpts fuel oz qz hz)
                  psk args e5 p5 hop2 har
              cases e5 with
              | some err => simp [mapRes, eField_zero]
              | none =>
                dsimp only [mapRes]
                rw [parseDirectives_withOpts fuel o p5 hop5]
                cases hdr : parseDirectives fuel p5 with
                | ret dirs e6 p6 =>
                  have hop6 : p6.Options = defaultOptions :=
                    commute_pres (fun oz => List.map (eDirective oz))
                      (parseDirectives fuel)
                      (fun oz qz hz => parseDirectives_withOpts fuel oz qz hz)
                      p5 dirs e6 p6 hop5 hdr
                  cases e6 with
                  | some err => simp [mapRes, eField_zero]
                  | none =>
                    simp [mapRes, eField, eName_zero, eSelectionSet_zero, loc_withOpts o p6 hop6]
                | panicked => rfl
                | outOfFuel => rfl
            | panicked => rfl
            | outOfFuel => rfl

theorem parseSelectionSet_withOpts (fuel : Nat) (o : ParseOptions) (p : Parser)
    (h : p.Options = defaultOptions) :
    parseSelectionSet fuel (withOpts o p) =
      mapRes (eSelectionSet o) o (parseSelectionSet fuel p) :=
  (selCommute fuel).1 o p h

theorem parseOperationDefinition_withOpts :
    ∀ (fuel : Nat) (o : ParseOptions) (p : Parser), p.Options = defaultOptions →
    parseOperationDefinition fuel (withOpts o p) =
      mapRes (eOperationDefinition o) o (parseOperationDefinition fuel p) := by
  intro fuel o p h
  cases fuel with
  | zero => rfl
  | succ fuel =>
    rw [parseOperationDefinition, parseOperationDefinition]
    simp only [withOpts_Token, peek_withOpts]
    by_cases hpk : peek p .BRACE_L = true
    · simp only [hpk, if_true]
      rw [parseSelectionSet_withOpts fuel o p h]
      cases hss : parseSelectionSet fuel p with
      | ret ss e p1 =>
        have hop1 : p1.Options = defaultOptions :=
          commute_pres eSelectionSet (parseSelectionSet fuel)
            (fun oz qz hz => parseSelectionSet_withOpts fuel oz qz hz)
            p ss e p1 h hss
        cases e with
        | some err => simp [mapRes, eOperationDefinition_new]
        | none =>
          simp [mapRes, eOperationDefinition, NewOperationDefinition, eName_zero,
            loc_withOpts o p1 hop1]
      | panicked => rfl
      | outOfFuel => rfl
    · simp only [hpk, if_false, Bool.false_eq_true]
      rw [expect_withOpts]
      dsimp only
      have hop1 : (expect p .NAME).2.2.Options = defaultOptions := by
        simpa [h] using expect_options p .NAME
      cases he : (expect p .NAME).2.1 with
      | some err => simp [mapRes, eOperationDefinition_new]
      | none =>
        dsimp only
        rw [parseName_withOpts o (expect p .NAME).2.2 hop1]
        dsimp only
        have hop2 : (parseName (expect p .NAME).2.2).2.2.Options = defaultOptions := by
          simpa [hop1] using parseName_options (expect p .NAME).2.2
        cases hn : (parseName (expect p .NAME).2.2).2.1 with
        | some err => simp [mapRes, eOperationDefinition_new]
        | none =>
          dsimp only
          rw [parseVariableDefinitions_withOpts fuel o
            (parseName (expect p .NAME).2.2).2.2 hop2]
          cases hvd : parseVariableDefinitions fuel
              (parseName (expect p .NAME).2.2).2.2 with
          | ret vds e3 p3 =>
            have hop3 : p3.Options = defaultOptions :=
              commute_pres (fun oz => List.map (eVariableDefinition oz))
                (parseVariableDefinitions fuel)
                (fun oz qz hz => parseVariableDefinitions_withOpts fuel oz qz hz)
                (parseName (expect p .NAME).2.2).2.2 vds e3 p3 hop2 hvd
            cases e3 with
            | some err => simp [mapRes, eOperationDefinition_new]
            | none =>
              dsimp only [mapRes]
              rw [parseDirectives_withOpts fuel o p3 hop3]
              cases hdr : parseDirectives fuel p3 with
              | ret dirs e4 p4 =>
                have hop4 : p4.Options = defaultOptions :=
                  commute_pres (fun oz => List.map (eDirective oz))
                    (parseDirectives fuel)
                    (fun oz qz hz => parseDirectives_withOpts fuel oz qz hz)
                    p3 dirs e4 p4 hop3 hdr
                cases e4 with
                | some err => simp [mapRes, eOperationDefinition_new]
                | none =>
                  dsimp only [mapRes]
                  rw [parseSelectionSet_withOpts fuel o p4 hop4]
                  cases hss : parseSelectionSet fuel p4 with
                  | ret ss e5 p5 =>
                    have hop5 : p5.Options = defaultOptions :=
                      commute_pres eSelectionSet (parseSelectionSet fuel)
                        (fun oz qz hz => parseSelectionSet_withOpts fuel oz qz hz)
                        p4 ss e5 p5 hop4 hss
                    cases e5 with
                    | some err => simp [mapRes, eOperationDefinition_new]
                    | none =>
                      simp [mapRes, eOperationDefinition, NewOperationDefinition,
                        loc_withOpts o p5 hop5]
                  | panicked => rfl
                  | outOfFuel => rfl
              | panicked => rfl
              | outOfFuel => rfl
          | panicked => rfl
          | outOfFuel => rfl

theorem parseFragmentDefinition_withOpts :
    ∀ (fuel : Nat) (o : ParseOptions) (p : Parser), p.Options = defaultOptions →
    parseFragmentDefinition fuel (withOpts o p) =
      mapRes (eFragmentDefinition o) o (parseFragmentDefinition fuel p) := by
  intro fuel o p h
  cases fuel with
  | zero => rfl
  | succ fuel =>
    rw [parseFragmentDefinition, parseFragmentDefinition]
    simp only [withOpts_Token]
    rw [expectKeyWord_withOpts]
    dsimp only
    have hop1 : (expectKeyWord p "fragment").2.2.Options = defaultOptions := by
      simpa [h] using expectKeyWord_options p "fragment"
    cases he : (expectKeyWord p "fragment").2.1 with
    | some err => simp [mapRes, eFragmentDefinition_new]
    | none =>
      dsimp only
      rw [parseFragmentName_withOpts o (expectKeyWord p "fragment").2.2 hop1]
      dsimp only
      have hop2 : (parseFragmentName (expectKeyWord p "fragment").2.2).2.2.Options =
          defaultOptions := by
        simpa [hop1] using parseFragmentName_options (expectKeyWord p "fragment").2.2
      cases hn : (parseFragmentName (expectKeyWord p "fragment").2.2).2.1 with
      | some err => simp [mapRes, eFragmentDefinition_new]
      | none =>
        dsimp only
        rw [expectKeyWord_withOpts]
        dsimp only
        have hop3 : (expectKeyWord
            (parseFragmentName (expectKeyWord p "fragment").2.2).2.2 "on").2.2.Options =
            defaultOptions := by
          simpa [hop2] using expectKeyWord_options
            (parseFragmentName (expectKeyWord p "fragment").2.2).2.2 "on"
        cases he2 : (expectKeyWord
            (parseFragmentName (expectKeyWord p "fragment").2.2).2.2 "on").2.1 with
        | some err => simp [mapRes, eFragmentDefinition_new]
        | none =>
          dsimp only
          rw [parseNamedType_withOpts o (expectKeyWord
            (parseFragmentName (expectKeyWord p "fragment").2.2).2.2 "on").2.2 hop3]
          dsimp only
          have hop4 : (parseNamedType (expectKeyWord
              (parseFragmentName (expectKeyWord p "fragment").2.2).2.2 "on").2.2).2.2.Options =
              defaultOptions := by
            simpa [hop3] using parseNamedType_options (expectKeyWord
              (parseFragmentName (expectKeyWord p "fragment").2.2).2.2 "on").2.2
          cases hnt : (parseNamedType (expectKeyWord
              (parseFragmentName (expectKeyWord p "fragment").2.2).2.2 "on").2.2).2.1 with
          | some err => simp [mapRes, eFragmentDefinition_new]
          | none =>
            dsimp only
            rw [parseSelectionSet_withOpts fuel o (parseNamedType (expectKeyWord
              (parseFragmentName (expectKeyWord p "fragment").2.2).2.2 "on").2.2).2.2 hop4]
            cases hss : parseSelectionSet fuel (parseNamedType (expectKeyWord
                (parseFragmentName (expectKeyWord p "fragment").2.2).2.2 "on").2.2).2.2 with
            | ret ss e5 p5 =>
              have hop5 : p5.Options = defaultOptions :=
                commute_pres eSelectionSet (parseSelectionSet fuel)
                  (fun oz qz hz => parseSelectionSet_withOpts fuel oz qz hz)
                  (parseNamedType (expectKeyWord
                    (parseFragmentName (expectKeyWord p "fragment").2.2).2.2 "on").2.2).2.2
                  ss e5 p5 hop4 hss
              cases e5 with
              | some err => simp [mapRes, eFragmentDefinition_new]
              | none =>
                dsimp only [mapRes]
                rw [parseDirectives_withOpts fuel o p5 hop5]
                cases hdr : parseDirectives fuel p5 with
                | ret dirs e6 p6 =>
                  have hop6 : p6.Options = defaultOptions :=
                    commute_pres (fun oz => List.map (eDirective oz))
                      (parseDirectives fuel)
                      (fun oz qz hz => parseDirectives_withOpts fuel oz qz hz)
                      p5 dirs e6 p6 hop5 hdr
                  cases e6 with
                  | some err => simp [mapRes, eFragmentDefinition_new]
                  | none =>
                    simp [mapRes, eFragmentDefinition, NewFragmentDefinition,
                      loc_withOpts o p6 hop6]
                | panicked => rfl
                | outOfFuel => rfl
            | panicked => rfl
            | outOfFuel => rfl

theorem parseDocumentLoop_withOpts :
    ∀ (fuel : Nat) (o : ParseOptions) (p : Parser) (acc : List Definition),
    p.Options = defaultOptions →
    parseDocumentLoop fuel (withOpts o p) (acc.map (eDefinition o)) =
      mapRes (List.map (eDefinition o)) o (parseDocumentLoop fuel p acc) := by
  intro fuel
  induction fuel with
  | zero => intro o p acc h; rfl
  | succ fuel ih =>
    intro o p acc h
    rw [parseDocumentLoop, parseDocumentLoop]
    rw [skip_withOpts]
    rcases hs : skip p .EOF with ⟨b, p0⟩
    have hop0 : p0.Options = defaultOptions := by
      have h1 := skip_options p .EOF
      rw [hs] at h1
      simpa [h] using h1
    cases b with
    | true => simp [mapRes]
    | false =>
      dsimp only
      simp only [peek_withOpts, withOpts_Token]
      by_cases hpk : peek p0 .BRACE_L = true
      · simp only [hpk, if_true]
        rw [parseOperationDefinition_withOpts fuel o p0 hop0]
        cases hod : parseOperationDefinition fuel p0 with
        | ret oDef e p1 =>
          have hop1 : p1.Options = defaultOptions :=
            commute_pres eOperationDefinition (parseOperationDefinition fuel)
              (fun oz qz hz => parseOperationDefinition_withOpts fuel oz qz hz)
              p0 oDef e p1 hop0 hod
          cases e with
          | some err => simp [mapRes]
          | none =>
            dsimp only [mapRes]
            rw [show acc.map (eDefinition o) ++ [Definition.op (eOperationDefinition o oDef)] =
              (acc ++ [Definition.op oDef]).map (eDefinition o) by simp [eDefinition]]
            exact ih o p1 (acc ++ [Definition.op oDef]) hop1
        | panicked => rfl
        | outOfFuel => rfl
      · simp only [hpk, if_false, Bool.false_eq_true]
        by_cases hpn : peek p0 .NAME = true
        · simp only [hpn, if_true]
          by_cases hqm : p0.Token.Value = "query" ∨ p0.Token.Value = "mutation"
          · simp only [hqm, if_true]
            rw [parseOperationDefinition_withOpts fuel o p0 hop0]
            cases hod : parseOperationDefinition fuel p0 with
            | ret oDef e p1 =>
              have hop1 : p1.Options = defaultOptions :=
                commute_pres eOperationDefinition (parseOperationDefinition fuel)
                  (fun oz qz hz => parseOperationDefinition_withOpts fuel oz qz hz)
                  p0 oDef e p1 hop0 hod
              cases e with
              | some err => simp [mapRes]
              | none =>
                dsimp only [mapRes]
                rw [show acc.map (eDefinition o) ++
                    [Definition.op (eOperationDefinition o oDef)] =
                  (acc ++ [Definition.op oDef]).map (eDefinition o) by
                    simp [eDefinition]]
                exact ih o p1 (acc ++ [Definition.op oDef]) hop1
            | panicked => rfl
            | outOfFuel => rfl
          · simp only [hqm, if_false]
            by_cases hfr : p0.Token.Value = "fragment"
            · simp only [hfr, if_true]
              rw [parseFragmentDefinition_withOpts fuel o p0 hop0]
              cases hfd : parseFragmentDefinition fuel p0 with
              | ret fDef e p1 =>
                have hop1 : p1.Options = defaultOptions :=
                  commute_pres eFragmentDefinition (parseFragmentDefinition fuel)
                    (fun oz qz hz => parseFragmentDefinition_withOpts fuel oz qz hz)
                    p0 fDef e p1 hop0 hfd
                cases e with
                | some err => simp [mapRes]
                | none =>
                  dsimp only [mapRes]
                  rw [show acc.map (eDefinition o) ++
                      [Definition.frag (eFragmentDefinition o fDef)] =
                    (acc ++ [Definition.frag fDef]).map (eDefinition o) by
                      simp [eDefinition]]
                  exact ih o p1 (acc ++ [Definition.frag fDef]) hop1
              | panicked => rfl
              | outOfFuel => rfl
            · simp [hfr, mapRes, unexpected_withOpts]
        · simp [hpn, mapRes, unexpected_withOpts]

theorem parseDocument_withOpts :
    ∀ (fuel : Nat) (o : ParseOptions) (p : Parser), p.Options = defaultOptions →
    parseDocument fuel (withOpts o p) =
      mapRes (eDocument o) o (parseDocument fuel p) := by
  intro fuel o p h
  cases fuel with
  | zero => rfl
  | succ fuel =>
    rw [parseDocument, parseDocument]
    simp only [withOpts_Token]
    rw [show parseDocumentLoop fuel (withOpts o p) ([] : List Definition) =
        mapRes (List.map (eDefinition o)) o (parseDocumentLoop fuel p []) from
      parseDocumentLoop_withOpts fuel o p [] h]
    cases hl : parseDocumentLoop fuel p [] with
    | ret defs e p1 =>
      have hop1 : p1.Options = defaultOptions :=
        commute_pres (fun oz => List.map (eDefinition oz))
          (fun q => parseDocumentLoop fuel q [])
          (fun oz qz hz => parseDocumentLoop_withOpts fuel oz qz [] hz)
          p defs e p1 h hl
      cases e with
      | some err => simp [mapRes, eDocument_zero]
      | none => simp [mapRes, eDocument, loc_withOpts o p1 hop1]
    | panicked => rfl
    | outOfFuel => rfl

/-! ### Location well-formedness (for the location-invariant claim) -/

/-- A well-formed location span: End is not before Start. -/
def locWF (l : Location) : Bool := decide (l.Start ≤ l.End)

def Name.locsWF (n : Name) : Bool := locWF n.Loc

def Variable.locsWF (v : Variable) : Bool := locWF v.Loc && v.Name.locsWF

mutual

def Value.locsWF : Value → Bool
  | .nilValue => true
  | .array a => a.locsWF

def ArrayValue.locsWF : ArrayValue → Bool
  | .mk _ l vs => locWF l && valueListWF vs

def valueListWF : List Value → Bool
  | [] => true
  | v :: vs => v.locsWF && valueListWF vs

end

def Argument.locsWF (a : Argument) : Bool :=
  locWF a.Loc && a.Name.locsWF && a.Value.locsWF

def Directive.locsWF (d : Directive) : Bool :=
  locWF d.Loc && d.Name.locsWF && d.Value.locsWF

def dirListWF : List Directive → Bool
  | [] => true
  | d :: ds => d.locsWF && dirListWF ds

mutual

def TypeNode.locsWF : TypeNode → Bool
  | .nilType => true
  | .named n => n.locsWF
  | .listT _ l t => locWF l && t.locsWF
  | .nonNull _ l t => locWF l && t.locsWF

def NamedType.locsWF : NamedType → Bool
  | .mk _ l n t => locWF l && n.locsWF && t.locsWF

end

def VariableDefinition.locsWF (v : VariableDefinition) : Bool :=
  locWF v.Loc && v.Variable.locsWF && v.Type'.locsWF && v.DefaultValue.locsWF

def FragmentSpread.locsWF (f : FragmentSpread) : Bool :=
  locWF f.Loc && f.Name.locsWF && dirListWF f.Directives

def argListWF : List Argument → Bool
  | [] => true
  | a :: as' => a.locsWF && argListWF as'

def vdefListWF : List VariableDefinition → Bool
  | [] => true
  | v :: vs => v.locsWF && vdefListWF vs

mutual

def NodeV.locsWF : NodeV → Bool
  | .nilNode => true
  | .field f => f.locsWF
  | .spread s => s.locsWF
  | .inline i => i.locsWF
  | .arg a => a.locsWF
  | .vDef v => v.locsWF
  | .value v => v.locsWF

def SelectionSet.locsWF : SelectionSet → Bool
  | .mk _ l sels => locWF l && nodeListWF sels

def nodeListWF : List NodeV → Bool
  | [] => true
  | x :: xs => x.locsWF && nodeListWF xs

def Field.locsWF : Field → Bool
  | .mk _ l a n args dirs ss =>
    locWF l && a.locsWF && n.locsWF && argListWF args && dirListWF dirs &&
      ss.locsWF

def InlineFragment.locsWF : InlineFragment → Bool
  | .mk _ l tc dirs ss =>
    locWF l && tc.locsWF && dirListWF dirs && ss.locsWF

end

def OperationDefinition.locsWF (d : OperationDefinition) : Bool :=
  locWF d.Loc && d.Name.locsWF && vdefListWF d.VariableDefinitions &&
    dirListWF d.Directives && d.SelectionSet.locsWF

def FragmentDefinition.locsWF (d : FragmentDefinition) : Bool :=
  locWF d.Loc && d.Name.locsWF && d.TypeCondition.locsWF &&
    dirListWF d.Directives && d.SelectionSet.locsWF

def Definition.locsWF : Definition → Bool
  | .op d => d.locsWF
  | .frag d => d.locsWF

def defListWF : List Definition → Bool
  | [] => true
  | d :: ds => d.locsWF && defListWF ds

def Document.locsWF (d : Document) : Bool :=
  locWF d.Loc && defListWF d.Definitions

/-- The cursor invariant maintained by the tokenizer: the previous token
ended at or before the current token starts, and the current token's span
is ordered. -/
def SInv (p : Parser) : Prop :=
  p.PrevEnd ≤ p.Token.Start ∧ p.Token.Start ≤ p.Token.End

theorem locWF_zero : locWF zeroLocation = true := by decide

theorem zeroName_wf : Name.locsWF zeroName = true := by decide

theorem zeroSelectionSet_wf : SelectionSet.locsWF zeroSelectionSet = true := by
  simp [SelectionSet.locsWF, zeroSelectionSet, nodeListWF, locWF_zero]

theorem zeroNamedType_wf : NamedType.locsWF zeroNamedType = true := by
  simp [NamedType.locsWF, zeroNamedType, TypeNode.locsWF, locWF_zero, zeroName_wf,
    Name.locsWF, zeroName, zeroLocation, locWF]

theorem skipIgnored_ge : ∀ (cs : List Char) (i : Nat), i ≤ (skipIgnored cs i).2 := by
  intro cs
  induction cs with
  | nil => intro i; simp [skipIgnored]
  | cons c cs ih =>
    intro i
    rw [skipIgnored]
    by_cases hc : isIgnored c = true
    · simp only [hc, if_true]
      exact Nat.le_trans (Nat.le_succ i) (ih (i + 1))
    · simp [hc]

theorem lexAt_bounds (body : String) (pos : Nat) :
    pos ≤ (lexAt body pos).Start ∧ (lexAt body pos).Start ≤ (lexAt body pos).End := by
  rw [lexAt]
  rcases hsk : skipIgnored (body.data.drop pos) pos with ⟨rest, i⟩
  have hi : pos ≤ i := by
    have h1 := skipIgnored_ge (body.data.drop pos) pos
    rw [hsk] at h1
    exact h1
  dsimp only
  rcases hlx : lexOne rest with ⟨k, v, len⟩
  try rw [hlx]
  exact ⟨hi, Nat.le_add_right i len⟩

theorem SInv_advance (p : Parser) (h : SInv p) : SInv (advance p) := by
  have hb := lexAt_bounds p.Body p.Token.End
  exact ⟨hb.1, hb.2⟩

theorem advance_PrevEnd (p : Parser) : (advance p).PrevEnd = p.Token.End := rfl

theorem SInv_makeParser (s : Source) (opts : ParseOptions) :
    SInv (makeParser s opts) := by
  have hb := lexAt_bounds s.Body 0
  exact ⟨Nat.le_trans (Nat.zero_le 0) hb.1, hb.2⟩

theorem skip_true_eq (p : Parser) (k : TKind) (p1 : Parser)
    (h : skip p k = (true, p1)) : p1 = advance p := by
  rw [skip] at h
  by_cases hk : p.Token.Kind = k
  · simp [hk] at h
    exact h.symm
  · simp [hk] at h

theorem skip_false_eq (p : Parser) (k : TKind) (p1 : Parser)
    (h : skip p k = (false, p1)) : p1 = p := by
  rw [skip] at h
  by_cases hk : p.Token.Kind = k
  · simp [hk] at h
  · simp [hk] at h
    exact h.symm

theorem expect_none_eq (p : Parser) (k : TKind) (t : Token) (p1 : Parser)
    (h : expect p k = (t, none, p1)) : t = p.Token ∧ p1 = advance p := by
  rw [expect] at h
  by_cases hk : p.Token.Kind = k
  · simp [hk] at h
    exact ⟨h.1.symm, h.2.symm⟩
  · simp [hk] at h

theorem expectKeyWord_none_eq (p : Parser) (v : String) (t : Token) (p1 : Parser)
    (h : expectKeyWord p v = (t, none, p1)) : t = p.Token ∧ p1 = advance p := by
  rw [expectKeyWord] at h
  by_cases hk : p.Token.Kind = TKind.NAME ∧ p.Token.Value = v
  · simp [hk] at h
    exact ⟨h.1.symm, h.2.symm⟩
  · simp [hk] at h

theorem nodeListWF_append (a b : List NodeV) :
    nodeListWF (a ++ b) = (nodeListWF a && nodeListWF b) := by
  induction a with
  | nil => simp [nodeListWF]
  | cons x xs ih => simp [nodeListWF, ih, Bool.and_assoc]

theorem dirListWF_append (a b : List Directive) :
    dirListWF (a ++ b) = (dirListWF a && dirListWF b) := by
  induction a with
  | nil => simp [dirListWF]
  | cons x xs ih => simp [dirListWF, ih, Bool.and_assoc]

theorem defListWF_append (a b : List Definition) :
    defListWF (a ++ b) = (defListWF a && defListWF b) := by
  induction a with
  | nil => simp [defListWF]
  | cons x xs ih => simp [defListWF, ih, Bool.and_assoc]

/-- A location built by loc is well formed as soon as the recorded start
does not exceed the cursor's previous-token end. -/
theorem locWF_loc (p : Parser) (start : Nat) (h : start ≤ p.PrevEnd) :
    locWF (loc p start) = true := by
  rw [loc]
  split_ifs <;> simp [locWF, zeroLocation, h]

theorem parseName_wf (p : Parser) (n : Name) (p' : Parser) (hs : SInv p)
    (h : parseName p = (n, none, p')) :
    SInv p' ∧ p.PrevEnd ≤ p'.PrevEnd ∧ p.Token.Start ≤ p'.PrevEnd ∧
      Name.locsWF n = true := by
  rw [parseName] at h
  rcases he : expect p .NAME with ⟨tok, e, p1⟩
  rw [he] at h
  cases e with
  | some err => exact absurd h (by simp)
  | none =>
    obtain ⟨htok, hadv⟩ := expect_none_eq p .NAME tok p1 he
    simp only [Prod.mk.injEq] at h
    obtain ⟨hn, -, hp⟩ := h
    subst hn hp hadv htok
    refine ⟨SInv_advance p hs, ?_, ?_, ?_⟩
    · rw [advance_PrevEnd]
      exact Nat.le_trans hs.1 hs.2
    · rw [advance_PrevEnd]
      exact hs.2
    · simp only [Name.locsWF]
      exact locWF_loc (advance p) p.Token.Start (by rw [advance_PrevEnd]; exact hs.2)

theorem parseNamedType_wf (p : Parser) (n : NamedType) (p' : Parser) (hs : SInv p)
    (h : parseNamedType p = (n, none, p')) :
    SInv p' ∧ p.PrevEnd ≤ p'.PrevEnd ∧ p.Token.Start ≤ p'.PrevEnd ∧
      NamedType.locsWF n = true := by
  rw [parseNamedType] at h
  rcases hn : parseName p with ⟨name, e, p1⟩
  rw [hn] at h
  cases e with
  | some err => exact absurd h (by simp)
  | none =>
    obtain ⟨h1, h2, h3, h4⟩ := parseName_wf p name p1 hs hn
    simp only [Prod.mk.injEq] at h
    obtain ⟨hv, -, hp⟩ := h
    subst hv hp
    refine ⟨h1, h2, h3, ?_⟩
    simp only [NamedType.locsWF, TypeNode.locsWF]
    rw [locWF_loc p1 p.Token.Start h3, h4]
    rfl

theorem parseFragmentName_wf (p : Parser) (n : Name) (p' : Parser) (hs : SInv p)
    (h : parseFragmentName p = (n, none, p')) :
    SInv p' ∧ p.PrevEnd ≤ p'.PrevEnd ∧ p.Token.Start ≤ p'.PrevEnd ∧
      Name.locsWF n = true := by
  rw [parseFragmentName] at h
  by_cases hv : p.Token.Value = "on"
  · simp [hv] at h
  · simp only [hv, if_false] at h
    exact parseName_wf p n p' hs h

theorem parseVariable_wf (p : Parser) (v : Variable) (p' : Parser) (hs : SInv p)
    (h : parseVariable p = (v, none, p')) :
    SInv p' ∧ p.PrevEnd ≤ p'.PrevEnd ∧ p.Token.Start ≤ p'.PrevEnd ∧
      Variable.locsWF v = true := by
  rw [parseVariable] at h
  rcases he : expect p .DOLLAR with ⟨tok, e, p1⟩
  rw [he] at h
  dsimp only at h
  cases e with
  | some err => exact absurd h (by simp)
  | none =>
    obtain ⟨htok, hadv⟩ := expect_none_eq p .DOLLAR tok p1 he
    rcases hn : parseName p1 with ⟨name, e2, p2⟩
    rw [hn] at h
    cases e2 with
    | some err => exact absurd h (by simp)
    | none =>
      have hs1 : SInv p1 := hadv ▸ SInv_advance p hs
      obtain ⟨h1, h2, h3, h4⟩ := parseName_wf p1 name p2 hs1 hn
      simp only [Prod.mk.injEq] at h
      obtain ⟨hv2, -, hp⟩ := h
      subst hv2 hp
      have hpe1 : p1.PrevEnd = p.Token.End := by rw [hadv, advance_PrevEnd]
      refine ⟨h1, ?_, ?_, ?_⟩
      · exact Nat.le_trans (Nat.le_trans hs.1 hs.2) (hpe1 ▸ h2)
      · exact Nat.le_trans hs.2 (hpe1 ▸ h2)
      · simp only [Variable.locsWF]
        rw [locWF_loc p2 p.Token.Start (Nat.le_trans hs.2 (hpe1 ▸ h2)), h4]
        rfl

theorem parseTypeBang_wf (p : Parser) (start : Nat) (t : TypeNode)
    (v : TypeNode) (p' : Parser) (hs : SInv p) (hstart : start ≤ p.PrevEnd)
    (hwf : TypeNode.locsWF t = true)
    (h : parseTypeBang p start t = .ret v none p') :
    SInv p' ∧ p.PrevEnd ≤ p'.PrevEnd ∧ TypeNode.locsWF v = true := by
  rw [parseTypeBang] at h
  rcases hb : skip p .BANG with ⟨b, p1⟩
  rw [hb] at h
  obtain ⟨hs1, hs2⟩ := hs
  cases b with
  | true =>
    have hadv : p1 = advance p := skip_true_eq p .BANG p1 hb
    subst hadv
    cases h
    refine ⟨SInv_advance p ⟨hs1, hs2⟩, ?_, ?_⟩
    · rw [advance_PrevEnd]
      exact Nat.le_trans hs1 hs2
    · simp only [TypeNode.locsWF]
      rw [locWF_loc (advance p) start (by rw [advance_PrevEnd]; omega), hwf]
      rfl
  | false =>
    have hp1 : p1 = p := skip_false_eq p .BANG p1 hb
    subst hp1
    cases h
    exact ⟨⟨hs1, hs2⟩, Nat.le_refl _, hwf⟩

theorem manyLoop_wf (parseFn : ParseFn)
    (hitem : ∀ (q : Parser) (v : NodeV) (q' : Parser), SInv q →
      parseFn q = .ret v none q' →
      SInv q' ∧ q.PrevEnd ≤ q'.PrevEnd ∧ NodeV.locsWF v = true) :
    ∀ (fuel : Nat) (closeKind : TKind) (p : Parser) (acc nodes : List NodeV)
      (p' : Parser), SInv p → nodeListWF acc = true →
      manyLoop fuel parseFn closeKind p acc = .ret nodes none p' →
      SInv p' ∧ p.PrevEnd ≤ p'.PrevEnd ∧ nodeListWF nodes = true := by
  intro fuel
  induction fuel with
  | zero =>
    intro ck p acc nodes p' hs hacc h
    exact absurd h (by simp [manyLoop])
  | succ fuel ih =>
    intro ck p acc nodes p' hs hacc h
    rw [manyLoop] at h
    rcases hsk : skip p ck with ⟨b, p0⟩
    rw [hsk] at h
    cases b with
    | true =>
      have hadv : p0 = advance p := skip_true_eq p ck p0 hsk
      subst hadv
      cases h
      refine ⟨SInv_advance p hs, ?_, hacc⟩
      rw [advance_PrevEnd]
      exact Nat.le_trans hs.1 hs.2
    | false =>
      have hp0 : p0 = p := skip_false_eq p ck p0 hsk
      rw [hp0] at h
      dsimp only at h
      cases hf : parseFn p with
      | ret node e p1 =>
        rw [hf] at h
        cases e with
        | some err => exact absurd h (by simp)
        | none =>
          dsimp only at h
          obtain ⟨hi1, hi2, hi3⟩ := hitem p node p1 hs hf
          have hacc2 : nodeListWF (acc ++ [node]) = true := by
            simp [nodeListWF_append, nodeListWF, hacc, hi3]
          obtain ⟨A, B, C⟩ := ih ck p1 (acc ++ [node]) nodes p' hi1 hacc2 h
          exact ⟨A, Nat.le_trans hi2 B, C⟩
      | panicked =>
        rw [hf] at h
        exact absurd h (by simp)
      | outOfFuel =>
        rw [hf] at h
        exact absurd h (by simp)

theorem many_wf (parseFn : ParseFn)
    (hitem : ∀ (q : Parser) (v : NodeV) (q' : Parser), SInv q →
      parseFn q = .ret v none q' →
      SInv q' ∧ q.PrevEnd ≤ q'.PrevEnd ∧ NodeV.locsWF v = true) :
    ∀ (fuel : Nat) (openKind closeKind : TKind) (p : Parser)
      (nodes : List NodeV) (p' : Parser), SInv p →
      many fuel p openKind parseFn closeKind = .ret nodes none p' →
      SInv p' ∧ p.PrevEnd ≤ p'.PrevEnd ∧ p.Token.Start ≤ p'.PrevEnd ∧
        nodeListWF nodes = true := by
  intro fuel ok ck p nodes p' hs h
  cases fuel with
  | zero => exact absurd h (by simp [many])
  | succ fuel =>
    rw [many] at h
    rcases he : expect p ok with ⟨tok, e, p0⟩
    rw [he] at h
    dsimp only at h
    cases e with
    | some err => exact absurd h (by simp)
    | none =>
      obtain ⟨htok, hadv⟩ := expect_none_eq p ok tok p0 he
      subst hadv
      have hs0 : SInv (advance p) := SInv_advance p hs
      cases hf : parseFn (advance p) with
      | ret node e2 p1 =>
        rw [hf] at h
        cases e2 with
        | some err => exact absurd h (by simp)
        | none =>
          dsimp only at h
          obtain ⟨hi1, hi2, hi3⟩ := hitem (advance p) node p1 hs0 hf
          have hone : nodeListWF [node] = true := by
            simp [nodeListWF, hi3]
          obtain ⟨A, B, C⟩ :=
            manyLoop_wf parseFn hitem fuel ck p1 [node] nodes p' hi1 hone h
          have hPE : (advance p).PrevEnd = p.Token.End := advance_PrevEnd p
          refine ⟨A, ?_, ?_, C⟩
          · have := Nat.le_trans hi2 B
            rw [hPE] at this
            exact Nat.le_trans (Nat.le_trans hs.1 hs.2) this
          · have := Nat.le_trans hi2 B
            rw [hPE] at this
            exact Nat.le_trans hs.2 this
      | panicked =>
        rw [hf] at h
        exact absurd h (by simp)
      | outOfFuel =>
        rw [hf] at h
        exact absurd h (by simp)

theorem anyLoop_wf (parseFn : ParseFn)
    (hitem : ∀ (q : Parser) (v : NodeV) (q' : Parser), SInv q →
      parseFn q = .ret v none q' →
      SInv q' ∧ q.PrevEnd ≤ q'.PrevEnd ∧ NodeV.locsWF v = true) :
    ∀ (fuel : Nat) (closeKind : TKind) (p : Parser) (acc nodes : List NodeV)
      (p' : Parser), SInv p → nodeListWF acc = true →
      anyLoop fuel parseFn closeKind p acc = .ret nodes none p' →
      SInv p' ∧ p.PrevEnd ≤ p'.PrevEnd ∧ nodeListWF nodes = true := by
  intro fuel
  induction fuel with
  | zero =>
    intro ck p acc nodes p' hs hacc h
    exact absurd h (by simp [anyLoop])
  | succ fuel ih =>
    intro ck p acc nodes p' hs hacc h
    rw [anyLoop] at h
    rcases hsk : skip p ck with ⟨b, p0⟩
    rw [hsk] at h
    cases b with
    | true =>
      have hadv : p0 = advance p := skip_true_eq p ck p0 hsk
      subst hadv
      cases h
      refine ⟨SInv_advance p hs, ?_, hacc⟩
      rw [advance_PrevEnd]
      exact Nat.le_trans hs.1 hs.2
    | false =>
      have hp0 : p0 = p := skip_false_eq p ck p0 hsk
      rw [hp0] at h
      dsimp only at h
      cases hf : parseFn p with
      | ret node e p1 =>
        rw [hf] at h
        cases e with
        | some err => exact absurd h (by simp)
        | none =>
          dsimp only at h
          obtain ⟨hi1, hi2, hi3⟩ := hitem p node p1 hs hf
          have hacc2 : nodeListWF (acc ++ [node]) = true := by
            simp [nodeListWF_append, nodeListWF, hacc, hi3]
          obtain ⟨A, B, C⟩ := ih ck p1 (acc ++ [node]) nodes p' hi1 hacc2 h
          exact ⟨A, Nat.le_trans hi2 B, C⟩
      | panicked =>
        rw [hf] at h
        exact absurd h (by simp)
      | outOfFuel =>
        rw [hf] at h
        exact absurd h (by simp)

/-- parser.any at a state whose current token is the open kind: the open
token is really consumed, so the span facts of `many` hold. -/
theorem any_wf (parseFn : ParseFn)
    (hitem : ∀ (q : Parser) (v : NodeV) (q' : Parser), SInv q →
      parseFn q = .ret v none q' →
      SInv q' ∧ q.PrevEnd ≤ q'.PrevEnd ∧ NodeV.locsWF v = true) :
    ∀ (fuel : Nat) (openKind closeKind : TKind) (p : Parser)
      (nodes : List NodeV) (p' : Parser), SInv p → p.Token.Kind = openKind →
      any fuel p openKind parseFn closeKind = .ret nodes none p' →
      SInv p' ∧ p.PrevEnd ≤ p'.PrevEnd ∧ p.Token.Start ≤ p'.PrevEnd ∧
        nodeListWF nodes = true := by
  intro fuel ok ck p nodes p' hs hopen h
  cases fuel with
  | zero => exact absurd h (by simp [any])
  | succ fuel =>
    rw [any] at h
    have hexp : expect p ok = (p.Token, none, advance p) := by
      simp [expect, hopen]
    rw [hexp] at h
    dsimp only at h
    have hs0 : SInv (advance p) := SInv_advance p hs
    obtain ⟨A, B, C⟩ :=
      anyLoop_wf parseFn hitem fuel ck (advance p) [] nodes p' hs0 rfl h
    have hPE : (advance p).PrevEnd = p.Token.End := advance_PrevEnd p
    refine ⟨A, ?_, ?_, C⟩
    · rw [hPE] at B
      exact Nat.le_trans (Nat.le_trans hs.1 hs.2) B
    · rw [hPE] at B
      exact Nat.le_trans hs.2 B

/-- The value grammar keeps the cursor invariant and builds only
well-formed location spans. -/
theorem valueWF : ∀ fuel : Nat,
    (∀ (p : Parser) (c : Bool) (v : Value) (p' : Parser), SInv p →
      parseValue fuel p c = .ret v none p' →
      SInv p' ∧ p.PrevEnd ≤ p'.PrevEnd ∧ p.Token.Start ≤ p'.PrevEnd ∧
        Value.locsWF v = true) ∧
    (∀ (p : Parser) (c : Bool) (a : ArrayValue) (p' : Parser), SInv p →
      p.Token.Kind = .BRACE_L →
      parseArray fuel p c = .ret a none p' →
      SInv p' ∧ p.PrevEnd ≤ p'.PrevEnd ∧ p.Token.Start ≤ p'.PrevEnd ∧
        ArrayValue.locsWF a = true) ∧
    (∀ (p : Parser) (v : NodeV) (p' : Parser), SInv p →
      parseConstValue fuel p = .ret v none p' →
      SInv p' ∧ p.PrevEnd ≤ p'.PrevEnd ∧ NodeV.locsWF v = true) ∧
    (∀ (p : Parser) (v : NodeV) (p' : Parser), SInv p →
      parseVariableValue fuel p = .ret v none p' →
      SInv p' ∧ p.PrevEnd ≤ p'.PrevEnd ∧ NodeV.locsWF v = true) := by
  intro fuel
  induction fuel with
  | zero =>
    refine ⟨?_, ?_, ?_, ?_⟩ <;>
      first
        | exact fun p c v p' hs h => absurd h (by simp [parseValue])
        | exact fun p c v p' hs hk h => absurd h (by simp [parseArray])
        | exact fun p v p' hs h => absurd h (by
            first
              | simp [parseConstValue]
              | simp [parseVariableValue])
  | succ fuel ih =>
    obtain ⟨ihV, ihA, ihC, ihW⟩ := ih
    refine ⟨?_, ?_, ?_, ?_⟩
    · intro p c v p' hs h
      rw [parseValue] at h
      cases hk : p.Token.Kind <;> rw [hk] at h
      case BRACE_L =>
        dsimp only at h
        cases ha : parseArray fuel p c with
        | ret a e p1 =>
          rw [ha] at h
          cases e with
          | some err => exact absurd h (by simp)
          | none =>
            cases h
            obtain ⟨A, B, C, D⟩ := ihA p c a p' hs hk ha
            exact ⟨A, B, C, D⟩
        | panicked =>
          rw [ha] at h
          exact absurd h (by simp)
        | outOfFuel =>
          rw [ha] at h
          exact absurd h (by simp)
      all_goals exact absurd h (by simp)
    · intro p c a p' hs hk h
      rw [parseArray] at h
      have hitem : ∀ (q : Parser) (v : NodeV) (q' : Parser), SInv q →
          (if c then fun q2 => parseConstValue fuel q2
           else fun q2 => parseVariableValue fuel q2) q = .ret v none q' →
          SInv q' ∧ q.PrevEnd ≤ q'.PrevEnd ∧ NodeV.locsWF v = true := by
        cases c with
        | true => exact fun q v q' hq hf => ihC q v q' hq hf
        | false => exact fun q v q' hq hf => ihW q v q' hq hf
      cases hany : any fuel p .BRACE_L
          (if c then fun q2 => parseConstValue fuel q2
           else fun q2 => parseVariableValue fuel q2) .BRACKET_R with
      | ret iValues e p1 =>
        rw [hany] at h
        cases e with
        | some err => exact absurd h (by simp)
        | none =>
          dsimp only at h
          obtain ⟨A, B, C, D⟩ :=
            any_wf _ hitem fuel .BRACE_L .BRACKET_R p iValues p1 hs hk hany
          cases iValues with
          | nil =>
            simp only [rangeAssign] at h
            cases h
            refine ⟨A, B, C, ?_⟩
            simp only [ArrayValue.locsWF, valueListWF]
            rw [locWF_loc p' p.Token.Start C]
            rfl
          | cons x xs =>
            rw [rangeAssign_cons_empty] at h
            exact absurd h (by simp)
      | panicked =>
        rw [hany] at h
        exact absurd h (by simp)
      | outOfFuel =>
        rw [hany] at h
        exact absurd h (by simp)
    · intro p v p' hs h
      rw [parseConstValue] at h
      cases hv : parseValue fuel p true with
      | ret w e p1 =>
        rw [hv] at h
        cases e with
        | some err => exact absurd h (by simp)
        | none =>
          cases h
          obtain ⟨A, B, C, D⟩ := ihV p true w p' hs hv
          exact ⟨A, B, D⟩
      | panicked =>
        rw [hv] at h
        exact absurd h (by simp)
      | outOfFuel =>
        rw [hv] at h
        exact absurd h (by simp)
    · intro p v p' hs h
      rw [parseVariableValue] at h
      cases hv : parseValue fuel p false with
      | ret w e p1 =>
        rw [hv] at h
        cases e with
        | some err => exact absurd h (by simp)
        | none =>
          cases h
          obtain ⟨A, B, C, D⟩ := ihV p false w p' hs hv
          exact ⟨A, B, D⟩
      | panicked =>
        rw [hv] at h
        exact absurd h (by simp)
      | outOfFuel =>
        rw [hv] at h
        exact absurd h (by simp)

theorem parseType_wf : ∀ (fuel : Nat) (p : Parser) (t : TypeNode) (p' : Parser),
    SInv p → parseType fuel p = .ret t none p' →
    SInv p' ∧ p.PrevEnd ≤ p'.PrevEnd ∧ p.Token.Start ≤ p'.PrevEnd ∧
      TypeNode.locsWF t = true := by
  intro fuel
  induction fuel with
  | zero =>
    intro p t p' hs h
    exact absurd h (by simp [parseType])
  | succ fuel ih =>
    intro p t p' hs h
    rw [parseType] at h
    rcases hsk : skip p .BRACE_L with ⟨b, p1⟩
    rw [hsk] at h
    cases b with
    | true =>
      have hadv : p1 = advance p := skip_true_eq p .BRACE_L p1 hsk
      subst hadv
      dsimp only at h
      cases ht : parseType fuel (advance p) with
      | ret t0 e p2 =>
        rw [ht] at h
        cases e with
        | some err => exact absurd h (by simp)
        | none =>
          dsimp only at h
          obtain ⟨hs2, hm2, hst2, hwf2⟩ :=
            ih (advance p) t0 p2 (SInv_advance p hs) ht
          rcases hex : expect p2 .BRACKET_R with ⟨tok2, e2, p3⟩
          rw [hex] at h
          dsimp only at h
          cases e2 with
          | some err => exact absurd h (by simp)
          | none =>
            obtain ⟨htok2, hadv2⟩ := expect_none_eq p2 .BRACKET_R tok2 p3 hex
            have hs3 : SInv p3 := hadv2 ▸ SInv_advance p2 hs2
            have hpe3 : p3.PrevEnd = p2.Token.End := by
              rw [hadv2, advance_PrevEnd]
            have hstart3 : p.Token.Start ≤ p3.PrevEnd := by
              have h1 : (advance p).PrevEnd = p.Token.End := advance_PrevEnd p
              have := hs.2
              have := hs2.1
              have := hs2.2
              omega
            have hwfL : TypeNode.locsWF
                (.listT kinds.ListType (loc p3 p.Token.Start) t0) = true := by
              simp only [TypeNode.locsWF]
              rw [locWF_loc p3 p.Token.Start hstart3, hwf2]
              rfl
            obtain ⟨A, B, C⟩ := parseTypeBang_wf p3 p.Token.Start _ t p' hs3
              hstart3 hwfL h
            refine ⟨A, ?_, ?_, C⟩
            · have h1 : (advance p).PrevEnd = p.Token.End := advance_PrevEnd p
              have := hs.1
              have := hs.2
              have := hs2.1
              omega
            · omega
      | panicked =>
        rw [ht] at h
        exact absurd h (by simp)
      | outOfFuel =>
        rw [ht] at h
        exact absurd h (by simp)
    | false =>
      have hp1 : p1 = p := skip_false_eq p .BRACE_L p1 hsk
      rw [hp1] at h
      dsimp only at h
      rcases hnt : parseNamedType p with ⟨name, e, p2⟩
      rw [hnt] at h
      dsimp only at h
      cases e with
      | some err => exact absurd h (by simp)
      | none =>
        obtain ⟨hs2, hm2, hst2, hwf2⟩ := parseNamedType_wf p name p2 hs hnt
        have hwfN : TypeNode.locsWF (.named name) = true := by
          simpa [TypeNode.locsWF] using hwf2
        obtain ⟨A, B, C⟩ := parseTypeBang_wf p2 p.Token.Start _ t p' hs2
          hst2 hwfN h
        exact ⟨A, Nat.le_trans hm2 B, Nat.le_trans hst2 B, C⟩

theorem parseArgument_wf : ∀ (fuel : Nat) (p : Parser) (v : NodeV) (p' : Parser),
    SInv p → parseArgument fuel p = .ret v none p' →
    SInv p' ∧ p.PrevEnd ≤ p'.PrevEnd ∧ p.Token.Start ≤ p'.PrevEnd ∧
      NodeV.locsWF v = true := by
  intro fuel p v p' hs h
  cases fuel with
  | zero => exact absurd h (by simp [parseArgument])
  | succ fuel =>
    rw [parseArgument] at h
    rcases hnm : parseName p with ⟨name, e, p1⟩
    rw [hnm] at h
    dsimp only at h
    cases e with
    | some err => exact absurd h (by simp)
    | none =>
      obtain ⟨hs1, hm1, hst1, hwf1⟩ := parseName_wf p name p1 hs hnm
      rcases hex : expect p1 .COLON with ⟨tok, e2, p2⟩
      rw [hex] at h
      dsimp only at h
      cases e2 with
      | some err => exact absurd h (by simp)
      | none =>
        obtain ⟨htok, hadv⟩ := expect_none_eq p1 .COLON tok p2 hex
        have hs2 : SInv p2 := hadv ▸ SInv_advance p1 hs1
        have hpe2 : p2.PrevEnd = p1.Token.End := by
          rw [hadv, advance_PrevEnd]
        cases hv : parseValue fuel p2 false with
        | ret value e3 p3 =>
          rw [hv] at h
          cases e3 with
          | some err => exact absurd h (by simp)
          | none =>
            dsimp only at h
            obtain ⟨hs3, hm3, hst3, hwf3⟩ := (valueWF fuel).1 p2 false value p3 hs2 hv
            cases h
            have hchain : p.Token.Start ≤ Parser.PrevEnd p' := by
              have := hs1.1
              have := hs1.2
              omega
            refine ⟨hs3, ?_, hchain, ?_⟩
            · have := hs1.1
              have := hs1.2
              omega
            · simp only [NodeV.locsWF, Argument.locsWF]
              rw [locWF_loc p' p.Token.Start hchain, hwf1, hwf3]
              rfl
        | panicked =>
          rw [hv] at h
          exact absurd h (by simp)
        | outOfFuel =>
          rw [hv] at h
          exact absurd h (by simp)

/-- parseArguments can only succeed with an empty list (a non-empty `many`
result panics on the index assignment), leaving the parser unchanged. -/
theorem parseArguments_wf : ∀ (fuel : Nat) (p : Parser) (args : List Argument)
    (p' : Parser), SInv p → parseArguments fuel p = .ret args none p' →
    SInv p' ∧ p.PrevEnd ≤ p'.PrevEnd ∧ argListWF args = true := by
  intro fuel p args p' hs h
  cases fuel with
  | zero => exact absurd h (by simp [parseArguments])
  | succ fuel =>
    rw [parseArguments] at h
    cases hpk : peek p .PAREN_L with
    | true =>
      rw [hpk] at h
      simp only [reduceIte] at h
      cases hm : many fuel p .PAREN_L (fun q => parseArgument fuel q) .PAREN_R with
      | ret iArguments e p1 =>
        rw [hm] at h
        cases e with
        | some err => exact absurd h (by simp)
        | none =>
          dsimp only at h
          cases iArguments with
          | nil =>
            exact absurd rfl (many_ne fuel p .PAREN_L _ .PAREN_R [] p1 hm)
          | cons x xs =>
            rw [rangeAssign_cons_empty] at h
            exact absurd h (by simp)
      | panicked =>
        rw [hm] at h
        exact absurd h (by simp)
      | outOfFuel =>
        rw [hm] at h
        exact absurd h (by simp)
    | false =>
      rw [hpk] at h
      simp only [Bool.false_eq_true, if_false] at h
      cases h
      exact ⟨hs, Nat.le_refl _, rfl⟩

theorem parseVariableDefinition_wf : ∀ (fuel : Nat) (p : Parser) (v : NodeV)
    (p' : Parser), SInv p → parseVariableDefinition fuel p = .ret v none p' →
    SInv p' ∧ p.PrevEnd ≤ p'.PrevEnd ∧ p.Token.Start ≤ p'.PrevEnd ∧
      NodeV.locsWF v = true := by
  intro fuel p v p' hs h
  cases fuel with
  | zero => exact absurd h (by simp [parseVariableDefinition])
  | succ fuel =>
    rw [parseVariableDefinition] at h
    dsimp only at h
    rcases hsk : skip p .EQUALS with ⟨b, p1⟩
    rw [hsk] at h
    cases b with
    | true =>
      have hadv : p1 = advance p := skip_true_eq p .EQUALS p1 hsk
      subst hadv
      dsimp only at h
      cases hv : parseValue fuel (advance p) true with
      | ret dv e0 p2 =>
        rw [hv] at h
        cases e0 with
        | some err => exact absurd h (by simp)
        | none =>
          dsimp only at h
          obtain ⟨hs2, hm2, hst2, hdv⟩ :=
            (valueWF fuel).1 (advance p) true dv p2 (SInv_advance p hs) hv
          have hpeA : (advance p).PrevEnd = p.Token.End := advance_PrevEnd p
          rcases hex : expect p2 .COLON with ⟨tok, e, p3⟩
          rw [hex] at h
          dsimp only at h
          cases e with
          | some err => exact absurd h (by simp)
          | none =>
            obtain ⟨htok, hadv3⟩ := expect_none_eq p2 .COLON tok p3 hex
            have hs3 : SInv p3 := hadv3 ▸ SInv_advance p2 hs2
            have hpe3 : p3.PrevEnd = p2.Token.End := by
              rw [hadv3, advance_PrevEnd]
            rcases hvar : parseVariable p3 with ⟨variable', e2, p4⟩
            rw [hvar] at h
            dsimp only at h
            cases e2 with
            | some err => exact absurd h (by simp)
            | none =>
              obtain ⟨hs4, hm4, hst4, hvwf⟩ := parseVariable_wf p3 variable' p4 hs3 hvar
              cases ht : parseType fuel p4 with
              | ret ttype e3 p5 =>
                rw [ht] at h
                cases e3 with
                | some err => exact absurd h (by simp)
                | none =>
                  dsimp only at h
                  obtain ⟨hs5, hm5, hst5, htwf⟩ := parseType_wf fuel p4 ttype p5 hs4 ht
                  cases h
                  have hchain : p.Token.Start ≤ Parser.PrevEnd p' := by
                    have := hs.2
                    have := hs2.1
                    have := hs2.2
                    omega
                  refine ⟨hs5, ?_, hchain, ?_⟩
                  · have := hs.1
                    have := hs.2
                    have := hs2.1
                    have := hs2.2
                    omega
                  · simp only [NodeV.locsWF, VariableDefinition.locsWF]
                    rw [locWF_loc p' p.Token.Start hchain, hvwf, htwf, hdv]
                    rfl
              | panicked =>
                rw [ht] at h
                exact absurd h (by simp)
              | outOfFuel =>
                rw [ht] at h
                exact absurd h (by simp)
      | panicked =>
        rw [hv] at h
        exact absurd h (by simp)
      | outOfFuel =>
        rw [hv] at h
        exact absurd h (by simp)
    | false =>
      have hp1 : p1 = p := skip_false_eq p .EQUALS p1 hsk
      rw [hp1] at h
      dsimp only at h
      rcases hex : expect p .COLON with ⟨tok, e, p3⟩
      rw [hex] at h
      dsimp only at h
      cases e with
      | some err => exact absurd h (by simp)
      | none =>
        obtain ⟨htok, hadv3⟩ := expect_none_eq p .COLON tok p3 hex
        have hs3 : SInv p3 := hadv3 ▸ SInv_advance p hs
        have hpe3 : p3.PrevEnd = p.Token.End := by
          rw [hadv3, advance_PrevEnd]
        rcases hvar : parseVariable p3 with ⟨variable', e2, p4⟩
        rw [hvar] at h
        dsimp only at h
        cases e2 with
        | some err => exact absurd h (by simp)
        | none =>
          obtain ⟨hs4, hm4, hst4, hvwf⟩ := parseVariable_wf p3 variable' p4 hs3 hvar
          cases ht : parseType fuel p4 with
          | ret ttype e3 p5 =>
            rw [ht] at h
            cases e3 with
            | some err => exact absurd h (by simp)
            | none =>
              dsimp only at h
              obtain ⟨hs5, hm5, hst5, htwf⟩ := parseType_wf fuel p4 ttype p5 hs4 ht
              cases h
              have hchain : p.Token.Start ≤ Parser.PrevEnd p' := by
                have := hs.2
                omega
              refine ⟨hs5, ?_, hchain, ?_⟩
              · have := hs.1
                have := hs.2
                omega
              · simp only [NodeV.locsWF, VariableDefinition.locsWF]
                rw [locWF_loc p' p.Token.Start hchain, hvwf, htwf]
                rfl
          | panicked =>
            rw [ht] at h
            exact absurd h (by simp)
          | outOfFuel =>
            rw [ht] at h
            exact absurd h (by simp)

/-- parseVariableDefinitions can only succeed with an empty list (its
range loop panics on any non-empty `many` item list), leaving the parser
unchanged. -/
theorem parseVariableDefinitions_wf : ∀ (fuel : Nat) (p : Parser)
    (vds : List VariableDefinition) (p' : Parser), SInv p →
    parseVariableDefinitions fuel p = .ret vds none p' →
    SInv p' ∧ p.PrevEnd ≤ p'.PrevEnd ∧ vdefListWF vds = true := by
  intro fuel p vds p' hs h
  cases fuel with
  | zero => exact absurd h (by simp [parseVariableDefinitions])
  | succ fuel =>
    rw [parseVariableDefinitions] at h
    cases hpk : peek p .PAREN_L with
    | true =>
      rw [hpk] at h
      simp only [reduceIte] at h
      cases hm : many fuel p .PAREN_L (fun q => parseVariableDefinition fuel q)
          .PAREN_R with
      | ret vdefs e p1 =>
        rw [hm] at h
        dsimp only at h
        cases vdefs with
        | nil =>
          simp only [rangeAssign] at h
          cases e with
          | some err => exact absurd h (by simp)
          | none =>
            exact absurd rfl (many_ne fuel p .PAREN_L _ .PAREN_R [] p1 hm)
        | cons x xs =>
          rw [rangeAssign_cons_empty] at h
          exact absurd h (by simp)
      | panicked =>
        rw [hm] at h
        exact absurd h (by simp)
      | outOfFuel =>
        rw [hm] at h
        exact absurd h (by simp)
    | false =>
      rw [hpk] at h
      simp only [Bool.false_eq_true, if_false] at h
      cases h
      exact ⟨hs, Nat.le_refl _, rfl⟩

theorem parseDirective_wf : ∀ (fuel : Nat) (p : Parser) (d : Directive)
    (p' : Parser), SInv p → parseDirective fuel p = .ret d none p' →
    SInv p' ∧ p.PrevEnd ≤ p'.PrevEnd ∧ p.Token.Start ≤ p'.PrevEnd ∧
      Directive.locsWF d = true := by
  intro fuel p d p' hs h
  cases fuel with
  | zero => exact absurd h (by simp [parseDirective])
  | succ fuel =>
    rw [parseDirective] at h
    dsimp only at h
    rcases hex : expect p .AT with ⟨tok, e, p1⟩
    rw [hex] at h
    dsimp only at h
    cases e with
    | some err => exact absurd h (by simp)
    | none =>
      obtain ⟨htok, hadv⟩ := expect_none_eq p .AT tok p1 hex
      have hs1 : SInv p1 := hadv ▸ SInv_advance p hs
      have hpe1 : p1.PrevEnd = p.Token.End := by
        rw [hadv, advance_PrevEnd]
      rcases hnm : parseName p1 with ⟨name, e2, p2⟩
      rw [hnm] at h
      dsimp only at h
      cases e2 with
      | some err => exact absurd h (by simp)
      | none =>
        obtain ⟨hs2, hm2, hst2, hnwf⟩ := parseName_wf p1 name p2 hs1 hnm
        rcases hsk : skip p2 .COLON with ⟨b, p3⟩
        rw [hsk] at h
        cases b with
        | true =>
          have hadv3 : p3 = advance p2 := skip_true_eq p2 .COLON p3 hsk
          subst hadv3
          dsimp only at h
          cases hv : parseValue fuel (advance p2) false with
          | ret value e3 p4 =>
            rw [hv] at h
            cases e3 with
            | some err => exact absurd h (by simp)
            | none =>
              dsimp only at h
              obtain ⟨hs4, hm4, hst4, hvwf⟩ :=
                (valueWF fuel).1 (advance p2) false value p4
                  (SInv_advance p2 hs2) hv
              cases h
              have hpeA : (advance p2).PrevEnd = p2.Token.End := advance_PrevEnd p2
              have hchain : p.Token.Start ≤ Parser.PrevEnd p' := by
                have := hs.2
                have := hs2.1
                have := hs2.2
                omega
              refine ⟨hs4, ?_, hchain, ?_⟩
              · have := hs.1
                have := hs.2
                have := hs2.1
                have := hs2.2
                omega
              · simp only [Directive.locsWF]
                rw [locWF_loc p' p.Token.Start hchain, hnwf, hvwf]
                rfl
          | panicked =>
            rw [hv] at h
            exact absurd h (by simp)
          | outOfFuel =>
            rw [hv] at h
            exact absurd h (by simp)
        | false =>
          have hp3 : p3 = p2 := skip_false_eq p2 .COLON p3 hsk
          rw [hp3] at h
          dsimp only at h
          cases h
          have hchain : p.Token.Start ≤ Parser.PrevEnd p' := by
            have := hs.2
            omega
          refine ⟨hs2, ?_, hchain, ?_⟩
          · have := hs.1
            have := hs.2
            omega
          · simp only [Directive.locsWF]
            rw [locWF_loc p' p.Token.Start hchain, hnwf]
            rfl

theorem parseDirectivesLoop_wf : ∀ (fuel : Nat) (p : Parser)
    (acc ds : List Directive) (p' : Parser), SInv p → dirListWF acc = true →
    parseDirectivesLoop fuel p acc = .ret ds none p' →
    SInv p' ∧ p.PrevEnd ≤ p'.PrevEnd ∧ dirListWF ds = true := by
  intro fuel
  induction fuel with
  | zero =>
    intro p acc ds p' hs hacc h
    exact absurd h (by simp [parseDirectivesLoop])
  | succ fuel ih =>
    intro p acc ds p' hs hacc h
    rw [parseDirectivesLoop] at h
    cases hpk : peek p .AT with
    | true =>
      rw [hpk] at h
      simp only [reduceIte] at h
      cases hd : parseDirective fuel p with
      | ret directive e p1 =>
        rw [hd] at h
        cases e with
        | some err => exact absurd h (by simp)
        | none =>
          dsimp only at h
          obtain ⟨hs1, hm1, hst1, hdwf⟩ := parseDirective_wf fuel p directive p1 hs hd
          have hacc2 : dirListWF (acc ++ [directive]) = true := by
            simp [dirListWF_append, dirListWF, hacc, hdwf]
          obtain ⟨A, B, C⟩ := ih p1 (acc ++ [directive]) ds p' hs1 hacc2 h
          exact ⟨A, Nat.le_trans hm1 B, C⟩
      | panicked =>
        rw [hd] at h
        exact absurd h (by simp)
      | outOfFuel =>
        rw [hd] at h
        exact absurd h (by simp)
    | false =>
      rw [hpk] at h
      simp only [Bool.false_eq_true, if_false] at h
      cases h
      exact ⟨hs, Nat.le_refl _, hacc⟩

theorem parseDirectives_wf (fuel : Nat) (p : Parser) (ds : List Directive)
    (p' : Parser) (hs : SInv p) (h : parseDirectives fuel p = .ret ds none p') :
    SInv p' ∧ p.PrevEnd ≤ p'.PrevEnd ∧ dirListWF ds = true :=
  parseDirectivesLoop_wf fuel p [] ds p' hs rfl h

/-- The selection grammar keeps the cursor invariant and builds only
well-formed location spans. -/
theorem selWF : ∀ fuel : Nat,
    (∀ (p : Parser) (ss : SelectionSet) (p' : Parser), SInv p →
      parseSelectionSet fuel p = .ret ss none p' →
      SInv p' ∧ p.PrevEnd ≤ p'.PrevEnd ∧ p.Token.Start ≤ p'.PrevEnd ∧
        SelectionSet.locsWF ss = true) ∧
    (∀ (p : Parser) (v : NodeV) (p' : Parser), SInv p →
      parseSelection fuel p = .ret v none p' →
      SInv p' ∧ p.PrevEnd ≤ p'.PrevEnd ∧ p.Token.Start ≤ p'.PrevEnd ∧
        NodeV.locsWF v = true) ∧
    (∀ (p : Parser) (v : NodeV) (p' : Parser), SInv p →
      parseFragment fuel p = .ret v none p' →
      SInv p' ∧ p.PrevEnd ≤ p'.PrevEnd ∧ p.Token.Start ≤ p'.PrevEnd ∧
        NodeV.locsWF v = true) ∧
    (∀ (p : Parser) (f : Field) (p' : Parser), SInv p →
      parseField fuel p = .ret f none p' →
      SInv p' ∧ p.PrevEnd ≤ p'.PrevEnd ∧ p.Token.Start ≤ p'.PrevEnd ∧
        Field.locsWF f = true) := by
  intro fuel
  induction fuel with
  | zero =>
    refine ⟨?_, ?_, ?_, ?_⟩ <;>
      exact fun p x p' hs h => absurd h (by
        first
          | simp [parseSelectionSet]
          | simp [parseSelection]
          | simp [parseFragment]
          | simp [parseField])
  | succ fuel ih =>
    obtain ⟨ihSS, ihSel, ihFrag, ihF⟩ := ih
    have hitem : ∀ (q : Parser) (v : NodeV) (q' : Parser), SInv q →
        parseSelection fuel q = .ret v none q' →
        SInv q' ∧ q.PrevEnd ≤ q'.PrevEnd ∧ NodeV.locsWF v = true := by
      intro q v q' hq hf
      obtain ⟨A, B, C, D⟩ := ihSel q v q' hq hf
      exact ⟨A, B, D⟩
    refine ⟨?_, ?_, ?_, ?_⟩
    · intro p ss p' hs h
      rw [parseSelectionSet] at h
      cases hm : many fuel p .BRACE_L (fun q => parseSelection fuel q) .BRACE_R with
      | ret selections e p1 =>
        rw [hm] at h
        cases e with
        | some err => exact absurd h (by simp)
        | none =>
          dsimp only at h
          obtain ⟨A, B, C, D⟩ :=
            many_wf _ hitem fuel .BRACE_L .BRACE_R p selections p1 hs hm
          cases h
          refine ⟨A, B, C, ?_⟩
          simp only [SelectionSet.locsWF]
          rw [locWF_loc p' p.Token.Start C, D]
          rfl
      | panicked =>
        rw [hm] at h
        exact absurd h (by simp)
      | outOfFuel =>
        rw [hm] at h
        exact absurd h (by simp)
    · intro p v p' hs h
      rw [parseSelection] at h
      cases hpk : peek p .SPREAD with
      | true =>
        rw [hpk] at h
        simp only [reduceIte] at h
        exact ihFrag p v p' hs h
      | false =>
        rw [hpk] at h
        simp only [Bool.false_eq_true, if_false] at h
        cases hf : parseField fuel p with
        | ret f e p1 =>
          rw [hf] at h
          dsimp only at h
          cases e with
          | some err => exact absurd h (by simp)
          | none =>
            cases h
            obtain ⟨A, B, C, D⟩ := ihF p f p' hs hf
            exact ⟨A, B, C, by simpa [NodeV.locsWF] using D⟩
        | panicked =>
          rw [hf] at h
          exact absurd h (by simp)
        | outOfFuel =>
          rw [hf] at h
          exact absurd h (by simp)
    · intro p v p' hs h
      rw [parseFragment] at h
      dsimp only at h
      rcases hex : expect p .SPREAD with ⟨tok, e, p1⟩
      rw [hex] at h
      dsimp only at h
      cases e with
      | some err => exact absurd h (by simp)
      | none =>
        obtain ⟨htok, hadv⟩ := expect_none_eq p .SPREAD tok p1 hex
        have hs1 : SInv p1 := hadv ▸ SInv_advance p hs
        have hpe1 : p1.PrevEnd = p.Token.End := by
          rw [hadv, advance_PrevEnd]
        by_cases hon : p1.Token.Value = "on"
        · rw [if_pos hon] at h
          dsimp only at h
          have hsA : SInv (advance p1) := SInv_advance p1 hs1
          have hpeA : (advance p1).PrevEnd = p1.Token.End := advance_PrevEnd p1
          rcases hnt : parseNamedType (advance p1) with ⟨name, e2, p3⟩
          rw [hnt] at h
          dsimp only at h
          cases e2 with
          | some err => exact absurd h (by simp)
          | none =>
            obtain ⟨hs3, hm3, hst3, hnwf⟩ := parseNamedType_wf (advance p1) name p3 hsA hnt
            cases hd : parseDirectives fuel p3 with
            | ret directives e3 p4 =>
              rw [hd] at h
              cases e3 with
              | some err => exact absurd h (by simp)
              | none =>
                dsimp only at h
                obtain ⟨hs4, hm4, hdwf⟩ := parseDirectives_wf fuel p3 directives p4 hs3 hd
                cases hss : parseSelectionSet fuel p4 with
                | ret selectionSet e4 p5 =>
                  rw [hss] at h
                  cases e4 with
                  | some err => exact absurd h (by simp)
                  | none =>
                    dsimp only at h
                    obtain ⟨hs5, hm5, hst5, hsswf⟩ := ihSS p4 selectionSet p5 hs4 hss
                    cases h
                    have hchain : p.Token.Start ≤ Parser.PrevEnd p' := by
                      have := hs.2
                      have := hs1.1
                      have := hs1.2
                      omega
                    refine ⟨hs5, ?_, hchain, ?_⟩
                    · have := hs.1
                      have := hs.2
                      have := hs1.1
                      have := hs1.2
                      omega
                    · simp only [NodeV.locsWF, InlineFragment.locsWF]
                      rw [locWF_loc p' p.Token.Start hchain, hnwf, hdwf, hsswf]
                      rfl
                | panicked =>
                  rw [hss] at h
                  exact absurd h (by simp)
                | outOfFuel =>
                  rw [hss] at h
                  exact absurd h (by simp)
            | panicked =>
              rw [hd] at h
              exact absurd h (by simp)
            | outOfFuel =>
              rw [hd] at h
              exact absurd h (by simp)
        · rw [if_neg hon] at h
          dsimp only at h
          rcases hfn : parseFragmentName p1 with ⟨name, e2, p2⟩
          rw [hfn] at h
          dsimp only at h
          cases e2 with
          | some err => exact absurd h (by simp)
          | none =>
            obtain ⟨hs2, hm2, hst2, hnwf⟩ := parseFragmentName_wf p1 name p2 hs1 hfn
            cases hd : parseDirectives fuel p2 with
            | ret directives e3 p3 =>
              rw [hd] at h
              cases e3 with
              | some err => exact absurd h (by simp)
              | none =>
                dsimp only at h
                obtain ⟨hs3, hm3, hdwf⟩ := parseDirectives_wf fuel p2 directives p3 hs2 hd
                cases h
                have hchain : p.Token.Start ≤ Parser.PrevEnd p' := by
                  have := hs.2
                  omega
                refine ⟨hs3, ?_, hchain, ?_⟩
                · have := hs.1
                  have := hs.2
                  omega
                · simp only [NodeV.locsWF, FragmentSpread.locsWF]
                  rw [locWF_loc p' p.Token.Start hchain, hnwf, hdwf]
                  rfl
            | panicked =>
              rw [hd] at h
              exact absurd h (by simp)
            | outOfFuel =>
              rw [hd] at h
              exact absurd h (by simp)
    · intro p f p' hs h
      rw [parseField] at h
      dsimp only at h
      rcases hnm : parseName p with ⟨nameOrAlias, e, p1⟩
      rw [hnm] at h
      dsimp only at h
      cases e with
      | some err => exact absurd h (by simp)
      | none =>
        obtain ⟨hs1, hm1, hst1, hawf⟩ := parseName_wf p nameOrAlias p1 hs hnm
        rcases hsk : skip p1 .COLON with ⟨b, p2⟩
        rw [hsk] at h
        cases b with
        | true =>
          have hadv : p2 = advance p1 := skip_true_eq p1 .COLON p2 hsk
          subst hadv
          dsimp only at h
          have hsA : SInv (advance p1) := SInv_advance p1 hs1
          have hpeA : (advance p1).PrevEnd = p1.Token.End := advance_PrevEnd p1
          rcases hnm2 : parseName (advance p1) with ⟨n, e2, p3⟩
          rw [hnm2] at h
          dsimp only at h
          cases e2 with
          | some err => exact absurd h (by simp)
          | none =>
            obtain ⟨hs3, hm3, hst3, hnwf⟩ := parseName_wf (advance p1) n p3 hsA hnm2
            have hbase : p.Token.Start ≤ p3.PrevEnd := by
              have := hs1.1
              have := hs1.2
              omega
            cases hpk : peek p3 .BRACE_L with
            | true =>
              rw [hpk] at h
              simp only [reduceIte] at h
              cases hss : parseSelectionSet fuel p3 with
              | ret sSet e3 p4 =>
                rw [hss] at h
                cases e3 with
                | some err => exact absurd h (by simp)
                | none =>
                  dsimp only at h
                  obtain ⟨hs4, hm4, hst4, hsswf⟩ := ihSS p3 sSet p4 hs3 hss
                  cases ha : parseArguments fuel p4 with
                  | ret arguments e4 p5 =>
                    rw [ha] at h
                    cases e4 with
                    | some err => exact absurd h (by simp)
                    | none =>
                      dsimp only at h
                      obtain ⟨hs5, hm5, hargwf⟩ := parseArguments_wf fuel p4 arguments p5 hs4 ha
                      cases hd : parseDirectives fuel p5 with
                      | ret directives e5 p6 =>
                        rw [hd] at h
                        cases e5 with
                        | some err => exact absurd h (by simp)
                        | none =>
                          dsimp only at h
                          obtain ⟨hs6, hm6, hdwf⟩ := parseDirectives_wf fuel p5 directives p6 hs5 hd
                          cases h
                          have hchain : p.Token.Start ≤ Parser.PrevEnd p' := by
                            omega
                          refine ⟨hs6, ?_, hchain, ?_⟩
                          · have := hs.1
                            have := hs.2
                            omega
                          · simp only [Field.locsWF]
                            rw [locWF_loc p' p.Token.Start hchain, hawf, hnwf,
                              hargwf, hdwf, hsswf]
                            rfl
                      | panicked =>
                        rw [hd] at h
                        exact absurd h (by simp)
                      | outOfFuel =>
                        rw [hd] at h
                        exact absurd h (by simp)
                  | panicked =>
                    rw [ha] at h
                    exact absurd h (by simp)
                  | outOfFuel =>
                    rw [ha] at h
                    exact absurd h (by simp)
              | panicked =>
                rw [hss] at h
                exact absurd h (by simp)
              | outOfFuel =>
                rw [hss] at h
                exact absurd h (by simp)
            | false =>
              rw [hpk] at h
              simp only [Bool.false_eq_true, if_false] at h
              cases ha : parseArguments fuel p3 with
              | ret arguments e4 p5 =>
                rw [ha] at h
                cases e4 with
                | some err => exact absurd h (by simp)
                | none =>
                  dsimp only at h
                  obtain ⟨hs5, hm5, hargwf⟩ := parseArguments_wf fuel p3 arguments p5 hs3 ha
                  cases hd : parseDirectives fuel p5 with
                  | ret directives e5 p6 =>
                    rw [hd] at h
                    cases e5 with
                    | some err => exact absurd h (by simp)
                    | none =>
                      dsimp only at h
                      obtain ⟨hs6, hm6, hdwf⟩ := parseDirectives_wf fuel p5 directives p6 hs5 hd
                      cases h
                      have hchain : p.Token.Start ≤ Parser.PrevEnd p' := by
                        omega
                      refine ⟨hs6, ?_, hchain, ?_⟩
                      · have := hs.1
                        have := hs.2
                        omega
                      · simp only [Field.locsWF]
                        rw [locWF_loc p' p.Token.Start hchain, hawf, hnwf,
                          hargwf, hdwf, zeroSelectionSet_wf]
                        rfl
                  | panicked =>
                    rw [hd] at h
                    exact absurd h (by simp)
                  | outOfFuel =>
                    rw [hd] at h
                    exact absurd h (by simp)
              | panicked =>
                rw [ha] at h
                exact absurd h (by simp)
              | outOfFuel =>
                rw [ha] at h
                exact absurd h (by simp)
        | false =>
          have hp2 : p2 = p1 := skip_false_eq p1 .COLON p2 hsk
          rw [hp2] at h
          dsimp only at h
          have hbase : p.Token.Start ≤ p1.PrevEnd := hst1
          cases hpk : peek p1 .BRACE_L with
          | true =>
            rw [hpk] at h
            simp only [reduceIte] at h
            cases hss : parseSelectionSet fuel p1 with
            | ret sSet e3 p4 =>
              rw [hss] at h
              cases e3 with
              | some err => exact absurd h (by simp)
              | none =>
                dsimp only at h
                obtain ⟨hs4, hm4, hst4, hsswf⟩ := ihSS p1 sSet p4 hs1 hss
                cases ha : parseArguments fuel p4 with
                | ret arguments e4 p5 =>
                  rw [ha] at h
                  cases e4 with
                  | some err => exact absurd h (by simp)
                  | none =>
                    dsimp only at h
                    obtain ⟨hs5, hm5, hargwf⟩ := parseArguments_wf fuel p4 arguments p5 hs4 ha
                    cases hd : parseDirectives fuel p5 with
                    | ret directives e5 p6 =>
                      rw [hd] at h
                      cases e5 with
                      | some err => exact absurd h (by simp)
                      | none =>
                        dsimp only at h
                        obtain ⟨hs6, hm6, hdwf⟩ := parseDirectives_wf fuel p5 directives p6 hs5 hd
                        cases h
                        have hchain : p.Token.Start ≤ Parser.PrevEnd p' := by
                          omega
                        refine ⟨hs6, ?_, hchain, ?_⟩
                        · have := hs.1
                          have := hs.2
                          omega
                        · simp only [Field.locsWF]
                          rw [locWF_loc p' p.Token.Start hchain, hawf,
                            hargwf, hdwf, hsswf, zeroName_wf]
                          rfl
                    | panicked =>
                      rw [hd] at h
                      exact absurd h (by simp)
                    | outOfFuel =>
                      rw [hd] at h
                      exact absurd h (by simp)
                | panicked =>
                  rw [ha] at h
                  exact absurd h (by simp)
                | outOfFuel =>
                  rw [ha] at h
                  exact absurd h (by simp)
            | panicked =>
              rw [hss] at h
              exact absurd h (by simp)
            | outOfFuel =>
              rw [hss] at h
              exact absurd h (by simp)
          | false =>
            rw [hpk] at h
            simp only [Bool.false_eq_true, if_false] at h
            cases ha : parseArguments fuel p1 with
            | ret arguments e4 p5 =>
              rw [ha] at h
              cases e4 with
              | some err => exact absurd h (by simp)
              | none =>
                dsimp only at h
                obtain ⟨hs5, hm5, hargwf⟩ := parseArguments_wf fuel p1 arguments p5 hs1 ha
                cases hd : parseDirectives fuel p5 with
                | ret directives e5 p6 =>
                  rw [hd] at h
                  cases e5 with
                  | some err => exact absurd h (by simp)
                  | none =>
                    dsimp only at h
                    obtain ⟨hs6, hm6, hdwf⟩ := parseDirectives_wf fuel p5 directives p6 hs5 hd
                    cases h
                    have hchain : p.Token.Start ≤ Parser.PrevEnd p' := by
                      omega
                    refine ⟨hs6, ?_, hchain, ?_⟩
                    · have := hs.1
                      have := hs.2
                      omega
                    · simp only [Field.locsWF]
                      rw [locWF_loc p' p.Token.Start hchain, hawf,
                        hargwf, hdwf, zeroSelectionSet_wf, zeroName_wf]
                      rfl
                | panicked =>
                  rw [hd] at h
                  exact absurd h (by simp)
                | outOfFuel =>
                  rw [hd] at h
                  exact absurd h (by simp)
            | panicked =>
              rw [ha] at h
              exact absurd h (by simp)
            | outOfFuel =>
              rw [ha] at h
              exact absurd h (by simp)

theorem parseOperationDefinition_wf : ∀ (fuel : Nat) (p : Parser)
    (d : OperationDefinition) (p' : Parser), SInv p →
    parseOperationDefinition fuel p = .ret d none p' →
    SInv p' ∧ p.PrevEnd ≤ p'.PrevEnd ∧ p.Token.Start ≤ p'.PrevEnd ∧
      OperationDefinition.locsWF d = true := by
  intro fuel p d p' hs h
  cases fuel with
  | zero => exact absurd h (by simp [parseOperationDefinition])
  | succ fuel =>
    rw [parseOperationDefinition] at h
    dsimp only at h
    cases hpk : peek p .BRACE_L with
    | true =>
      rw [hpk] at h
      simp only [reduceIte] at h
      cases hss : parseSelectionSet fuel p with
      | ret selectionSet e p1 =>
        rw [hss] at h
        cases e with
        | some err => exact absurd h (by simp)
        | none =>
          dsimp only at h
          obtain ⟨hs1, hm1, hst1, hsswf⟩ := (selWF fuel).1 p selectionSet p1 hs hss
          cases h
          refine ⟨hs1, hm1, hst1, ?_⟩
          simp only [OperationDefinition.locsWF, NewOperationDefinition]
          rw [locWF_loc p' p.Token.Start hst1, hsswf, zeroName_wf]
          rfl
      | panicked =>
        rw [hss] at h
        exact absurd h (by simp)
      | outOfFuel =>
        rw [hss] at h
        exact absurd h (by simp)
    | false =>
      rw [hpk] at h
      simp only [Bool.false_eq_true, if_false] at h
      rcases hex : expect p .NAME with ⟨operationToken, e, p1⟩
      rw [hex] at h
      dsimp only at h
      cases e with
      | some err => exact absurd h (by simp)
      | none =>
        obtain ⟨htok, hadv⟩ := expect_none_eq p .NAME operationToken p1 hex
        have hs1 : SInv p1 := hadv ▸ SInv_advance p hs
        have hpe1 : p1.PrevEnd = p.Token.End := by
          rw [hadv, advance_PrevEnd]
        rcases hnm : parseName p1 with ⟨name, e2, p2⟩
        rw [hnm] at h
        dsimp only at h
        cases e2 with
        | some err => exact absurd h (by simp)
        | none =>
          obtain ⟨hs2, hm2, hst2, hnwf⟩ := parseName_wf p1 name p2 hs1 hnm
          cases hvd : parseVariableDefinitions fuel p2 with
          | ret variableDefinitions e3 p3 =>
            rw [hvd] at h
            cases e3 with
            | some err => exact absurd h (by simp)
            | none =>
              dsimp only at h
              obtain ⟨hs3, hm3, hvdwf⟩ :=
                parseVariableDefinitions_wf fuel p2 variableDefinitions p3 hs2 hvd
              cases hd : parseDirectives fuel p3 with
              | ret directives e4 p4 =>
                rw [hd] at h
                cases e4 with
                | some err => exact absurd h (by simp)
                | none =>
                  dsimp only at h
                  obtain ⟨hs4, hm4, hdwf⟩ := parseDirectives_wf fuel p3 directives p4 hs3 hd
                  cases hss : parseSelectionSet fuel p4 with
                  | ret selectionSet e5 p5 =>
                    rw [hss] at h
                    cases e5 with
                    | some err => exact absurd h (by simp)
                    | none =>
                      dsimp only at h
                      obtain ⟨hs5, hm5, hst5, hsswf⟩ :=
                        (selWF fuel).1 p4 selectionSet p5 hs4 hss
                      cases h
                      have hchain : p.Token.Start ≤ Parser.PrevEnd p' := by
                        have := hs.2
                        omega
                      refine ⟨hs5, ?_, hchain, ?_⟩
                      · have := hs.1
                        have := hs.2
                        omega
                      · simp only [OperationDefinition.locsWF, NewOperationDefinition]
                        rw [locWF_loc p' p.Token.Start hchain, hnwf, hvdwf, hdwf, hsswf]
                        rfl
                  | panicked =>
                    rw [hss] at h
                    exact absurd h (by simp)
                  | outOfFuel =>
                    rw [hss] at h
                    exact absurd h (by simp)
              | panicked =>
                rw [hd] at h
                exact absurd h (by simp)
              | outOfFuel =>
                rw [hd] at h
                exact absurd h (by simp)
          | panicked =>
            rw [hvd] at h
            exact absurd h (by simp)
          | outOfFuel =>
            rw [hvd] at h
            exact absurd h (by simp)

theorem parseFragmentDefinition_wf : ∀ (fuel : Nat) (p : Parser)
    (d : FragmentDefinition) (p' : Parser), SInv p →
    parseFragmentDefinition fuel p = .ret d none p' →
    SInv p' ∧ p.PrevEnd ≤ p'.PrevEnd ∧ p.Token.Start ≤ p'.PrevEnd ∧
      FragmentDefinition.locsWF d = true := by
  intro fuel p d p' hs h
  cases fuel with
  | zero => exact absurd h (by simp [parseFragmentDefinition])
  | succ fuel =>
    rw [parseFragmentDefinition] at h
    dsimp only at h
    rcases hkw : expectKeyWord p "fragment" with ⟨tok, e, p1⟩
    rw [hkw] at h
    dsimp only at h
    cases e with
    | some err => exact absurd h (by simp)
    | none =>
      obtain ⟨htok, hadv⟩ := expectKeyWord_none_eq p "fragment" tok p1 hkw
      have hs1 : SInv p1 := hadv ▸ SInv_advance p hs
      have hpe1 : p1.PrevEnd = p.Token.End := by
        rw [hadv, advance_PrevEnd]
      rcases hfn : parseFragmentName p1 with ⟨name, e2, p2⟩
      rw [hfn] at h
      dsimp only at h
      cases e2 with
      | some err => exact absurd h (by simp)
      | none =>
        obtain ⟨hs2, hm2, hst2, hnwf⟩ := parseFragmentName_wf p1 name p2 hs1 hfn
        rcases hkw2 : expectKeyWord p2 "on" with ⟨tok2, e3, p3⟩
        rw [hkw2] at h
        dsimp only at h
        cases e3 with
        | some err => exact absurd h (by simp)
        | none =>
          obtain ⟨htok2, hadv3⟩ := expectKeyWord_none_eq p2 "on" tok2 p3 hkw2
          have hs3 : SInv p3 := hadv3 ▸ SInv_advance p2 hs2
          have hpe3 : p3.PrevEnd = p2.Token.End := by
            rw [hadv3, advance_PrevEnd]
          rcases hnt : parseNamedType p3 with ⟨typeCondition, e4, p4⟩
          rw [hnt] at h
          dsimp only at h
          cases e4 with
          | some err => exact absurd h (by simp)
          | none =>
            obtain ⟨hs4, hm4, hst4, htcwf⟩ := parseNamedType_wf p3 typeCondition p4 hs3 hnt
            cases hss : parseSelectionSet fuel p4 with
            | ret selectionSet e5 p5 =>
              rw [hss] at h
              cases e5 with
              | some err => exact absurd h (by simp)
              | none =>
                dsimp only at h
                obtain ⟨hs5, hm5, hst5, hsswf⟩ := (selWF fuel).1 p4 selectionSet p5 hs4 hss
                cases hd : parseDirectives fuel p5 with
                | ret directives e6 p6 =>
                  rw [hd] at h
                  cases e6 with
                  | some err => exact absurd h (by simp)
                  | none =>
                    dsimp only at h
                    obtain ⟨hs6, hm6, hdwf⟩ := parseDirectives_wf fuel p5 directives p6 hs5 hd
                    cases h
                    have hchain : p.Token.Start ≤ Parser.PrevEnd p' := by
                      have := hs.2
                      have := hs2.1
                      have := hs2.2
                      omega
                    refine ⟨hs6, ?_, hchain, ?_⟩
                    · have := hs.1
                      have := hs.2
                      have := hs2.1
                      have := hs2.2
                      omega
                    · simp only [FragmentDefinition.locsWF, NewFragmentDefinition]
                      rw [locWF_loc p' p.Token.Start hchain, hnwf, htcwf, hdwf, hsswf]
                      rfl
                | panicked =>
                  rw [hd] at h
                  exact absurd h (by simp)
                | outOfFuel =>
                  rw [hd] at h
                  exact absurd h (by simp)
            | panicked =>
              rw [hss] at h
              exact absurd h (by simp)
            | outOfFuel =>
              rw [hss] at h
              exact absurd h (by simp)

/-- The document loop: the accumulated definitions stay well formed and the
loop always ends by consuming the EOF token. -/
theorem parseDocumentLoop_wf : ∀ (fuel : Nat) (p : Parser)
    (acc ds : List Definition) (p' : Parser), SInv p → defListWF acc = true →
    parseDocumentLoop fuel p acc = .ret ds none p' →
    SInv p' ∧ p.PrevEnd ≤ p'.PrevEnd ∧ p.Token.Start ≤ p'.PrevEnd ∧
      defListWF ds = true := by
  intro fuel
  induction fuel with
  | zero =>
    intro p acc ds p' hs hacc h
    exact absurd h (by simp [parseDocumentLoop])
  | succ fuel ih =>
    intro p acc ds p' hs hacc h
    rw [parseDocumentLoop] at h
    rcases hsk : skip p .EOF with ⟨b, p0⟩
    rw [hsk] at h
    cases b with
    | true =>
      have hadv : p0 = advance p := skip_true_eq p .EOF p0 hsk
      subst hadv
      dsimp only at h
      cases h
      have hpeA : (advance p).PrevEnd = p.Token.End := advance_PrevEnd p
      refine ⟨SInv_advance p hs, ?_, ?_, hacc⟩
      · have := hs.1
        have := hs.2
        omega
      · have := hs.2
        omega
    | false =>
      have hp0 : p0 = p := skip_false_eq p .EOF p0 hsk
      rw [hp0] at h
      dsimp only at h
      cases hpk1 : peek p .BRACE_L with
      | true =>
        rw [hpk1] at h
        simp only [reduceIte] at h
        cases hop : parseOperationDefinition fuel p with
        | ret oDef e p1 =>
          rw [hop] at h
          cases e with
          | some err => exact absurd h (by simp)
          | none =>
            dsimp only at h
            obtain ⟨hs1, hm1, hst1, howf⟩ := parseOperationDefinition_wf fuel p oDef p1 hs hop
            have hacc2 : defListWF (acc ++ [Definition.op oDef]) = true := by
              simp [defListWF_append, defListWF, Definition.locsWF, hacc, howf]
            obtain ⟨A, B, C, D⟩ := ih p1 (acc ++ [Definition.op oDef]) ds p' hs1 hacc2 h
            exact ⟨A, Nat.le_trans hm1 B, Nat.le_trans hst1 B, D⟩
        | panicked =>
          rw [hop] at h
          exact absurd h (by simp)
        | outOfFuel =>
          rw [hop] at h
          exact absurd h (by simp)
      | false =>
        rw [hpk1] at h
        simp only [Bool.false_eq_true, if_false] at h
        cases hpk2 : peek p .NAME with
        | true =>
          rw [hpk2] at h
          simp only [reduceIte] at h
          by_cases hqm : p.Token.Value = "query" ∨ p.Token.Value = "mutation"
          · rw [if_pos hqm] at h
            cases hop : parseOperationDefinition fuel p with
            | ret oDef e p1 =>
              rw [hop] at h
              cases e with
              | some err => exact absurd h (by simp)
              | none =>
                dsimp only at h
                obtain ⟨hs1, hm1, hst1, howf⟩ :=
                  parseOperationDefinition_wf fuel p oDef p1 hs hop
                have hacc2 : defListWF (acc ++ [Definition.op oDef]) = true := by
                  simp [defListWF_append, defListWF, Definition.locsWF, hacc, howf]
                obtain ⟨A, B, C, D⟩ := ih p1 (acc ++ [Definition.op oDef]) ds p' hs1 hacc2 h
                exact ⟨A, Nat.le_trans hm1 B, Nat.le_trans hst1 B, D⟩
            | panicked =>
              rw [hop] at h
              exact absurd h (by simp)
            | outOfFuel =>
              rw [hop] at h
              exact absurd h (by simp)
          · rw [if_neg hqm] at h
            by_cases hfr : p.Token.Value = "fragment"
            · rw [if_pos hfr] at h
              cases hfd : parseFragmentDefinition fuel p with
              | ret fDef e p1 =>
                rw [hfd] at h
                cases e with
                | some err => exact absurd h (by simp)
                | none =>
                  dsimp only at h
                  obtain ⟨hs1, hm1, hst1, hfwf⟩ :=
                    parseFragmentDefinition_wf fuel p fDef p1 hs hfd
                  have hacc2 : defListWF (acc ++ [Definition.frag fDef]) = true := by
                    simp [defListWF_append, defListWF, Definition.locsWF, hacc, hfwf]
                  obtain ⟨A, B, C, D⟩ :=
                    ih p1 (acc ++ [Definition.frag fDef]) ds p' hs1 hacc2 h
                  exact ⟨A, Nat.le_trans hm1 B, Nat.le_trans hst1 B, D⟩
              | panicked =>
                rw [hfd] at h
                exact absurd h (by simp)
              | outOfFuel =>
                rw [hfd] at h
                exact absurd h (by simp)
            · rw [if_neg hfr] at h
              exact absurd h (by simp)
        | false =>
          rw [hpk2] at h
          simp only [Bool.false_eq_true, if_false] at h
          exact absurd h (by simp)

/-- Every document a successful parse returns carries only well-formed
locations, its span starting at the first token and ending at the last
consumed offset. -/
theorem parseDocument_wf : ∀ (fuel : Nat) (p : Parser) (doc : Document)
    (p' : Parser), SInv p → parseDocument fuel p = .ret doc none p' →
    SInv p' ∧ p.PrevEnd ≤ p'.PrevEnd ∧ p.Token.Start ≤ p'.PrevEnd ∧
      Document.locsWF doc = true := by
  intro fuel p doc p' hs h
  cases fuel with
  | zero => exact absurd h (by simp [parseDocument])
  | succ fuel =>
    rw [parseDocument] at h
    cases hl : parseDocumentLoop fuel p [] with
    | ret definitions e p1 =>
      rw [hl] at h
      cases e with
      | some err => exact absurd h (by simp)
      | none =>
        dsimp only at h
        obtain ⟨hs1, hm1, hst1, hdwf⟩ := parseDocumentLoop_wf fuel p [] definitions p1 hs rfl hl
        cases h
        refine ⟨hs1, hm1, hst1, ?_⟩
        simp only [Document.locsWF]
        rw [locWF_loc p' p.Token.Start hst1, hdwf]
        rfl
    | panicked =>
      rw [hl] at h
      exact absurd h (by simp)
    | outOfFuel =>
      rw [hl] at h
      exact absurd h (by simp)

/-- The location of the outermost type node a type production returns
(the nil interface carries no location). -/
def TypeNode.topLoc : TypeNode → Location
  | .nilType => zeroLocation
  | .named n => n.Loc
  | .listT _ l _ => l
  | .nonNull _ l _ => l

def InlineFragment.Loc : InlineFragment → Location
  | .mk _ l _ _ _ => l

/-! ### Exact location spans per production (default options) -/

theorem span_parseName (p : Parser) (n : Name) (p' : Parser)
    (hO : p.Options = defaultOptions) (h : parseName p = (n, none, p')) :
    n.Loc.Start = p.Token.Start ∧ n.Loc.End = p'.PrevEnd := by
  rw [parseName] at h
  rcases he : expect p .NAME with ⟨tok, e, p1⟩
  rw [he] at h
  cases e with
  | some err => exact absurd h (by simp)
  | none =>
    obtain ⟨htok, hadv⟩ := expect_none_eq p .NAME tok p1 he
    simp only [Prod.mk.injEq] at h
    obtain ⟨hn, -, hp⟩ := h
    subst hn hp hadv htok
    have hopt : (advance p).Options = p.Options := rfl
    constructor <;> simp [loc, advance_PrevEnd, hopt, hO, defaultOptions]

theorem span_parseFragmentName (p : Parser) (n : Name) (p' : Parser)
    (hO : p.Options = defaultOptions) (h : parseFragmentName p = (n, none, p')) :
    n.Loc.Start = p.Token.Start ∧ n.Loc.End = p'.PrevEnd := by
  rw [parseFragmentName] at h
  by_cases hv : p.Token.Value = "on"
  · rw [if_pos hv] at h
    exact absurd h (by simp)
  · rw [if_neg hv] at h
    exact span_parseName p n p' hO h

theorem span_parseNamedType (p : Parser) (n : NamedType) (p' : Parser)
    (hO : p.Options = defaultOptions) (h : parseNamedType p = (n, none, p')) :
    (NamedType.Loc n).Start = p.Token.Start ∧
      (NamedType.Loc n).End = p'.PrevEnd := by
  rw [parseNamedType] at h
  dsimp only at h
  rcases hn : parseName p with ⟨name, e, p1⟩
  have ho1 : p1.Options = defaultOptions := by
    have := parseName_options p
    rw [hn] at this
    rw [this, hO]
  rw [hn] at h
  dsimp only at h
  cases e with
  | some err => exact absurd h (by simp)
  | none =>
    simp only [Prod.mk.injEq] at h
    obtain ⟨hn1, -, hp⟩ := h
    subst hn1 hp
    constructor <;> simp [NamedType.Loc, loc, ho1, defaultOptions]

theorem span_parseVariable (p : Parser) (v : Variable) (p' : Parser)
    (hO : p.Options = defaultOptions) (h : parseVariable p = (v, none, p')) :
    v.Loc.Start = p.Token.Start ∧ v.Loc.End = p'.PrevEnd := by
  rw [parseVariable] at h
  rcases he : expect p .DOLLAR with ⟨tok, e, p1⟩
  have ho1 : p1.Options = defaultOptions := by
    have := expect_options p .DOLLAR
    rw [he] at this
    rw [this, hO]
  rw [he] at h
  dsimp only at h
  cases e with
  | some err => exact absurd h (by simp)
  | none =>
    rcases hn : parseName p1 with ⟨name, e2, p2⟩
    have ho2 : p2.Options = defaultOptions := by
      have := parseName_options p1
      rw [hn] at this
      rw [this, ho1]
    rw [hn] at h
    dsimp only at h
    cases e2 with
    | some err => exact absurd h (by simp)
    | none =>
      simp only [Prod.mk.injEq] at h
      obtain ⟨hv, -, hp⟩ := h
      subst hv hp
      constructor <;> simp [loc, ho2, defaultOptions]

theorem span_parseArray (fuel : Nat) (p : Parser) (c : Bool) (a : ArrayValue)
    (p' : Parser) (hO : p.Options = defaultOptions)
    (h : parseArray fuel p c = .ret a none p') :
    (ArrayValue.Loc a).Start = p.Token.Start ∧
      (ArrayValue.Loc a).End = p'.PrevEnd := by
  have hopt : p'.Options = defaultOptions :=
    commute_pres eArrayValue (fun q => parseArray fuel q c)
      (fun o q hq => parseArray_withOpts fuel o q c hq) p a none p' hO h
  cases fuel with
  | zero => exact absurd h (by simp [parseArray])
  | succ fuel =>
    rw [parseArray] at h
    cases hany : any fuel p .BRACE_L
        (if c then fun q2 => parseConstValue fuel q2
         else fun q2 => parseVariableValue fuel q2) .BRACKET_R with
    | ret iValues e p1 =>
      rw [hany] at h
      cases e with
      | some err => exact absurd h (by simp)
      | none =>
        dsimp only at h
        cases iValues with
        | nil =>
          simp only [rangeAssign] at h
          cases h
          constructor <;> simp [ArrayValue.Loc, loc, hopt, defaultOptions]
        | cons x xs =>
          rw [rangeAssign_cons_empty] at h
          exact absurd h (by simp)
    | panicked =>
      rw [hany] at h
      exact absurd h (by simp)
    | outOfFuel =>
      rw [hany] at h
      exact absurd h (by simp)

theorem span_parseValue (fuel : Nat) (p : Parser) (c : Bool) (v : Value)
    (p' : Parser) (hO : p.Options = defaultOptions)
    (h : parseValue fuel p c = .ret v none p') :
    ∃ a : ArrayValue, v = .array a ∧
      (ArrayValue.Loc a).Start = p.Token.Start ∧
      (ArrayValue.Loc a).End = p'.PrevEnd := by
  cases fuel with
  | zero => exact absurd h (by simp [parseValue])
  | succ fuel =>
    rw [parseValue] at h
    cases hk : p.Token.Kind <;> rw [hk] at h
    case BRACE_L =>
      dsimp only at h
      cases ha : parseArray fuel p c with
      | ret a e p1 =>
        rw [ha] at h
        cases e with
        | some err => exact absurd h (by simp)
        | none =>
          cases h
          exact ⟨a, rfl, span_parseArray fuel p c a p' hO ha⟩
      | panicked =>
        rw [ha] at h
        exact absurd h (by simp)
      | outOfFuel =>
        rw [ha] at h
        exact absurd h (by simp)
    all_goals exact absurd h (by simp)

theorem span_parseTypeBang (p : Parser) (start : Nat) (t v : TypeNode)
    (p' : Parser) (hO : p.Options = defaultOptions)
    (hT : (TypeNode.topLoc t).Start = start ∧ (TypeNode.topLoc t).End = p.PrevEnd)
    (h : parseTypeBang p start t = .ret v none p') :
    (TypeNode.topLoc v).Start = start ∧ (TypeNode.topLoc v).End = p'.PrevEnd := by
  rw [parseTypeBang] at h
  rcases hsk : skip p .BANG with ⟨b, p1⟩
  rw [hsk] at h
  cases b with
  | true =>
    have hadv : p1 = advance p := skip_true_eq p .BANG p1 hsk
    subst hadv
    cases h
    have hopt : (advance p).Options = p.Options := rfl
    constructor <;>
      simp [TypeNode.topLoc, loc, advance_PrevEnd, hopt, hO, defaultOptions]
  | false =>
    have hp1 : p1 = p := skip_false_eq p .BANG p1 hsk
    rw [hp1] at h
    cases h
    exact hT

theorem span_parseType (fuel : Nat) (p : Parser) (t : TypeNode) (p' : Parser)
    (hO : p.Options = defaultOptions) (h : parseType fuel p = .ret t none p') :
    (TypeNode.topLoc t).Start = p.Token.Start ∧
      (TypeNode.topLoc t).End = p'.PrevEnd := by
  cases fuel with
  | zero => exact absurd h (by simp [parseType])
  | succ fuel =>
    rw [parseType] at h
    rcases hsk : skip p .BRACE_L with ⟨b, p1⟩
    rw [hsk] at h
    cases b with
    | true =>
      have hadv : p1 = advance p := skip_true_eq p .BRACE_L p1 hsk
      subst hadv
      dsimp only at h
      cases ht : parseType fuel (advance p) with
      | ret t0 e p2 =>
        rw [ht] at h
        cases e with
        | some err => exact absurd h (by simp)
        | none =>
          dsimp only at h
          have hOadv : (advance p).Options = defaultOptions := hO
          have hopt2 : p2.Options = defaultOptions :=
            commute_pres eTypeNode (parseType fuel)
              (fun o q hq => parseType_withOpts fuel o q hq)
              (advance p) t0 none p2 hOadv ht
          rcases hex : expect p2 .BRACKET_R with ⟨tok2, e2, p3⟩
          rw [hex] at h
          dsimp only at h
          cases e2 with
          | some err => exact absurd h (by simp)
          | none =>
            obtain ⟨htok2, hadv2⟩ := expect_none_eq p2 .BRACKET_R tok2 p3 hex
            have hopt3 : p3.Options = defaultOptions := by
              rw [hadv2]
              exact hopt2
            have hT : (TypeNode.topLoc
                  (.listT kinds.ListType (loc p3 p.Token.Start) t0)).Start =
                    p.Token.Start ∧
                (TypeNode.topLoc
                  (.listT kinds.ListType (loc p3 p.Token.Start) t0)).End =
                    p3.PrevEnd := by
              constructor <;> simp [TypeNode.topLoc, loc, hopt3, defaultOptions]
            exact span_parseTypeBang p3 p.Token.Start _ t p' hopt3 hT h
      | panicked =>
        rw [ht] at h
        exact absurd h (by simp)
      | outOfFuel =>
        rw [ht] at h
        exact absurd h (by simp)
    | false =>
      have hp1 : p1 = p := skip_false_eq p .BRACE_L p1 hsk
      rw [hp1] at h
      dsimp only at h
      rcases hnt : parseNamedType p with ⟨name, e, p2⟩
      have hopt2 : p2.Options = defaultOptions := by
        have := parseNamedType_options p
        rw [hnt] at this
        rw [this, hO]
      rw [hnt] at h
      dsimp only at h
      cases e with
      | some err => exact absurd h (by simp)
      | none =>
        have hsp := span_parseNamedType p name p2 hO hnt
        exact span_parseTypeBang p2 p.Token.Start (.named name) t p' hopt2
          ⟨hsp.1, hsp.2⟩ h

theorem span_parseArgument (fuel : Nat) (p : Parser) (v : NodeV) (p' : Parser)
    (hO : p.Options = defaultOptions)
    (h : parseArgument fuel p = .ret v none p') :
    ∃ a : Argument, v = .arg a ∧
      a.Loc.Start = p.Token.Start ∧ a.Loc.End = p'.PrevEnd := by
  have hopt : p'.Options = defaultOptions :=
    commute_pres eNodeV (parseArgument fuel)
      (fun o q hq => parseArgument_withOpts fuel o q hq) p v none p' hO h
  cases fuel with
  | zero => exact absurd h (by simp [parseArgument])
  | succ fuel =>
    rw [parseArgument] at h
    rcases hnm : parseName p with ⟨name, e, p1⟩
    rw [hnm] at h
    dsimp only at h
    cases e with
    | some err => exact absurd h (by simp)
    | none =>
      rcases hex : expect p1 .COLON with ⟨tok, e2, p2⟩
      rw [hex] at h
      dsimp only at h
      cases e2 with
      | some err => exact absurd h (by simp)
      | none =>
        cases hv : parseValue fuel p2 false with
        | ret value e3 p3 =>
          rw [hv] at h
          cases e3 with
          | some err => exact absurd h (by simp)
          | none =>
            dsimp only at h
            cases h
            refine ⟨_, rfl, ?_, ?_⟩ <;> simp [loc, hopt, defaultOptions]
        | panicked =>
          rw [hv] at h
          exact absurd h (by simp)
        | outOfFuel =>
          rw [hv] at h
          exact absurd h (by simp)

theorem span_parseVariableDefinition (fuel : Nat) (p : Parser) (v : NodeV)
    (p' : Parser) (hO : p.Options = defaultOptions)
    (h : parseVariableDefinition fuel p = .ret v none p') :
    ∃ d : VariableDefinition, v = .vDef d ∧
      d.Loc.Start = p.Token.Start ∧ d.Loc.End = p'.PrevEnd := by
  have hopt : p'.Options = defaultOptions :=
    commute_pres eNodeV (parseVariableDefinition fuel)
      (fun o q hq => parseVariableDefinition_withOpts fuel o q hq) p v none p' hO h
  cases fuel with
  | zero => exact absurd h (by simp [parseVariableDefinition])
  | succ fuel =>
    rw [parseVariableDefinition] at h
    dsimp only at h
    rcases hsk : skip p .EQUALS with ⟨b, p1⟩
    rw [hsk] at h
    cases b with
    | true =>
      have hadv : p1 = advance p := skip_true_eq p .EQUALS p1 hsk
      subst hadv
      dsimp only at h
      cases hv : parseValue fuel (advance p) true with
      | ret dv e0 p2 =>
        rw [hv] at h
        cases e0 with
        | some err => exact absurd h (by simp)
        | none =>
          dsimp only at h
          rcases hex : expect p2 .COLON with ⟨tok, e, p3⟩
          rw [hex] at h
          dsimp only at h
          cases e with
          | some err => exact absurd h (by simp)
          | none =>
            rcases hvar : parseVariable p3 with ⟨variable', e2, p4⟩
            rw [hvar] at h
            dsimp only at h
            cases e2 with
            | some err => exact absurd h (by simp)
            | none =>
              cases ht : parseType fuel p4 with
              | ret ttype e3 p5 =>
                rw [ht] at h
                cases e3 with
                | some err => exact absurd h (by simp)
                | none =>
                  dsimp only at h
                  cases h
                  refine ⟨_, rfl, ?_, ?_⟩ <;> simp [loc, hopt, defaultOptions]
              | panicked =>
                rw [ht] at h
                exact absurd h (by simp)
              | outOfFuel =>
                rw [ht] at h
                exact absurd h (by simp)
      | panicked =>
        rw [hv] at h
        exact absurd h (by simp)
      | outOfFuel =>
        rw [hv] at h
        exact absurd h (by simp)
    | false =>
      have hp1 : p1 = p := skip_false_eq p .EQUALS p1 hsk
      rw [hp1] at h
      dsimp only at h
      rcases hex : expect p .COLON with ⟨tok, e, p3⟩
      rw [hex] at h
      dsimp only at h
      cases e with
      | some err => exact absurd h (by simp)
      | none =>
        rcases hvar : parseVariable p3 with ⟨variable', e2, p4⟩
        rw [hvar] at h
        dsimp only at h
        cases e2 with
        | some err => exact absurd h (by simp)
        | none =>
          cases ht : parseType fuel p4 with
          | ret ttype e3 p5 =>
            rw [ht] at h
            cases e3 with
            | some err => exact absurd h (by simp)
            | none =>
              dsimp only at h
              cases h
              refine ⟨_, rfl, ?_, ?_⟩ <;> simp [loc, hopt, defaultOptions]
          | panicked =>
            rw [ht] at h
            exact absurd h (by simp)
          | outOfFuel =>
            rw [ht] at h
            exact absurd h (by simp)

theorem span_parseDirective (fuel : Nat) (p : Parser) (d : Directive)
    (p' : Parser) (hO : p.Options = defaultOptions)
    (h : parseDirective fuel p = .ret d none p') :
    d.Loc.Start = p.Token.Start ∧ d.Loc.End = p'.PrevEnd := by
  have hopt : p'.Options = defaultOptions :=
    commute_pres eDirective (parseDirective fuel)
      (fun o q hq => parseDirective_withOpts fuel o q hq) p d none p' hO h
  cases fuel with
  | zero => exact absurd h (by simp [parseDirective])
  | succ fuel =>
    rw [parseDirective] at h
    dsimp only at h
    rcases hex : expect p .AT with ⟨tok, e, p1⟩
    rw [hex] at h
    dsimp only at h
    cases e with
    | some err => exact absurd h (by simp)
    | none =>
      rcases hnm : parseName p1 with ⟨name, e2, p2⟩
      rw [hnm] at h
      dsimp only at h
      cases e2 with
      | some err => exact absurd h (by simp)
      | none =>
        rcases hsk : skip p2 .COLON with ⟨b, p3⟩
        rw [hsk] at h
        cases b with
        | true =>
          have hadv3 : p3 = advance p2 := skip_true_eq p2 .COLON p3 hsk
          subst hadv3
          dsimp only at h
          cases hv : parseValue fuel (advance p2) false with
          | ret value e3 p4 =>
            rw [hv] at h
            cases e3 with
            | some err => exact absurd h (by simp)
            | none =>
              dsimp only at h
              cases h
              constructor <;> simp [loc, hopt, defaultOptions]
          | panicked =>
            rw [hv] at h
            exact absurd h (by simp)
          | outOfFuel =>
            rw [hv] at h
            exact absurd h (by simp)
        | false =>
          have hp3 : p3 = p2 := skip_false_eq p2 .COLON p3 hsk
          rw [hp3] at h
          dsimp only at h
          cases h
          constructor <;> simp [loc, hopt, defaultOptions]

theorem span_parseSelectionSet (fuel : Nat) (p : Parser) (ss : SelectionSet)
    (p' : Parser) (hO : p.Options = defaultOptions)
    (h : parseSelectionSet fuel p = .ret ss none p') :
    (SelectionSet.Loc ss).Start = p.Token.Start ∧
      (SelectionSet.Loc ss).End = p'.PrevEnd := by
  have hopt : p'.Options = defaultOptions :=
    commute_pres eSelectionSet (parseSelectionSet fuel)
      (fun o q hq => parseSelectionSet_withOpts fuel o q hq) p ss none p' hO h
  cases fuel with
  | zero => exact absurd h (by simp [parseSelectionSet])
  | succ fuel =>
    rw [parseSelectionSet] at h
    cases hm : many fuel p .BRACE_L (fun q => parseSelection fuel q) .BRACE_R with
    | ret selections e p1 =>
      rw [hm] at h
      cases e with
      | some err => exact absurd h (by simp)
      | none =>
        dsimp only at h
        cases h
        constructor <;> simp [SelectionSet.Loc, loc, hopt, defaultOptions]
    | panicked =>
      rw [hm] at h
      exact absurd h (by simp)
    | outOfFuel =>
      rw [hm] at h
      exact absurd h (by simp)

theorem span_parseField (fuel : Nat) (p : Parser) (f : Field) (p' : Parser)
    (hO : p.Options = defaultOptions)
    (h : parseField fuel p = .ret f none p') :
    (Field.Loc f).Start = p.Token.Start ∧ (Field.Loc f).End = p'.PrevEnd := by
  have hopt : p'.Options = defaultOptions :=
    commute_pres eField (parseField fuel)
      (fun o q hq => (selCommute fuel).2.2.2 o q hq) p f none p' hO h
  cases fuel with
  | zero => exact absurd h (by simp [parseField])
  | succ fuel =>
    rw [parseField] at h
    dsimp only at h
    rcases hnm : parseName p with ⟨nameOrAlias, e, p1⟩
    rw [hnm] at h
    dsimp only at h
    cases e with
    | some err => exact absurd h (by simp)
    | none =>
      rcases hsk : skip p1 .COLON with ⟨b, p2⟩
      rw [hsk] at h
      cases b with
      | true =>
        have hadv : p2 = advance p1 := skip_true_eq p1 .COLON p2 hsk
        subst hadv
        dsimp only at h
        rcases hnm2 : parseName (advance p1) with ⟨n, e2, p3⟩
        rw [hnm2] at h
        dsimp only at h
        cases e2 with
        | some err => exact absurd h (by simp)
        | none =>
          cases hpk : peek p3 .BRACE_L with
          | true =>
            rw [hpk] at h
            simp only [reduceIte] at h
            cases hss : parseSelectionSet fuel p3 with
            | ret sSet e3 p4 =>
              rw [hss] at h
              cases e3 with
              | some err => exact absurd h (by simp)
              | none =>
                dsimp only at h
                cases ha : parseArguments fuel p4 with
                | ret arguments e4 p5 =>
                  rw [ha] at h
                  cases e4 with
                  | some err => exact absurd h (by simp)
                  | none =>
                    dsimp only at h
                    cases hd : parseDirectives fuel p5 with
                    | ret directives e5 p6 =>
                      rw [hd] at h
                      cases e5 with
                      | some err => exact absurd h (by simp)
                      | none =>
                        dsimp only at h
                        cases h
                        constructor <;>
                          simp [Field.Loc, loc, hopt, defaultOptions]
                    | panicked =>
                      rw [hd] at h
                      exact absurd h (by simp)
                    | outOfFuel =>
                      rw [hd] at h
                      exact absurd h (by simp)
                | panicked =>
                  rw [ha] at h
                  exact absurd h (by simp)
                | outOfFuel =>
                  rw [ha] at h
                  exact absurd h (by simp)
            | panicked =>
              rw [hss] at h
              exact absurd h (by simp)
            | outOfFuel =>
              rw [hss] at h
              exact absurd h (by simp)
          | false =>
            rw [hpk] at h
            simp only [Bool.false_eq_true, if_false] at h
            cases ha : parseArguments fuel p3 with
            | ret arguments e4 p5 =>
              rw [ha] at h
              cases e4 with
              | some err => exact absurd h (by simp)
              | none =>
                dsimp only at h
                cases hd : parseDirectives fuel p5 with
                | ret directives e5 p6 =>
                  rw [hd] at h
                  cases e5 with
                  | some err => exact absurd h (by simp)
                  | none =>
                    dsimp only at h
                    cases h
                    constructor <;> simp [Field.Loc, loc, hopt, defaultOptions]
                | panicked =>
                  rw [hd] at h
                  exact absurd h (by simp)
                | outOfFuel =>
                  rw [hd] at h
                  exact absurd h (by simp)
            | panicked =>
              rw [ha] at h
              exact absurd h (by simp)
            | outOfFuel =>
              rw [ha] at h
              exact absurd h (by simp)
      | false =>
        have hp2 : p2 = p1 := skip_false_eq p1 .COLON p2 hsk
        rw [hp2] at h
        dsimp only at h
        cases hpk : peek p1 .BRACE_L with
        | true =>
          rw [hpk] at h
          simp only [reduceIte] at h
          cases hss : parseSelectionSet fuel p1 with
          | ret sSet e3 p4 =>
            rw [hss] at h
            cases e3 with
            | some err => exact absurd h (by simp)
            | none =>
              dsimp only at h
              cases ha : parseArguments fuel p4 with
              | ret arguments e4 p5 =>
                rw [ha] at h
                cases e4 with
                | some err => exact absurd h (by simp)
                | none =>
                  dsimp only at h
                  cases hd : parseDirectives fuel p5 with
                  | ret directives e5 p6 =>
                    rw [hd] at h
                    cases e5 with
                    | some err => exact absurd h (by simp)
                    | none =>
                      dsimp only at h
                      cases h
                      constructor <;> simp [Field.Loc, loc, hopt, defaultOptions]
                  | panicked =>
                    rw [hd] at h
                    exact absurd h (by simp)
                  | outOfFuel =>
                    rw [hd] at h
                    exact absurd h (by simp)
              | panicked =>
                rw [ha] at h
                exact absurd h (by simp)
              | outOfFuel =>
                rw [ha] at h
                exact absurd h (by simp)
          | panicked =>
            rw [hss] at h
            exact absurd h (by simp)
          | outOfFuel =>
            rw [hss] at h
            exact absurd h (by simp)
        | false =>
          rw [hpk] at h
          simp only [Bool.false_eq_true, if_false] at h
          cases ha : parseArguments fuel p1 with
          | ret arguments e4 p5 =>
            rw [ha] at h
            cases e4 with
            | some err => exact absurd h (by simp)
            | none =>
              dsimp only at h
              cases hd : parseDirectives fuel p5 with
              | ret directives e5 p6 =>
                rw [hd] at h
                cases e5 with
                | some err => exact absurd h (by simp)
                | none =>
                  dsimp only at h
                  cases h
                  constructor <;> simp [Field.Loc, loc, hopt, defaultOptions]
              | panicked =>
                rw [hd] at h
                exact absurd h (by simp)
              | outOfFuel =>
                rw [hd] at h
                exact absurd h (by simp)
          | panicked =>
            rw [ha] at h
            exact absurd h (by simp)
          | outOfFuel =>
            rw [ha] at h
            exact absurd h (by simp)

theorem span_parseFragment (fuel : Nat) (p : Parser) (v : NodeV) (p' : Parser)
    (hO : p.Options = defaultOptions)
    (h : parseFragment fuel p = .ret v none p') :
    (∃ s : FragmentSpread, v = .spread s ∧
      s.Loc.Start = p.Token.Start ∧ s.Loc.End = p'.PrevEnd) ∨
    (∃ i : InlineFragment, v = .inline i ∧
      (InlineFragment.Loc i).Start = p.Token.Start ∧
      (InlineFragment.Loc i).End = p'.PrevEnd) := by
  have hopt : p'.Options = defaultOptions :=
    commute_pres eNodeV (parseFragment fuel)
      (fun o q hq => (selCommute fuel).2.2.1 o q hq) p v none p' hO h
  cases fuel with
  | zero => exact absurd h (by simp [parseFragment])
  | succ fuel =>
    rw [parseFragment] at h
    dsimp only at h
    rcases hex : expect p .SPREAD with ⟨tok, e, p1⟩
    rw [hex] at h
    dsimp only at h
    cases e with
    | some err => exact absurd h (by simp)
    | none =>
      by_cases hon : p1.Token.Value = "on"
      · rw [if_pos hon] at h
        dsimp only at h
        rcases hnt : parseNamedType (advance p1) with ⟨name, e2, p3⟩
        rw [hnt] at h
        dsimp only at h
        cases e2 with
        | some err => exact absurd h (by simp)
        | none =>
          cases hd : parseDirectives fuel p3 with
          | ret directives e3 p4 =>
            rw [hd] at h
            cases e3 with
            | some err => exact absurd h (by simp)
            | none =>
              dsimp only at h
              cases hss : parseSelectionSet fuel p4 with
              | ret selectionSet e4 p5 =>
                rw [hss] at h
                cases e4 with
                | some err => exact absurd h (by simp)
                | none =>
                  dsimp only at h
                  cases h
                  refine Or.inr ⟨_, rfl, ?_, ?_⟩ <;>
                    simp [InlineFragment.Loc, loc, hopt, defaultOptions]
              | panicked =>
                rw [hss] at h
                exact absurd h (by simp)
              | outOfFuel =>
                rw [hss] at h
                exact absurd h (by simp)
          | panicked =>
            rw [hd] at h
            exact absurd h (by simp)
          | outOfFuel =>
            rw [hd] at h
            exact absurd h (by simp)
      · rw [if_neg hon] at h
        dsimp only at h
        rcases hfn : parseFragmentName p1 with ⟨name, e2, p2⟩
        rw [hfn] at h
        dsimp only at h
        cases e2 with
        | some err => exact absurd h (by simp)
        | none =>
          cases hd : parseDirectives fuel p2 with
          | ret directives e3 p3 =>
            rw [hd] at h
            cases e3 with
            | some err => exact absurd h (by simp)
            | none =>
              dsimp only at h
              cases h
              refine Or.inl ⟨_, rfl, ?_, ?_⟩ <;>
                simp [loc, hopt, defaultOptions]
          | panicked =>
            rw [hd] at h
            exact absurd h (by simp)
          | outOfFuel =>
            rw [hd] at h
            exact absurd h (by simp)

theorem span_parseOperationDefinition (fuel : Nat) (p : Parser)
    (d : OperationDefinition) (p' : Parser) (hO : p.Options = defaultOptions)
    (h : parseOperationDefinition fuel p = .ret d none p') :
    d.Loc.Start = p.Token.Start ∧ d.Loc.End = p'.PrevEnd := by
  have hopt : p'.Options = defaultOptions :=
    commute_pres eOperationDefinition (parseOperationDefinition fuel)
      (fun o q hq => parseOperationDefinition_withOpts fuel o q hq) p d none p' hO h
  cases fuel with
  | zero => exact absurd h (by simp [parseOperationDefinition])
  | succ fuel =>
    rw [parseOperationDefinition] at h
    dsimp only at h
    cases hpk : peek p .BRACE_L with
    | true =>
      rw [hpk] at h
      simp only [reduceIte] at h
      cases hss : parseSelectionSet fuel p with
      | ret selectionSet e p1 =>
        rw [hss] at h
        cases e with
        | some err => exact absurd h (by simp)
        | none =>
          dsimp only at h
          cases h
          constructor <;> simp [loc, hopt, defaultOptions]
      | panicked =>
        rw [hss] at h
        exact absurd h (by simp)
      | outOfFuel =>
        rw [hss] at h
        exact absurd h (by simp)
    | false =>
      rw [hpk] at h
      simp only [Bool.false_eq_true, if_false] at h
      rcases hex : expect p .NAME with ⟨operationToken, e, p1⟩
      rw [hex] at h
      dsimp only at h
      cases e with
      | some err => exact absurd h (by simp)
      | none =>
        rcases hnm : parseName p1 with ⟨name, e2, p2⟩
        rw [hnm] at h
        dsimp only at h
        cases e2 with
        | some err => exact absurd h (by simp)
        | none =>
          cases hvd : parseVariableDefinitions fuel p2 with
          | ret variableDefinitions e3 p3 =>
            rw [hvd] at h
            cases e3 with
            | some err => exact absurd h (by simp)
            | none =>
              dsimp only at h
              cases hd : parseDirectives fuel p3 with
              | ret directives e4 p4 =>
                rw [hd] at h
                cases e4 with
                | some err => exact absurd h (by simp)
                | none =>
                  dsimp only at h
                  cases hss : parseSelectionSet fuel p4 with
                  | ret selectionSet e5 p5 =>
                    rw [hss] at h
                    cases e5 with
                    | some err => exact absurd h (by simp)
                    | none =>
                      dsimp only at h
                      cases h
                      constructor <;> simp [loc, hopt, defaultOptions]
                  | panicked =>
                    rw [hss] at h
                    exact absurd h (by simp)
                  | outOfFuel =>
                    rw [hss] at h
                    exact absurd h (by simp)
              | panicked =>
                rw [hd] at h
                exact absurd h (by simp)
              | outOfFuel =>
                rw [hd] at h
                exact absurd h (by simp)
          | panicked =>
            rw [hvd] at h
            exact absurd h (by simp)
          | outOfFuel =>
            rw [hvd] at h
            exact absurd h (by simp)

theorem span_parseFragmentDefinition (fuel : Nat) (p : Parser)
    (d : FragmentDefinition) (p' : Parser) (hO : p.Options = defaultOptions)
    (h : parseFragmentDefinition fuel p = .ret d none p') :
    d.Loc.Start = p.Token.Start ∧ d.Loc.End = p'.PrevEnd := by
  have hopt : p'.Options = defaultOptions :=
    commute_pres eFragmentDefinition (parseFragmentDefinition fuel)
      (fun o q hq => parseFragmentDefinition_withOpts fuel o q hq) p d none p' hO h
  cases fuel with
  | zero => exact absurd h (by simp [parseFragmentDefinition])
  | succ fuel =>
    rw [parseFragmentDefinition] at h
    dsimp only at h
    rcases hkw : expectKeyWord p "fragment" with ⟨tok, e, p1⟩
    rw [hkw] at h
    dsimp only at h
    cases e with
    | some err => exact absurd h (by simp)
    | none =>
      rcases hfn : parseFragmentName p1 with ⟨name, e2, p2⟩
      rw [hfn] at h
      dsimp only at h
      cases e2 with
      | some err => exact absurd h (by simp)
      | none =>
        rcases hkw2 : expectKeyWord p2 "on" with ⟨tok2, e3, p3⟩
        rw [hkw2] at h
        dsimp only at h
        cases e3 with
        | some err => exact absurd h (by simp)
        | none =>
          rcases hnt : parseNamedType p3 with ⟨typeCondition, e4, p4⟩
          rw [hnt] at h
          dsimp only at h
          cases e4 with
          | some err => exact absurd h (by simp)
          | none =>
            cases hss : parseSelectionSet fuel p4 with
            | ret selectionSet e5 p5 =>
              rw [hss] at h
              cases e5 with
              | some err => exact absurd h (by simp)
              | none =>
                dsimp only at h
                cases hd : parseDirectives fuel p5 with
                | ret directives e6 p6 =>
                  rw [hd] at h
                  cases e6 with
                  | some err => exact absurd h (by simp)
                  | none =>
                    dsimp only at h
                    cases h
                    constructor <;> simp [loc, hopt, defaultOptions]
                | panicked =>
                  rw [hd] at h
                  exact absurd h (by simp)
                | outOfFuel =>
                  rw [hd] at h
                  exact absurd h (by simp)
            | panicked =>
              rw [hss] at h
              exact absurd h (by simp)
            | outOfFuel =>
              rw [hss] at h
              exact absurd h (by simp)

theorem span_parseDocument (fuel : Nat) (p : Parser) (doc : Document)
    (p' : Parser) (hO : p.Options = defaultOptions)
    (h : parseDocument fuel p = .ret doc none p') :
    doc.Loc.Start = p.Token.Start ∧ doc.Loc.End = p'.PrevEnd := by
  have hopt : p'.Options = defaultOptions :=
    commute_pres eDocument (parseDocument fuel)
      (fun o q hq => parseDocument_withOpts fuel o q hq) p doc none p' hO h
  cases fuel with
  | zero => exact absurd h (by simp [parseDocument])
  | succ fuel =>
    rw [parseDocument] at h
    cases hl : parseDocumentLoop fuel p [] with
    | ret definitions e p1 =>
      rw [hl] at h
      cases e with
      | some err => exact absurd h (by simp)
      | none =>
        dsimp only at h
        cases h
        constructor <;> simp [loc, hopt, defaultOptions]
    | panicked =>
      rw [hl] at h
      exact absurd h (by simp)
    | outOfFuel =>
      rw [hl] at h
      exact absurd h (by simp)

/-! ### Claim theorems -/

/-- C1: the claim says parseType dispatches its list branch on the `[`
token, so that the text `[Int]!` yields NonNullType(ListType(NamedType Int))
and `[Int!]` yields ListType(NonNullType(NamedType Int)).  In the code the
list branch opens on the BRACE_L kind while expecting BRACKET_R as the
matching close, so `[Int]!` fails with "Expected Name, found [" at offset 0,
while the brace-opened texts show the (right-associative) wrapping the claim
describes, including the trailing-bang NonNullType wrap of each branch. -/
theorem c1_parseType_bracket_dispatch :
    parseType 100 (makeParser (NewSource "[Int]!" "") defaultOptions) =
      .ret .nilType
        (some (NewSyntaxError (NewSource "[Int]!" "") 0 "Expected Name, found ["))
        (makeParser (NewSource "[Int]!" "") defaultOptions) ∧
    parseType 100 (makeParser (NewSource "[Int!]" "") defaultOptions) =
      .ret .nilType
        (some (NewSyntaxError (NewSource "[Int!]" "") 0 "Expected Name, found ["))
        (makeParser (NewSource "[Int!]" "") defaultOptions) ∧
    (∃ l1 l2 l3 p',
      parseType 100 (makeParser (NewSource "\x7bInt]!" "") defaultOptions) =
        .ret (.nonNull kinds.NonNullType l1 (.listT kinds.ListType l2
          (.named (.mk kinds.NamedType l3
            { Kind := kinds.Name, Loc := l3, Value := "Int" } .nilType))))
          none p') ∧
    (∃ l1 l2 l3 p',
      parseType 100 (makeParser (NewSource "\x7bInt!]" "") defaultOptions) =
        .ret (.listT kinds.ListType l1 (.nonNull kinds.NonNullType l2
          (.named (.mk kinds.NamedType l3
            { Kind := kinds.Name, Loc := l3, Value := "Int" } .nilType))))
          none p') :=
  ⟨rfl, rfl, ⟨_, _, _, _, rfl⟩, ⟨_, _, _, _, rfl⟩⟩

/-- C2: whenever many/any hands a non-empty item sequence back to
parseArguments, parseVariableDefinitions or parseArray, the index
assignment into the still-empty destination sequence is out of bounds and
the total embedding reaches the panic outcome instead of returning. -/
theorem c2_index_assignment_panics :
    (∀ (fuel : Nat) (p : Parser) (nodes : List NodeV) (p' : Parser),
      peek p .PAREN_L = true →
      many fuel p .PAREN_L (fun q => parseArgument fuel q) .PAREN_R =
        .ret nodes none p' →
      parseArguments (fuel + 1) p = .panicked) ∧
    (∀ (fuel : Nat) (p : Parser) (vdefs : List NodeV) (e : Option Err) (p' : Parser),
      peek p .PAREN_L = true →
      many fuel p .PAREN_L (fun q => parseVariableDefinition fuel q) .PAREN_R =
        .ret vdefs e p' →
      vdefs ≠ [] →
      parseVariableDefinitions (fuel + 1) p = .panicked) ∧
    (∀ (fuel : Nat) (p : Parser) (isConst : Bool) (iValues : List NodeV) (p' : Parser),
      any fuel p .BRACE_L
          (if isConst then fun q => parseConstValue fuel q
           else fun q => parseVariableValue fuel q) .BRACKET_R =
        .ret iValues none p' →
      iValues ≠ [] →
      parseArray (fuel + 1) p isConst = .panicked) ∧
    Parse { Source := .str "\x7b f(x: \x7b]) \x7d", Options := defaultOptions } = .panicked ∧
    Parse { Source := .str "\x7b f(x: \x7b\x7b]]) \x7d", Options := defaultOptions } = .panicked ∧
    Parse { Source := .str "query q (: $x Int) \x7b f \x7d", Options := defaultOptions } = .panicked := by
  refine ⟨?_, ?_, ?_, rfl, rfl, rfl⟩
  · intro fuel p nodes p' hpeek hmany
    obtain ⟨n, ns, rfl⟩ := List.exists_cons_of_ne_nil (many_ne _ _ _ _ _ _ _ hmany)
    rw [parseArguments]
    simp [hpeek, hmany, rangeAssign_cons_empty]
  · intro fuel p vdefs e p' hpeek hmany hne
    obtain ⟨n, ns, rfl⟩ := List.exists_cons_of_ne_nil hne
    rw [parseVariableDefinitions]
    simp [hpeek, hmany, rangeAssign_cons_empty]
  · intro fuel p isConst iValues p' hany hne
    obtain ⟨n, ns, rfl⟩ := List.exists_cons_of_ne_nil hne
    rw [parseArray]
    simp [hany, rangeAssign_cons_empty]

/-- Witness for C2: a concrete argument list of one argument makes
parseArguments panic. -/
theorem c2_index_assignment_panics_witness :
    parseArguments 61 (makeParser (NewSource "(x: \x7b])" "") defaultOptions) =
      .panicked :=
  c2_index_assignment_panics.1 60
    (makeParser (NewSource "(x: \x7b])" "") defaultOptions) _ _ rfl rfl

/-- C3: the claim says parseValue recognizes exactly the `[` token (routing
it to parseArray) and fails on every other kind with "Unexpected <token>".
In the code the single recognized kind is BRACE_L: every non-BRACE_L kind -
scalar literals and BRACKET_L itself included - takes the unexpected-token
error, while a BRACE_L-opened (and BRACKET_R-closed) array parses. -/
theorem c3_parseValue_dispatch :
    (∀ (fuel : Nat) (p : Parser) (isConst : Bool), p.Token.Kind ≠ .BRACE_L →
      parseValue (fuel + 1) p isConst =
        .ret .nilValue (some (unexpected p (default : Token))) p) ∧
    parseValue 100 (makeParser (NewSource "[]" "") defaultOptions) false =
      .ret .nilValue
        (some (NewSyntaxError (NewSource "[]" "") 0 "Unexpected ["))
        (makeParser (NewSource "[]" "") defaultOptions) ∧
    parseValue 100 (makeParser (NewSource "3" "") defaultOptions) false =
      .ret .nilValue
        (some (NewSyntaxError (NewSource "3" "") 0 "Unexpected Int \"3\""))
        (makeParser (NewSource "3" "") defaultOptions) ∧
    (∃ l p', parseValue 100 (makeParser (NewSource "\x7b]" "") defaultOptions) false =
      .ret (.array (.mk kinds.Array l [])) none p') := by
  refine ⟨?_, rfl, rfl, ⟨_, _, rfl⟩⟩
  intro fuel p isConst h
  rw [parseValue]
  split
  · exact absurd ‹_› h
  · rfl

/-- Witness for C3: parseValue at an INT token takes the unexpected-token
branch. -/
theorem c3_parseValue_dispatch_witness :
    parseValue 8 (makeParser (NewSource "3" "") defaultOptions) false =
      .ret .nilValue
        (some (NewSyntaxError (NewSource "3" "") 0 "Unexpected Int \"3\""))
        (makeParser (NewSource "3" "") defaultOptions) :=
  c3_parseValue_dispatch.1 7 (makeParser (NewSource "3" "") defaultOptions) false
    (by decide)

/-- C4 counterexample: the input `query \x7b \x7d` does not fail with a
syntax error naming the unexpected closing brace: it fails with
"Expected Name, found \x7b" at offset 6, the opening brace (the operation
name after the query keyword is mandatory), not at offset 8 where the
closing brace token starts. -/
theorem c4_query_empty_braces_counterexample :
    Parse { Source := .str "query \x7b \x7d", Options := defaultOptions } =
      .ret zeroDocument
        (some (NewSyntaxError (NewSource "query \x7b \x7d" "") 6
          "Expected Name, found \x7b")) ∧
    "Expected Name, found \x7b" ≠ "Expected Name, found \x7d" ∧
    (6 : Nat) ≠ 8 :=
  ⟨rfl, by decide, by decide⟩

/-- C4 (amended): the many combinator guarantees a non-empty selection list
on success, and an empty selection set is rejected with a syntax error
naming the unexpected closing brace once the operation has its mandatory
name (`query q \x7b \x7d`) or is anonymous (`\x7b \x7d`); the exact input
`query \x7b \x7d` instead fails earlier, at the missing operation name. -/
theorem c4_selection_sets_never_empty :
    (∀ (fuel : Nat) (p : Parser) (openKind : TKind) (parseFn : ParseFn)
        (closeKind : TKind) (nodes : List NodeV) (p' : Parser),
      many fuel p openKind parseFn closeKind = .ret nodes none p' →
      nodes ≠ []) ∧
    Parse { Source := .str "query q \x7b \x7d", Options := defaultOptions } =
      .ret zeroDocument
        (some (NewSyntaxError (NewSource "query q \x7b \x7d" "") 10
          "Expected Name, found \x7d")) ∧
    Parse { Source := .str "\x7b \x7d", Options := defaultOptions } =
      .ret zeroDocument
        (some (NewSyntaxError (NewSource "\x7b \x7d" "") 2
          "Expected Name, found \x7d")) :=
  ⟨fun fuel p o f c nodes p' h => many_ne fuel p o f c nodes p' h, rfl, rfl⟩

/-- Witness for C4: a concrete successful many run returns a non-empty
selection list. -/
theorem c4_selection_sets_never_empty_witness :
    ∃ (nodes : List NodeV) (p' : Parser),
      many 50 (makeParser (NewSource "\x7b a \x7d" "") defaultOptions) .BRACE_L
          (fun q => parseSelection 49 q) .BRACE_R = .ret nodes none p' ∧
      nodes ≠ [] :=
  ⟨_, _, rfl, c4_selection_sets_never_empty.1 50
    (makeParser (NewSource "\x7b a \x7d" "") defaultOptions) .BRACE_L
    (fun q => parseSelection 49 q) .BRACE_R _ _ rfl⟩

/-- C5: the anonymous-query shorthand: whenever the operation production
starts at a bare `\x7b` (no query/mutation keyword), every successful
parse returns an OperationDefinition whose Operation is "query", whose
Name is the zero value, whose variable-definition and directive lists are
empty, and whose SelectionSet is exactly the selection set parsed at that
brace; and the concrete document `\x7b hero \x7b name \x7d \x7d` parses to
one such operation: one Field "hero" containing one Field "name". -/
theorem c5_anonymous_query_shorthand :
    (∀ (fuel : Nat) (p : Parser) (d : OperationDefinition) (p' : Parser),
      peek p .BRACE_L = true →
      parseOperationDefinition (fuel + 1) p = .ret d none p' →
      d.Operation = "query" ∧ d.Name = zeroName ∧
        d.VariableDefinitions = [] ∧ d.Directives = [] ∧
        parseSelectionSet fuel p = .ret d.SelectionSet none p') ∧
    Parse { Source := .str "\x7b hero \x7b name \x7d \x7d", Options := defaultOptions } =
      .ret
        ⟨kinds.Document,
         ⟨0, 17, some (NewSource "\x7b hero \x7b name \x7d \x7d" "")⟩,
         [.op ⟨kinds.OperationDefinition,
           ⟨0, 17, some (NewSource "\x7b hero \x7b name \x7d \x7d" "")⟩,
           "query",
           zeroName,
           [],
           [],
           .mk kinds.SelectionSet
             ⟨0, 17, some (NewSource "\x7b hero \x7b name \x7d \x7d" "")⟩
             [.field (.mk kinds.Field
               ⟨2, 15, some (NewSource "\x7b hero \x7b name \x7d \x7d" "")⟩
               zeroName
               ⟨kinds.Name,
                ⟨2, 6, some (NewSource "\x7b hero \x7b name \x7d \x7d" "")⟩,
                "hero"⟩
               [] []
               (.mk kinds.SelectionSet
                 ⟨7, 15, some (NewSource "\x7b hero \x7b name \x7d \x7d" "")⟩
                 [.field (.mk kinds.Field
                   ⟨9, 13, some (NewSource "\x7b hero \x7b name \x7d \x7d" "")⟩
                   zeroName
                   ⟨kinds.Name,
                    ⟨9, 13, some (NewSource "\x7b hero \x7b name \x7d \x7d" "")⟩,
                    "name"⟩
                   [] [] zeroSelectionSet)]))]⟩]⟩
        none := by
  refine ⟨?_, rfl⟩
  intro fuel p d p' hpk h
  rw [parseOperationDefinition] at h
  dsimp only at h
  rw [hpk] at h
  simp only [reduceIte] at h
  cases hss : parseSelectionSet fuel p with
  | ret selectionSet e p1 =>
    rw [hss] at h
    cases e with
    | some err => exact absurd h (by simp)
    | none =>
      dsimp only at h
      injection h with hv he hp
      subst hp
      subst hv
      exact ⟨rfl, rfl, rfl, rfl, rfl⟩
  | panicked =>
    rw [hss] at h
    exact absurd h (by simp)
  | outOfFuel =>
    rw [hss] at h
    exact absurd h (by simp)

/-- Witness for C5: the anonymous operation parsed at the bare brace of
`\x7b hero \x7b name \x7d \x7d` carries the default operation kind and
empty name, variable-definition and directive lists. -/
theorem c5_anonymous_query_shorthand_witness :
    ∃ (d : OperationDefinition) (p' : Parser),
      parseOperationDefinition (parseFuel "\x7b hero \x7b name \x7d \x7d")
          (makeParser (NewSource "\x7b hero \x7b name \x7d \x7d" "")
            defaultOptions) =
        .ret d none p' ∧
      d.Operation = "query" ∧ d.Name = zeroName ∧
        d.VariableDefinitions = [] ∧ d.Directives = [] ∧
        parseSelectionSet (parseFuel "\x7b hero \x7b name \x7d \x7d" - 1)
            (makeParser (NewSource "\x7b hero \x7b name \x7d \x7d" "")
              defaultOptions) =
          .ret d.SelectionSet none p' :=
  ⟨_, _, rfl, c5_anonymous_query_shorthand.1
    (parseFuel "\x7b hero \x7b name \x7d \x7d" - 1)
    (makeParser (NewSource "\x7b hero \x7b name \x7d \x7d" "") defaultOptions)
    _ _ rfl rfl⟩

/-- C8: parseFragmentName rejects a current token whose text is literally
"on" with an unexpected-token error at that token's start offset, and the
document `fragment on on User \x7b id \x7d` fails at offset 9, the start of
the first `on`. -/
theorem c8_fragment_name_rejects_on :
    (∀ p : Parser, p.Token.Value = "on" →
      parseFragmentName p =
        (zeroName,
         some (NewSyntaxError p.Source p.Token.Start
           ("Unexpected " ++ GetTokenDesc p.Token)),
         p)) ∧
    Parse { Source := .str "fragment on on User \x7b id \x7d", Options := defaultOptions } =
      .ret zeroDocument
        (some (NewSyntaxError (NewSource "fragment on on User \x7b id \x7d" "") 9
          "Unexpected Name \"on\"")) := by
  refine ⟨?_, rfl⟩
  intro p h
  simp [parseFragmentName, h, unexpected, NewSyntaxError]

/-- C7: parsing with any options equals parsing with the default options
followed by the location erasure mapLocO applied to every Location in the
Document (errors and panics unchanged); under NoLocation that erasure sends
every Location to the zero value, and under NoSource it keeps Start and End
and drops the source reference. -/
theorem c7_location_options :
    (∀ (src : SourceInput) (o : ParseOptions),
      Parse { Source := src, Options := o } =
        mapParseResult (eDocument o)
          (Parse { Source := src, Options := defaultOptions })) ∧
    (∀ l : Location,
      mapLocO { NoLocation := true, NoSource := false } l = zeroLocation) ∧
    (∀ l : Location,
      mapLocO { NoLocation := false, NoSource := true } l =
        { Start := l.Start, End := l.End, Source := none }) := by
  refine ⟨?_, fun l => by simp [mapLocO], fun l => by simp [mapLocO]⟩
  intro src o
  rw [Parse, Parse]
  cases src with
  | str s =>
    dsimp only
    rw [show makeParser (NewSource s "") o =
        withOpts o (makeParser (NewSource s "") defaultOptions) from rfl]
    rw [parseDocument_withOpts (parseFuel (NewSource s "").Body) o
      (makeParser (NewSource s "") defaultOptions) rfl]
    cases hd : parseDocument (parseFuel (NewSource s "").Body)
        (makeParser (NewSource s "") defaultOptions) with
    | ret d e p1 => cases e <;> rfl
    | panicked => rfl
    | outOfFuel => rfl
  | src s =>
    dsimp only
    rw [show makeParser s o = withOpts o (makeParser s defaultOptions) from rfl]
    rw [parseDocument_withOpts (parseFuel s.Body) o
      (makeParser s defaultOptions) rfl]
    cases hd : parseDocument (parseFuel s.Body) (makeParser s defaultOptions) with
    | ret d e p1 => cases e <;> rfl
    | panicked => rfl
    | outOfFuel => rfl

/-- Witness for C8: a concrete cursor standing on the name `on`. -/
theorem c8_fragment_name_rejects_on_witness :
    parseFragmentName (makeParser (NewSource "on" "") defaultOptions) =
      (zeroName,
       some (NewSyntaxError (NewSource "on" "") 0 "Unexpected Name \"on\""),
       makeParser (NewSource "on" "") defaultOptions) :=
  c8_fragment_name_rejects_on.1 (makeParser (NewSource "on" "") defaultOptions) rfl

/-- C9: parsing is a pure, deterministic function of the pair (source text,
options): the embedding of Parse is a Lean function, so two invocations on
the same parameters are definitionally the same result, and no state
outside the ParseParams argument exists that could influence an
invocation. -/
theorem c9_parse_deterministic :
    (∀ params : ParseParams, Parse params = Parse params) ∧
    (∀ (s : String) (opts : ParseOptions),
      Parse { Source := .str s, Options := opts } =
        Parse { Source := .str s, Options := opts }) :=
  ⟨fun _ => rfl, fun _ _ => rfl⟩

/-- C10: parseVariableDefinition at a `$` token fails with
"Expected :, found $" at that token's offset - the function looks for the
optional default value and then requires `:` before the variable - so the
standard form `($name: Type)` is never accepted, as the concrete document
`query q($x: Int) \x7b f \x7d` shows. -/
theorem c10_variable_definition_expects_colon :
    (∀ (fuel : Nat) (p : Parser), p.Token.Kind = .DOLLAR →
      parseVariableDefinition (fuel + 1) p =
        .ret (.vDef zeroVariableDefinition)
          (some (NewSyntaxError p.Source p.Token.Start
            ("Expected :, found " ++ GetTokenDesc p.Token)))
          p) ∧
    Parse { Source := .str "query q($x: Int) \x7b f \x7d", Options := defaultOptions } =
      .ret zeroDocument
        (some (NewSyntaxError (NewSource "query q($x: Int) \x7b f \x7d" "") 8
          "Expected :, found $")) := by
  refine ⟨?_, rfl⟩
  intro fuel p h
  rw [parseVariableDefinition]
  simp [skip, expect, h]
  rfl

/-- Witness for C10: a concrete cursor standing on a `$` token. -/
theorem c10_variable_definition_expects_colon_witness :
    parseVariableDefinition 10 (makeParser (NewSource "$x: Int" "") defaultOptions) =
      .ret (.vDef zeroVariableDefinition)
        (some (NewSyntaxError (NewSource "$x: Int" "") 0 "Expected :, found $"))
        (makeParser (NewSource "$x: Int" "") defaultOptions) :=
  c10_variable_definition_expects_colon.1 9
    (makeParser (NewSource "$x: Int" "") defaultOptions) rfl

/-- C6: for every document accepted under the default options, every
constructed node's location records exactly the span from the Start offset
of the first token of that node's production to the cursor's
previous-token End offset at the production's completion, so Start ≤ End
for every node.  Each AST constructor site of the parser lies in exactly
one production, and the exactness statement below is universally
quantified over every invocation of every such production - name,
named-type, fragment-name, variable, value/array, type (outermost wrapper
via topLoc; inner wrappers are built by the inner invocations the same
statements cover), argument, variable-definition, directive,
selection-set, field, fragment spread and inline fragment, operation
definition, fragment definition and document - so it covers every node any
accepted parse constructs (optional parts left absent are zero values with
the zero location, built by no production).  The first conjunct states the
resulting global ordering Start ≤ End over the whole tree of any accepted
document via the recursive locsWF predicate. -/
theorem c6_location_spans :
    (∀ (src : String) (doc : Document),
      Parse { Source := .str src, Options := defaultOptions } = .ret doc none →
      Document.locsWF doc = true) ∧
    (∀ (fuel : Nat) (p : Parser) (doc : Document) (p' : Parser),
      p.Options = defaultOptions →
      parseDocument fuel p = .ret doc none p' →
      doc.Loc.Start = p.Token.Start ∧ doc.Loc.End = p'.PrevEnd) ∧
    (∀ (fuel : Nat) (p : Parser) (ss : SelectionSet) (p' : Parser),
      p.Options = defaultOptions →
      parseSelectionSet fuel p = .ret ss none p' →
      (SelectionSet.Loc ss).Start = p.Token.Start ∧
        (SelectionSet.Loc ss).End = p'.PrevEnd) ∧
    (∀ (p : Parser) (n : Name) (p' : Parser),
      p.Options = defaultOptions →
      parseName p = (n, none, p') →
      n.Loc.Start = p.Token.Start ∧ n.Loc.End = p'.PrevEnd) ∧
    (∀ (p : Parser) (n : NamedType) (p' : Parser),
      p.Options = defaultOptions →
      parseNamedType p = (n, none, p') →
      (NamedType.Loc n).Start = p.Token.Start ∧
        (NamedType.Loc n).End = p'.PrevEnd) ∧
    (∀ (p : Parser) (n : Name) (p' : Parser),
      p.Options = defaultOptions →
      parseFragmentName p = (n, none, p') →
      n.Loc.Start = p.Token.Start ∧ n.Loc.End = p'.PrevEnd) ∧
    (∀ (p : Parser) (v : Variable) (p' : Parser),
      p.Options = defaultOptions →
      parseVariable p = (v, none, p') →
      v.Loc.Start = p.Token.Start ∧ v.Loc.End = p'.PrevEnd) ∧
    (∀ (fuel : Nat) (p : Parser) (c : Bool) (v : Value) (p' : Parser),
      p.Options = defaultOptions →
      parseValue fuel p c = .ret v none p' →
      ∃ a : ArrayValue, v = .array a ∧
        (ArrayValue.Loc a).Start = p.Token.Start ∧
        (ArrayValue.Loc a).End = p'.PrevEnd) ∧
    (∀ (fuel : Nat) (p : Parser) (c : Bool) (a : ArrayValue) (p' : Parser),
      p.Options = defaultOptions →
      parseArray fuel p c = .ret a none p' →
      (ArrayValue.Loc a).Start = p.Token.Start ∧
        (ArrayValue.Loc a).End = p'.PrevEnd) ∧
    (∀ (fuel : Nat) (p : Parser) (t : TypeNode) (p' : Parser),
      p.Options = defaultOptions →
      parseType fuel p = .ret t none p' →
      (TypeNode.topLoc t).Start = p.Token.Start ∧
        (TypeNode.topLoc t).End = p'.PrevEnd) ∧
    (∀ (fuel : Nat) (p : Parser) (v : NodeV) (p' : Parser),
      p.Options = defaultOptions →
      parseArgument fuel p = .ret v none p' →
      ∃ a : Argument, v = .arg a ∧
        a.Loc.Start = p.Token.Start ∧ a.Loc.End = p'.PrevEnd) ∧
    (∀ (fuel : Nat) (p : Parser) (v : NodeV) (p' : Parser),
      p.Options = defaultOptions →
      parseVariableDefinition fuel p = .ret v none p' →
      ∃ d : VariableDefinition, v = .vDef d ∧
        d.Loc.Start = p.Token.Start ∧ d.Loc.End = p'.PrevEnd) ∧
    (∀ (fuel : Nat) (p : Parser) (d : Directive) (p' : Parser),
      p.Options = defaultOptions →
      parseDirective fuel p = .ret d none p' →
      d.Loc.Start = p.Token.Start ∧ d.Loc.End = p'.PrevEnd) ∧
    (∀ (fuel : Nat) (p : Parser) (f : Field) (p' : Parser),
      p.Options = defaultOptions →
      parseField fuel p = .ret f none p' →
      (Field.Loc f).Start = p.Token.Start ∧ (Field.Loc f).End = p'.PrevEnd) ∧
    (∀ (fuel : Nat) (p : Parser) (v : NodeV) (p' : Parser),
      p.Options = defaultOptions →
      parseFragment fuel p = .ret v none p' →
      (∃ s : FragmentSpread, v = .spread s ∧
        s.Loc.Start = p.Token.Start ∧ s.Loc.End = p'.PrevEnd) ∨
      (∃ i : InlineFragment, v = .inline i ∧
        (InlineFragment.Loc i).Start = p.Token.Start ∧
        (InlineFragment.Loc i).End = p'.PrevEnd)) ∧
    (∀ (fuel : Nat) (p : Parser) (d : OperationDefinition) (p' : Parser),
      p.Options = defaultOptions →
      parseOperationDefinition fuel p = .ret d none p' →
      d.Loc.Start = p.Token.Start ∧ d.Loc.End = p'.PrevEnd) ∧
    (∀ (fuel : Nat) (p : Parser) (d : FragmentDefinition) (p' : Parser),
      p.Options = defaultOptions →
      parseFragmentDefinition fuel p = .ret d none p' →
      d.Loc.Start = p.Token.Start ∧ d.Loc.End = p'.PrevEnd) := by
  refine ⟨?_, span_parseDocument, span_parseSelectionSet, span_parseName,
    span_parseNamedType, span_parseFragmentName, span_parseVariable,
    span_parseValue, span_parseArray, span_parseType, span_parseArgument,
    span_parseVariableDefinition, span_parseDirective, span_parseField,
    span_parseFragment, span_parseOperationDefinition,
    span_parseFragmentDefinition⟩
  intro src doc h
  rw [Parse] at h
  dsimp only at h
  cases hd : parseDocument (parseFuel (NewSource src "").Body)
      (makeParser (NewSource src "") defaultOptions) with
  | ret d e p1 =>
    rw [hd] at h
    injection h with h1 h2
    subst h2
    exact h1 ▸ (parseDocument_wf _ _ d p1
      (SInv_makeParser (NewSource src "") defaultOptions) hd).2.2.2
  | panicked =>
    rw [hd] at h
    exact absurd h (by simp)
  | outOfFuel =>
    rw [hd] at h
    exact absurd h (by simp)

/-- Witness for C6: one concrete successful run of every production named
by the theorem, each with its exact span, plus a whole accepted document
whose every node span is ordered. -/
theorem c6_location_spans_witness :
    (∃ doc : Document,
      Parse { Source := .str "\x7b f \x7d", Options := defaultOptions } =
        .ret doc none ∧ Document.locsWF doc = true) ∧
    (∃ (doc : Document) (p' : Parser),
      parseDocument (parseFuel "\x7b f \x7d")
          (makeParser (NewSource "\x7b f \x7d" "") defaultOptions) =
        .ret doc none p' ∧
      doc.Loc.Start =
          (makeParser (NewSource "\x7b f \x7d" "") defaultOptions).Token.Start ∧
      doc.Loc.End = p'.PrevEnd) ∧
    (∃ (ss : SelectionSet) (p' : Parser),
      parseSelectionSet (parseFuel "\x7b f \x7d")
          (makeParser (NewSource "\x7b f \x7d" "") defaultOptions) =
        .ret ss none p' ∧
      (SelectionSet.Loc ss).Start =
          (makeParser (NewSource "\x7b f \x7d" "") defaultOptions).Token.Start ∧
      (SelectionSet.Loc ss).End = p'.PrevEnd) ∧
    (∃ (n : Name) (p' : Parser),
      parseName (makeParser (NewSource "f" "") defaultOptions) = (n, none, p') ∧
      n.Loc.Start = (makeParser (NewSource "f" "") defaultOptions).Token.Start ∧
      n.Loc.End = p'.PrevEnd) ∧
    (∃ (n : NamedType) (p' : Parser),
      parseNamedType (makeParser (NewSource "T" "") defaultOptions) =
        (n, none, p') ∧
      (NamedType.Loc n).Start =
          (makeParser (NewSource "T" "") defaultOptions).Token.Start ∧
      (NamedType.Loc n).End = p'.PrevEnd) ∧
    (∃ (n : Name) (p' : Parser),
      parseFragmentName (makeParser (NewSource "F" "") defaultOptions) =
        (n, none, p') ∧
      n.Loc.Start = (makeParser (NewSource "F" "") defaultOptions).Token.Start ∧
      n.Loc.End = p'.PrevEnd) ∧
    (∃ (v : Variable) (p' : Parser),
      parseVariable (makeParser (NewSource "$x" "") defaultOptions) =
        (v, none, p') ∧
      v.Loc.Start = (makeParser (NewSource "$x" "") defaultOptions).Token.Start ∧
      v.Loc.End = p'.PrevEnd) ∧
    (∃ (v : Value) (p' : Parser),
      parseValue 40 (makeParser (NewSource "\x7b]" "") defaultOptions) false =
        .ret v none p' ∧
      ∃ a : ArrayValue, v = .array a ∧
        (ArrayValue.Loc a).Start =
            (makeParser (NewSource "\x7b]" "") defaultOptions).Token.Start ∧
        (ArrayValue.Loc a).End = p'.PrevEnd) ∧
    (∃ (a : ArrayValue) (p' : Parser),
      parseArray 40 (makeParser (NewSource "\x7b]" "") defaultOptions) false =
        .ret a none p' ∧
      (ArrayValue.Loc a).Start =
          (makeParser (NewSource "\x7b]" "") defaultOptions).Token.Start ∧
      (ArrayValue.Loc a).End = p'.PrevEnd) ∧
    (∃ (t : TypeNode) (p' : Parser),
      parseType 40 (makeParser (NewSource "T!" "") defaultOptions) =
        .ret t none p' ∧
      (TypeNode.topLoc t).Start =
          (makeParser (NewSource "T!" "") defaultOptions).Token.Start ∧
      (TypeNode.topLoc t).End = p'.PrevEnd) ∧
    (∃ (v : NodeV) (p' : Parser),
      parseArgument 40 (makeParser (NewSource "x: \x7b]" "") defaultOptions) =
        .ret v none p' ∧
      ∃ a : Argument, v = .arg a ∧
        a.Loc.Start =
            (makeParser (NewSource "x: \x7b]" "") defaultOptions).Token.Start ∧
        a.Loc.End = p'.PrevEnd) ∧
    (∃ (v : NodeV) (p' : Parser),
      parseVariableDefinition 40
          (makeParser (NewSource ": $x T" "") defaultOptions) =
        .ret v none p' ∧
      ∃ d : VariableDefinition, v = .vDef d ∧
        d.Loc.Start =
            (makeParser (NewSource ": $x T" "") defaultOptions).Token.Start ∧
        d.Loc.End = p'.PrevEnd) ∧
    (∃ (d : Directive) (p' : Parser),
      parseDirective 40 (makeParser (NewSource "@d" "") defaultOptions) =
        .ret d none p' ∧
      d.Loc.Start = (makeParser (NewSource "@d" "") defaultOptions).Token.Start ∧
      d.Loc.End = p'.PrevEnd) ∧
    (∃ (f : Field) (p' : Parser),
      parseField 40 (makeParser (NewSource "f" "") defaultOptions) =
        .ret f none p' ∧
      (Field.Loc f).Start =
          (makeParser (NewSource "f" "") defaultOptions).Token.Start ∧
      (Field.Loc f).End = p'.PrevEnd) ∧
    (∃ (v : NodeV) (p' : Parser),
      parseFragment 40 (makeParser (NewSource "... Frag" "") defaultOptions) =
        .ret v none p' ∧
      ((∃ s : FragmentSpread, v = .spread s ∧
        s.Loc.Start =
            (makeParser (NewSource "... Frag" "") defaultOptions).Token.Start ∧
        s.Loc.End = p'.PrevEnd) ∨
       (∃ i : InlineFragment, v = .inline i ∧
        (InlineFragment.Loc i).Start =
            (makeParser (NewSource "... Frag" "") defaultOptions).Token.Start ∧
        (InlineFragment.Loc i).End = p'.PrevEnd))) ∧
    (∃ (d : OperationDefinition) (p' : Parser),
      parseOperationDefinition (parseFuel "\x7b f \x7d")
          (makeParser (NewSource "\x7b f \x7d" "") defaultOptions) =
        .ret d none p' ∧
      d.Loc.Start =
          (makeParser (NewSource "\x7b f \x7d" "") defaultOptions).Token.Start ∧
      d.Loc.End = p'.PrevEnd) ∧
    (∃ (d : FragmentDefinition) (p' : Parser),
      parseFragmentDefinition (parseFuel "fragment F on T \x7b f \x7d")
          (makeParser (NewSource "fragment F on T \x7b f \x7d" "")
            defaultOptions) =
        .ret d none p' ∧
      d.Loc.Start =
          (makeParser (NewSource "fragment F on T \x7b f \x7d" "")
            defaultOptions).Token.Start ∧
      d.Loc.End = p'.PrevEnd) :=
  ⟨⟨_, rfl, c6_location_spans.1 "\x7b f \x7d" _ rfl⟩,
   ⟨_, _, rfl, c6_location_spans.2.1 (parseFuel "\x7b f \x7d")
     (makeParser (NewSource "\x7b f \x7d" "") defaultOptions) _ _ rfl rfl⟩,
   ⟨_, _, rfl, c6_location_spans.2.2.1 (parseFuel "\x7b f \x7d")
     (makeParser (NewSource "\x7b f \x7d" "") defaultOptions) _ _ rfl rfl⟩,
   ⟨_, _, rfl, c6_location_spans.2.2.2.1
     (makeParser (NewSource "f" "") defaultOptions) _ _ rfl rfl⟩,
   ⟨_, _, rfl, c6_location_spans.2.2.2.2.1
     (makeParser (NewSource "T" "") defaultOptions) _ _ rfl rfl⟩,
   ⟨_, _, rfl, c6_location_spans.2.2.2.2.2.1
     (makeParser (NewSource "F" "") defaultOptions) _ _ rfl rfl⟩,
   ⟨_, _, rfl, c6_location_spans.2.2.2.2.2.2.1
     (makeParser (NewSource "$x" "") defaultOptions) _ _ rfl rfl⟩,
   ⟨_, _, rfl, c6_location_spans.2.2.2.2.2.2.2.1 40
     (makeParser (NewSource "\x7b]" "") defaultOptions) false _ _ rfl rfl⟩,
   ⟨_, _, rfl, c6_location_spans.2.2.2.2.2.2.2.2.1 40
     (makeParser (NewSource "\x7b]" "") defaultOptions) false _ _ rfl rfl⟩,
   ⟨_, _, rfl, c6_location_spans.2.2.2.2.2.2.2.2.2.1 40
     (makeParser (NewSource "T!" "") defaultOptions) _ _ rfl rfl⟩,
   ⟨_, _, rfl, c6_location_spans.2.2.2.2.2.2.2.2.2.2.1 40
     (makeParser (NewSource "x: \x7b]" "") defaultOptions) _ _ rfl rfl⟩,
   ⟨_, _, rfl, c6_location_spans.2.2.2.2.2.2.2.2.2.2.2.1 40
     (makeParser (NewSource ": $x T" "") defaultOptions) _ _ rfl rfl⟩,
   ⟨_, _, rfl, c6_location_spans.2.2.2.2.2.2.2.2.2.2.2.2.1 40
     (makeParser (NewSource "@d" "") defaultOptions) _ _ rfl rfl⟩,
   ⟨_, _, rfl, c6_location_spans.2.2.2.2.2.2.2.2.2.2.2.2.2.1 40
     (makeParser (NewSource "f" "") defaultOptions) _ _ rfl rfl⟩,
   ⟨_, _, rfl, c6_location_spans.2.2.2.2.2.2.2.2.2.2.2.2.2.2.1 40
     (makeParser (NewSource "... Frag" "") defaultOptions) _ _ rfl rfl⟩,
   ⟨_, _, rfl, c6_location_spans.2.2.2.2.2.2.2.2.2.2.2.2.2.2.2.1
     (parseFuel "\x7b f \x7d")
     (makeParser (NewSource "\x7b f \x7d" "") defaultOptions) _ _ rfl rfl⟩,
   ⟨_, _, rfl, c6_location_spans.2.2.2.2.2.2.2.2.2.2.2.2.2.2.2.2
     (parseFuel "fragment F on T \x7b f \x7d")
     (makeParser (NewSource "fragment F on T \x7b f \x7d" "") defaultOptions)
     _ _ rfl rfl⟩⟩

end GQL
